import Mathlib

/-! QuestFlow: the record store of `src/js/storage.js`

A shallow embedding of the storage module (`Storage` in `src/js/storage.js`) and of
the JavaScript primitives it relies on, followed by theorems about its operations.

Modelling conventions:

* JavaScript values are the terms of `JVal`. Numbers are integers. Objects are plain
  data objects: an association list of own properties in insertion order, with no
  accessors and nothing inherited that shadows the property names the store reads
  (`id`, `createdAt`, `updatedAt`, `media`, `data`, `type`, `path`, `length`).
* Object identity is not represented. `===` on two objects, arrays or blobs is
  `false`: a key obtained from JSON text or typed by a caller is never the very
  object held by a stored record.
* A computation that may throw returns an `Option`; `none` is the thrown exception.
* Host services whose result the module does not control are inputs: the clock
  (`new Date().toISOString()`), the id generator (`utils.generateUniqueId()`), the
  date parser (`new Date(v)`), string-to-number conversion, and which calls of the
  File System Access API reject (`Faults`).
* `localStorage` and files hold JSON text; the model keeps the value that text
  denotes (`jsonClone`) instead of the text. `localStorage.setItem` succeeds.
* The length of a string counts its characters; the store only uses it to bound a
  loop whose body does nothing on the characters of a string.
-/

namespace QuestFlow

/-- JavaScript values handled by the store. -/
inductive JVal where
  | undefined
  | null
  | bool (b : Bool)
  | num (n : Int)
  | str (s : String)
  | blob (bytes : List Nat)
  | arr (items : List JVal)
  | obj (fields : List (String × JVal))
  deriving Repr, Inhabited

/-- Own properties of a plain object, in insertion order. -/
abbrev Obj := List (String × JVal)

namespace JVal

mutual
/-- Structural equality test on values. -/
def beq : JVal → JVal → Bool
  | undefined, undefined => true
  | null, null => true
  | bool a, bool b => a == b
  | num a, num b => a == b
  | str a, str b => a == b
  | blob a, blob b => a == b
  | arr a, arr b => beqList a b
  | obj a, obj b => beqFields a b
  | _, _ => false
/-- Structural equality test on arrays of values. -/
def beqList : List JVal → List JVal → Bool
  | [], [] => true
  | x :: xs, y :: ys => beq x y && beqList xs ys
  | _, _ => false
/-- Structural equality test on property lists. -/
def beqFields : List (String × JVal) → List (String × JVal) → Bool
  | [], [] => true
  | (k, x) :: xs, (l, y) :: ys => k == l && beq x y && beqFields xs ys
  | _, _ => false
end

mutual
theorem eq_of_beq : ∀ a b : JVal, beq a b = true → a = b
  | undefined, undefined, _ => rfl
  | null, null, _ => rfl
  | bool a, bool b, h => by simp [beq] at h; rw [h]
  | num a, num b, h => by simp [beq] at h; rw [h]
  | str a, str b, h => by simp [beq] at h; rw [h]
  | blob a, blob b, h => by simp [beq] at h; rw [h]
  | arr a, arr b, h => by simp only [beq] at h; rw [eq_of_beqList a b h]
  | obj a, obj b, h => by simp only [beq] at h; rw [eq_of_beqFields a b h]
  | undefined, null, h | undefined, bool _, h | undefined, num _, h | undefined, str _, h
  | undefined, blob _, h | undefined, arr _, h | undefined, obj _, h => by simp [beq] at h
  | null, undefined, h | null, bool _, h | null, num _, h | null, str _, h
  | null, blob _, h | null, arr _, h | null, obj _, h => by simp [beq] at h
  | bool _, undefined, h | bool _, null, h | bool _, num _, h | bool _, str _, h
  | bool _, blob _, h | bool _, arr _, h | bool _, obj _, h => by simp [beq] at h
  | num _, undefined, h | num _, null, h | num _, bool _, h | num _, str _, h
  | num _, blob _, h | num _, arr _, h | num _, obj _, h => by simp [beq] at h
  | str _, undefined, h | str _, null, h | str _, bool _, h | str _, num _, h
  | str _, blob _, h | str _, arr _, h | str _, obj _, h => by simp [beq] at h
  | blob _, undefined, h | blob _, null, h | blob _, bool _, h | blob _, num _, h
  | blob _, str _, h | blob _, arr _, h | blob _, obj _, h => by simp [beq] at h
  | arr _, undefined, h | arr _, null, h | arr _, bool _, h | arr _, num _, h
  | arr _, str _, h | arr _, blob _, h | arr _, obj _, h => by simp [beq] at h
  | obj _, undefined, h | obj _, null, h | obj _, bool _, h | obj _, num _, h
  | obj _, str _, h | obj _, blob _, h | obj _, arr _, h => by simp [beq] at h
theorem eq_of_beqList : ∀ a b : List JVal, beqList a b = true → a = b
  | [], [], _ => rfl
  | x :: xs, y :: ys, h => by
      simp only [beqList, Bool.and_eq_true] at h
      rw [eq_of_beq x y h.1, eq_of_beqList xs ys h.2]
  | [], _ :: _, h | _ :: _, [], h => by simp [beqList] at h
theorem eq_of_beqFields : ∀ a b : List (String × JVal), beqFields a b = true → a = b
  | [], [], _ => rfl
  | (k, x) :: xs, (l, y) :: ys, h => by
      simp only [beqFields, Bool.and_eq_true, beq_iff_eq] at h
      rw [h.1.1, eq_of_beq x y h.1.2, eq_of_beqFields xs ys h.2]
  | [], _ :: _, h | _ :: _, [], h => by simp [beqFields] at h
end

mutual
theorem beq_self : ∀ a : JVal, beq a a = true
  | undefined | null => rfl
  | bool _ | num _ | str _ | blob _ => by simp [beq]
  | arr a => by simp only [beq]; exact beqList_self a
  | obj a => by simp only [beq]; exact beqFields_self a
theorem beqList_self : ∀ a : List JVal, beqList a a = true
  | [] => rfl
  | x :: xs => by simp only [beqList, beq_self x, beqList_self xs]; rfl
theorem beqFields_self : ∀ a : List (String × JVal), beqFields a a = true
  | [] => rfl
  | (k, x) :: xs => by simp [beqFields, beq_self x, beqFields_self xs]
end

instance : DecidableEq JVal := fun a b =>
  if h : beq a b = true then isTrue (eq_of_beq a b h)
  else isFalse (fun e => h (e ▸ beq_self a))

end JVal

/-! ## JavaScript primitives used by the store -/

/-- Truthiness of a value (`if (v)`, `!v`, `a && b`). -/
def truthy : JVal → Bool
  | .undefined => false
  | .null => false
  | .bool b => b
  | .num n => n != 0
  | .str s => s != ""
  | .blob _ => true
  | .arr _ => true
  | .obj _ => true

/-- Strict equality `a === b`. Objects, arrays and blobs are compared by identity,
which no two values of the model share. -/
def strictEq : JVal → JVal → Bool
  | .undefined, .undefined => true
  | .null, .null => true
  | .bool a, .bool b => a == b
  | .num a, .num b => a == b
  | .str a, .str b => a == b
  | _, _ => false

/-- Own property `k` of a plain object, if it has one (first entry wins). -/
def field (o : Obj) (k : String) : Option JVal := o.lookup k

/-- Property read `v.k` for the names the store reads. Reading a property of
`undefined` or `null` throws a TypeError (`none`); a missing property is `undefined`. -/
def getProp (v : JVal) (k : String) : Option JVal :=
  match v with
  | .undefined => none
  | .null => none
  | .obj fs => some ((field fs k).getD .undefined)
  | .arr xs => some (if k = "length" then .num xs.length else .undefined)
  | .str s => some (if k = "length" then .num s.length else .undefined)
  | _ => some .undefined

/-- One-character string. -/
def charStr (c : Char) : JVal := .str (String.mk [c])

/-- Indexed read `v[i]`. -/
def getIndex (v : JVal) (i : Nat) : Option JVal :=
  match v with
  | .undefined => none
  | .null => none
  | .arr xs => some (xs.getD i .undefined)
  | .str s => some (((s.data.map charStr)).getD i .undefined)
  | .obj fs => some ((field fs (toString i)).getD .undefined)
  | _ => some .undefined

/-- Assignment `o.k = v` on a plain object: overwrite in place, or append. -/
def setProp : Obj → String → JVal → Obj
  | [], k, v => [(k, v)]
  | (k0, v0) :: rest, k, v =>
      if k0 = k then (k, v) :: rest else (k0, v0) :: setProp rest k v

/-- Removal `delete o.k` on a plain object. -/
def deleteProp (o : Obj) (k : String) : Obj := o.filter (fun kv => kv.1 != k)

mutual
/-- String conversion of a value, as in a template literal. -/
def toStr : JVal → String
  | .undefined => "undefined"
  | .null => "null"
  | .bool true => "true"
  | .bool false => "false"
  | .num n => toString n
  | .str s => s
  | .blob _ => "[object Blob]"
  | .arr xs => (joinFrom xs).drop 1
  | .obj _ => "[object Object]"
/-- Items of an array, each preceded by a comma; `undefined` and `null` print empty. -/
def joinFrom : List JVal → String
  | [] => ""
  | .undefined :: xs => "," ++ joinFrom xs
  | .null :: xs => "," ++ joinFrom xs
  | x :: xs => "," ++ toStr x ++ joinFrom xs
end

/-- Services of the host the store calls but does not implement. -/
structure Host where
  /-- Time value of `new Date(v)`; `none` for an invalid date (NaN). -/
  dateOf : JVal → Option Int
  /-- Numeric value of a string; `none` for NaN. -/
  strToNum : String → Option Int

/-- Numeric conversion of a value; `none` is NaN. -/
def toNumber (h : Host) : JVal → Option Int
  | .undefined => none
  | .null => some 0
  | .bool b => some (if b then 1 else 0)
  | .num n => some n
  | .str s => h.strToNum s
  | v => h.strToNum (toStr v)

/-- Comparison `a > b` of two numbers, false as soon as one is NaN. -/
def numGt (a b : Option Int) : Bool :=
  match a, b with
  | some x, some y => decide (y < x)
  | _, _ => false

/-- Own enumerable properties of a value, as copied by object spread. -/
def ownProps : JVal → Obj
  | .obj fs => fs
  | .arr xs => xs.enum.map (fun p => (toString p.1, p.2))
  | .str s => s.data.enum.map (fun p => (toString p.1, charStr p.2))
  | _ => []

/-- Object spread of `a` then `b`: the properties of `a` keep their place and take
the value `b` gives them, the properties only `b` has follow in the order of `b`. -/
def spread (a b : Obj) : Obj :=
  a.map (fun kv => (kv.1, (field b kv.1).getD kv.2)) ++
    b.filter (fun kv => (field a kv.1).isNone)

mutual
/-- Value denoted by the text `JSON.stringify(v)`, for `v` other than `undefined`:
blobs have no enumerable property, properties holding `undefined` are dropped. -/
def jsonClone : JVal → JVal
  | .blob _ => .obj []
  | .arr xs => .arr (jsonCloneItems xs)
  | .obj fs => .obj (jsonCloneFields fs)
  | v => v
/-- Items of a serialised array: `undefined` is written as `null`. -/
def jsonCloneItems : List JVal → List JVal
  | [] => []
  | .undefined :: xs => .null :: jsonCloneItems xs
  | x :: xs => jsonClone x :: jsonCloneItems xs
/-- Properties of a serialised object. -/
def jsonCloneFields : List (String × JVal) → List (String × JVal)
  | [] => []
  | (_, .undefined) :: fs => jsonCloneFields fs
  | (k, v) :: fs => (k, jsonClone v) :: jsonCloneFields fs
end

/-- Split of a string at every occurrence of the character `c` (`s.split(c)`). -/
def splitOn (c : Char) : List Char → List (List Char)
  | [] => [[]]
  | x :: xs =>
      if x = c then [] :: splitOn c xs
      else match splitOn c xs with
        | [] => [[x]]
        | seg :: segs => (x :: seg) :: segs

/-- Test `s.startsWith(p)`. -/
def startsWith (s p : String) : Bool := p.data.isPrefixOf s.data

/-- Second segment `type.split('/')[1]` of a media type that contains a slash. -/
def subtype (type : String) : String := String.mk ((splitOn '/' type.data).getD 1 [])

/-- Translation of `_getFileExtension`: `type.startsWith` throws unless `type` is a string. -/
def getFileExtension (type : JVal) : Option String :=
  match type with
  | .str t =>
      if startsWith t "image/" then
        some ("." ++ (if subtype t = "jpeg" then "jpg" else subtype t))
      else if startsWith t "audio/" then
        some ("." ++ subtype t)
      else some ""
  | _ => none

/-! ## The durable backend: a directory chosen by the user -/

/-- Content of a file: the JSON value its text denotes (for a media file, the data
written to it), or `none` for a file that holds no such text, as one just created. -/
abbrev Content := Option JVal

/-- Whether a directory listing has an entry called `name`. -/
def hasEntry (fs : List (String × Content)) (name : String) : Bool :=
  fs.any (fun e => e.1 == name)

/-- Effect of `getFileHandle(name, { create: true })`: an absent file is created empty. -/
def createEntry (fs : List (String × Content)) (name : String) : List (String × Content) :=
  if hasEntry fs name then fs else fs ++ [(name, none)]

/-- Effect of closing a writable stream on the file `name` after writing `c`. -/
def writeEntry (fs : List (String × Content)) (name : String) (c : JVal) :
    List (String × Content) :=
  if hasEntry fs name then fs.map (fun e => if e.1 == name then (name, some c) else e)
  else fs ++ [(name, some c)]

/-- Effect of a successful `removeEntry(name)`. -/
def dropEntry (fs : List (String × Content)) (name : String) : List (String × Content) :=
  fs.filter (fun e => e.1 != name)

/-- The directory behind `_directoryHandle`: its files and, when it exists, the
files of its `media` subdirectory (`MEDIA_FOLDER`). -/
structure Dir where
  files : List (String × Content)
  media : Option (List (String × Content))
  deriving DecidableEq

/-- Calls of the File System Access API made by the store. -/
inductive FsOp where
  | getFileHandle (name : String)
  | createWritable (name : String)
  | write (name : String)
  | close (name : String)
  | getMediaDir
  | mediaGetFileHandle (name : String)
  | mediaCreateWritable (name : String)
  | mediaWrite (name : String)
  | mediaClose (name : String)
  | removeEntry (name : String)
  | mediaRemoveEntry (name : String)
  | entries
  | getFile (name : String)
  deriving DecidableEq

/-- Which calls the host rejects, for a reason of its own (permission, quota, bad
name). Removing or opening what does not exist fails in any case. -/
abbrev Faults := FsOp → Bool

/-- Host under which no call is rejected. -/
def noFaults : Faults := fun _ => false

/-- Value of `x.length`, `undefined` when `x` has none. -/
def lengthOf (x : JVal) : JVal := (getProp x "length").getD .undefined

/-- Test `x && x.length > 0`. -/
def nonEmpty (h : Host) (x : JVal) : Bool :=
  truthy x && numGt (toNumber h (lengthOf x)) (some 0)

/-- Assignment `v[i] = x` at an index that `v` has. -/
def setIndex (v : JVal) (i : Nat) (x : JVal) : JVal :=
  match v with
  | .arr xs => .arr (xs.set i x)
  | .obj fs => .obj (setProp fs (toString i) x)
  | w => w

/-- Statements `questionCopy.media[i].path = path; delete questionCopy.media[i].data`.
TypeError when `questionCopy.media[i]` is `undefined` or `null`. -/
def rewriteCopy (copy : JVal) (i : Nat) (path : String) : Option JVal :=
  match copy with
  | .obj fs =>
      let media := (field fs "media").getD .undefined
      match getIndex media i with
      | some (.obj item) =>
          let item1 := deleteProp (setProp item "path" (.str path)) "data"
          some (.obj (setProp fs "media" (setIndex media i (.obj item1))))
      | some .undefined => none
      | some .null => none
      | some _ => some copy
      | none => none
  | _ => none

/-- Body of the loop of `_saveQuestionToFileSystem` for index `i`: the media files and
the question copy after it, and whether it ran to its end without throwing. -/
def saveMediaItem (f : Faults) (id media : JVal) (i : Nat)
    (st : List (String × Content) × JVal) : (List (String × Content) × JVal) × Bool :=
  match getIndex media i with
  | none => (st, false)
  | some item =>
    match getProp item "data" with
    | none => (st, false)
    | some data =>
      if !truthy data then (st, true) else
      match (getProp item "type").bind getFileExtension with
      | none => (st, false)
      | some ext =>
        let fileName := toStr id ++ "_" ++ toString i ++ ext
        if f (.mediaGetFileHandle fileName) then (st, false) else
        let files1 := createEntry st.1 fileName
        if f (.mediaCreateWritable fileName) || f (.mediaWrite fileName)
            || f (.mediaClose fileName) then ((files1, st.2), false) else
        let files2 := writeEntry files1 fileName data
        match rewriteCopy st.2 i ("media/" ++ fileName) with
        | none => ((files2, st.2), false)
        | some copy => ((files2, copy), true)

/-- Loop `for (let i = 0; i < question.media.length; i++)`, stopped by a throw. -/
def saveMediaLoop (f : Faults) (id media : JVal) :
    List Nat → List (String × Content) × JVal → (List (String × Content) × JVal) × Bool
  | [], st => (st, true)
  | i :: rest, st =>
      match saveMediaItem f id media i st with
      | (st1, true) => saveMediaLoop f id media rest st1
      | (st1, false) => (st1, false)

/-- Translation of `_saveQuestionToFileSystem` on the directory `d`: the directory
afterwards, and `true` when the call completed, `false` when it threw. -/
def saveQuestionToFileSystem (h : Host) (f : Faults) (d : Dir) (question : JVal) :
    Dir × Bool :=
  match getProp question "id" with
  | none => (d, false)
  | some id =>
    let name := toStr id ++ ".json"
    if f (.getFileHandle name) then (d, false) else
    let d1 : Dir := { d with files := createEntry d.files name }
    if f (.createWritable name) then (d1, false) else
    let copy := jsonClone question
    let media := (getProp question "media").getD .undefined
    let r : (Dir × JVal) × Bool :=
      if nonEmpty h media then
        if f .getMediaDir then ((d1, copy), false) else
        let count := ((toNumber h (lengthOf media)).getD 0).toNat
        let r := saveMediaLoop f id media (List.range count) (d1.media.getD [], copy)
        (({ d1 with media := some r.1.1 }, r.1.2), r.2)
      else ((d1, copy), true)
    if !r.2 then (r.1.1, false) else
    if f (.write name) || f (.close name) then (r.1.1, false) else
    ({ r.1.1 with files := writeEntry r.1.1.files name r.1.2 }, true)

/-- Last segment `path.split('/').pop()`. -/
def lastSegment (path : String) : String :=
  String.mk ((splitOn '/' path.data).getLast?.getD [])

/-- Items visited by `for (const x of v)`; `none` when `v` is not iterable. -/
def iterate : JVal → Option (List JVal)
  | .arr xs => some xs
  | .str s => some (s.data.map charStr)
  | _ => none

/-- Body of the loop of `_deleteQuestionFromFileSystem` for one media item: a failed
`removeEntry` is caught, anything else that throws leaves the loop. -/
def deleteMediaItem (f : Faults) (item : JVal) (files : List (String × Content)) :
    List (String × Content) × Bool :=
  match getProp item "path" with
  | none => (files, false)
  | some path =>
    if !truthy path then (files, true) else
    match path with
    | .str p =>
        let fileName := lastSegment p
        if f (.mediaRemoveEntry fileName) || !hasEntry files fileName then (files, true)
        else (dropEntry files fileName, true)
    | _ => (files, false)

/-- Loop `for (const media of question.media)`, stopped by a throw. -/
def deleteMediaLoop (f : Faults) :
    List JVal → List (String × Content) → List (String × Content) × Bool
  | [], files => (files, true)
  | item :: rest, files =>
      match deleteMediaItem f item files with
      | (files1, true) => deleteMediaLoop f rest files1
      | (files1, false) => (files1, false)

/-- Translation of `_deleteQuestionFromFileSystem` on the directory `d`: the
directory afterwards, and `true` when the call completed, `false` when it threw. -/
def deleteQuestionFromFileSystem (h : Host) (f : Faults) (d : Dir) (question : JVal) :
    Dir × Bool :=
  let d1 : Dir :=
    match getProp question "id" with
    | none => d
    | some id =>
      let name := toStr id ++ ".json"
      if f (.removeEntry name) || !hasEntry d.files name then d
      else { d with files := dropEntry d.files name }
  match getProp question "media" with
  | none => (d1, false)
  | some media =>
    if nonEmpty h media then
      if f .getMediaDir then (d1, false) else
      match d1.media with
      | none => (d1, false)
      | some files =>
        match iterate media with
        | none => (d1, false)
        | some items =>
          let r := deleteMediaLoop f items files
          ({ d1 with media := some r.1 }, r.2)
    else (d1, true)

/-! ## The record store -/

/-- State of the storage module. -/
structure Store where
  /-- The array `_questions`. -/
  questions : List JVal
  /-- The item `questflow_questions` of `localStorage`, when set. -/
  stored : Option (List JVal)
  /-- Result of `utils.isFileSystemAccessSupported()`. -/
  fsSupported : Bool
  /-- The directory behind `_directoryHandle`, `none` while the handle is `null`. -/
  dir : Option Dir
  deriving DecidableEq

/-- Result of an asynchronous operation that resolves to a boolean or rejects. -/
inductive Outcome where
  | returned (b : Bool)
  | threw
  deriving DecidableEq, Repr

/-- Translation of `_saveQuestions`. -/
def saveQuestions (s : Store) : Store :=
  { s with stored := some (jsonCloneItems s.questions) }

/-- Translation of `getQuestions`: a fresh array with the same records. -/
def getQuestions (s : Store) : List JVal := s.questions

/-- Search `findIndex(q => q.id === key)`, where `key` is `none` when evaluating the
right-hand side throws. Outer `none`: the callback threw; `some none`: index `-1`. -/
def findIndexById : List JVal → Option JVal → Option (Option Nat)
  | [], _ => some none
  | q :: rest, key =>
      match getProp q "id", key with
      | some v, some k =>
          if strictEq v k then some (some 0)
          else (findIndexById rest key).map (fun r => r.map (fun i => i + 1))
      | _, _ => none

/-- Translation of `getQuestionById`: the record found, `undefined` when there is
none; `none` when the search throws. -/
def getQuestionById (s : Store) (id : JVal) : Option JVal :=
  (findIndexById s.questions (some id)).map fun r =>
    match r with
    | some i => s.questions.getD i .undefined
    | none => .undefined

/-- Test `utils.isFileSystemAccessSupported() && _directoryHandle`. -/
def durable (s : Store) : Bool := s.fsSupported && s.dir.isSome

/-- Call of `_saveQuestionToFileSystem` from the store: it throws when there is no
directory handle. -/
def saveToFileSystem (h : Host) (f : Faults) (s : Store) (question : JVal) : Store × Bool :=
  match s.dir with
  | none => (s, false)
  | some d =>
      let r := saveQuestionToFileSystem h f d question
      ({ s with dir := some r.1 }, r.2)

/-- Call of `_deleteQuestionFromFileSystem` from the store. -/
def deleteFromFileSystem (h : Host) (f : Faults) (s : Store) (question : JVal) :
    Store × Bool :=
  match s.dir with
  | none => (s, false)
  | some d =>
      let r := deleteQuestionFromFileSystem h f d question
      ({ s with dir := some r.1 }, r.2)

/-- The draft as `addQuestion` completes it: an id when it has none that is truthy,
`createdAt` likewise, and `updatedAt` in every case. -/
def stamp (freshId tCreated tUpdated : String) (question : Obj) : Obj :=
  let q1 := if !truthy ((field question "id").getD .undefined)
    then setProp question "id" (.str freshId) else question
  let q2 := if !truthy ((field q1 "createdAt").getD .undefined)
    then setProp q1 "createdAt" (.str tCreated) else q1
  setProp q2 "updatedAt" (.str tUpdated)

/-- Translation of `addQuestion`. `freshId` is what `utils.generateUniqueId()` returns,
`tCreated` and `tUpdated` what the two readings of the clock return. -/
def addQuestion (h : Host) (f : Faults) (freshId tCreated tUpdated : String)
    (s : Store) (question : Obj) : Store × Bool :=
  let q := JVal.obj (stamp freshId tCreated tUpdated question)
  let s1 := saveQuestions { s with questions := s.questions ++ [q] }
  if durable s1 then saveToFileSystem h f s1 q else (s1, true)

/-- Translation of `updateQuestion`; `now` is the reading of the clock. -/
def updateQuestion (h : Host) (f : Faults) (now : String)
    (s : Store) (id : JVal) (updatedQuestion : Obj) : Store × Outcome :=
  match findIndexById s.questions (some id) with
  | none => (s, .threw)
  | some none => (s, .returned false)
  | some (some index) =>
      let patch := setProp updatedQuestion "updatedAt" (.str now)
      let q := JVal.obj (spread (ownProps (s.questions.getD index .undefined)) patch)
      let s1 := saveQuestions { s with questions := s.questions.set index q }
      if durable s1 then
        let r := saveToFileSystem h f s1 q
        (r.1, .returned r.2)
      else (s1, .returned true)

/-- Translation of `deleteQuestion`. -/
def deleteQuestion (h : Host) (f : Faults) (s : Store) (id : JVal) : Store × Outcome :=
  match findIndexById s.questions (some id) with
  | none => (s, .threw)
  | some none => (s, .returned false)
  | some (some index) =>
      let deletedQuestion := s.questions.getD index .undefined
      let s1 := saveQuestions { s with questions := s.questions.eraseIdx index }
      if durable s1 then
        let r := deleteFromFileSystem h f s1 deletedQuestion
        (r.1, .returned r.2)
      else (s1, .returned true)

/-- Body of the merge loop of `importQuestions` for one imported item: the collection
afterwards, `none` when the body throws. -/
def mergeOne (h : Host) (qs : List JVal) (question : JVal) : Option (List JVal) :=
  match findIndexById qs (getProp question "id") with
  | none => none
  | some none => some (qs ++ [question])
  | some (some existingIndex) =>
      match getProp (qs.getD existingIndex .undefined) "updatedAt",
          getProp question "updatedAt" with
      | some existing, some imported =>
          if numGt (h.dateOf imported) (h.dateOf existing)
          then some (qs.set existingIndex question) else some qs
      | _, _ => none

/-- Merge loop `for (const question of importedQuestions)`: the collection when the
loop ends, and `true` when it ended normally, `false` when an item made it throw. -/
def mergeLoop (h : Host) : List JVal → List JVal → List JVal × Bool
  | qs, [] => (qs, true)
  | qs, question :: rest =>
      match mergeOne h qs question with
      | none => (qs, false)
      | some qs1 => mergeLoop h qs1 rest

/-- Loop `for (const question of _questions) await _saveQuestionToFileSystem(question)`. -/
def saveAll (h : Host) (f : Faults) : Store → List JVal → Store × Bool
  | s, [] => (s, true)
  | s, q :: rest =>
      match saveToFileSystem h f s q with
      | (s1, true) => saveAll h f s1 rest
      | (s1, false) => (s1, false)

/-- What `importQuestions` gets from the file picker. -/
inductive ImportInput where
  /-- The picker or the reading of the file rejects. -/
  | unavailable
  /-- The text of the file is not JSON: `JSON.parse` throws. -/
  | unparsable
  /-- The text of the file denotes the value `v`. -/
  | parsed (v : JVal)

/-- Translation of `importQuestions`: the store afterwards and the value returned,
`none` for `false` and `some n` for the number `n`. -/
def importQuestions (h : Host) (f : Faults) (s : Store) (input : ImportInput) :
    Store × Option Nat :=
  match input with
  | .unavailable => (s, none)
  | .unparsable => (s, none)
  | .parsed (.arr importedQuestions) =>
      match mergeLoop h s.questions importedQuestions with
      | (qs, false) => ({ s with questions := qs }, none)
      | (qs, true) =>
          let s1 := saveQuestions { s with questions := qs }
          if durable s1 then
            match saveAll h f s1 s1.questions with
            | (s2, true) => (s2, some importedQuestions.length)
            | (s2, false) => (s2, none)
          else (s1, some importedQuestions.length)
  | .parsed _ => (s, none)

/-- Translation of `exportQuestions`: the value denoted by the text written to the
file the user picks, `none` when the picker or a write rejects (the function then
returns `false`, and `true` otherwise). -/
def exportQuestions (s : Store) (accepted : Bool) : Option JVal :=
  if accepted then some (.arr (jsonCloneItems s.questions)) else none

/-- Test `s.endsWith(p)`. -/
def endsWith (s p : String) : Bool := p.data.isSuffixOf s.data

/-- Loop of `_loadQuestionsFromFileSystem` over the files of the directory (its
other entries are directories, which the loop skips): the questions collected, `none`
when reading a file rejects. A file whose text is not JSON is skipped. -/
def loadEntries (f : Faults) : List (String × Content) → List JVal → Option (List JVal)
  | [], newQuestions => some newQuestions
  | (name, content) :: rest, newQuestions =>
      if endsWith name ".json" then
        if f (.getFile name) then none
        else
          match content with
          | some question => loadEntries f rest (newQuestions ++ [question])
          | none => loadEntries f rest newQuestions
      else loadEntries f rest newQuestions

/-- Translation of `_loadQuestionsFromFileSystem`: the store afterwards and the
boolean returned; a rejected listing or read is caught and leaves the store as it was. -/
def loadQuestionsFromFileSystem (f : Faults) (s : Store) : Store × Bool :=
  match s.dir with
  | none => (s, false)
  | some d =>
      if f .entries then (s, false) else
      match loadEntries f d.files [] with
      | none => (s, false)
      | some newQuestions => (saveQuestions { s with questions := newQuestions }, true)

/-! ## The application: settings, sync queue and their surroundings -/

/-- Item of the sync queue, as `addToSyncQueue` builds it. No other code puts an
item in `_syncQueue`: `_loadSyncQueue` is called by no function. -/
structure QueueItem where
  id : String
  action : JVal
  data : JVal
  timestamp : String
  retries : Nat
  deriving DecidableEq

/-- Notification shown by `utils.showNotification`: its type and its title. -/
structure Notice where
  severity : String
  title : String
  deriving DecidableEq

/-- State of the application: the storage module, the sync module and what they act
on. -/
structure App where
  /-- Questions, fallback store and directory of the storage module. -/
  store : Store
  /-- The object `_settings` of the storage module. -/
  settings : Obj
  /-- The item `questflow_settings` of `localStorage`, when set. -/
  storedSettings : Option Obj
  /-- Whether the document body has the class `dark-mode`. -/
  darkMode : Bool
  /-- The variable `_isSyncing` of the sync module. -/
  isSyncing : Bool
  /-- The variable `_lastSyncTime` of the sync module. -/
  lastSyncTime : JVal
  /-- The array `_syncQueue` of the sync module. -/
  syncQueue : List QueueItem
  /-- Index `i` of the loop of `_processSyncQueue` while it is suspended at
  `await _syncItem(item, settings)`, `none` when no drain is suspended. -/
  pending : Option Nat
  /-- The item `questflow_sync_queue` of `localStorage`, when set. -/
  storedQueue : Option (List JVal)
  /-- The value of `navigator.onLine`. -/
  online : Bool
  /-- The items handed to the transport (`fetch` in `_syncItem`), in order, each as
  it was when handed over. -/
  sent : List QueueItem
  /-- The notifications shown by the sync module, in order. -/
  notices : List Notice

/-- Translation of `_saveSettings`. -/
def saveSettings (a : App) : App :=
  { a with storedSettings := some (jsonCloneFields a.settings) }

/-- Translation of `_applySettings`. -/
def applySettings (a : App) : App :=
  { a with darkMode := truthy ((field a.settings "darkMode").getD .undefined) }

/-- Translation of `getSettings`: a fresh object with the same properties. -/
def getSettings (a : App) : Obj := a.settings

/-- Translation of `updateSettings`. -/
def updateSettings (a : App) (newSettings : Obj) : App :=
  applySettings (saveSettings { a with settings := spread a.settings newSettings })

/-- Translation of `chooseDirectory`. `picked` is the name and content of the
directory the user picks, `none` when the picker rejects. The result of
`_loadQuestionsFromFileSystem` is not looked at. -/
def chooseDirectory (f : Faults) (a : App) (picked : Option (String × Dir)) : App × Bool :=
  if !a.store.fsSupported then (a, false)
  else
    match picked with
    | none => (a, false)
    | some (name, d) =>
        let a1 := saveSettings
          { a with
            store := { a.store with dir := some d }
            settings := setProp a.settings "directoryName" (.str name) }
        ({ a1 with store := (loadQuestionsFromFileSystem f a1.store).1 }, true)

/-- The call `addQuestion` as a transition of the application: the function reads
and writes the state of the storage module and nothing else. -/
def appAddQuestion (h : Host) (f : Faults) (freshId tCreated tUpdated : String)
    (a : App) (question : Obj) : App × Bool :=
  ({ a with store := (addQuestion h f freshId tCreated tUpdated a.store question).1 },
    (addQuestion h f freshId tCreated tUpdated a.store question).2)

/-- The call `updateQuestion` as a transition of the application. -/
def appUpdateQuestion (h : Host) (f : Faults) (now : String)
    (a : App) (id : JVal) (updatedQuestion : Obj) : App × Outcome :=
  ({ a with store := (updateQuestion h f now a.store id updatedQuestion).1 },
    (updateQuestion h f now a.store id updatedQuestion).2)

/-- The call `deleteQuestion` as a transition of the application. -/
def appDeleteQuestion (h : Host) (f : Faults) (a : App) (id : JVal) : App × Outcome :=
  ({ a with store := (deleteQuestion h f a.store id).1 }, (deleteQuestion h f a.store id).2)

/-- A queue item as an object. -/
def QueueItem.toJVal (item : QueueItem) : JVal :=
  .obj [("id", .str item.id), ("action", item.action), ("data", item.data),
    ("timestamp", .str item.timestamp), ("retries", .num item.retries)]

/-- Translation of `_saveSyncQueue`. -/
def saveSyncQueue (a : App) : App :=
  { a with storedQueue := some (jsonCloneItems (a.syncQueue.map QueueItem.toJVal)) }

/-- End of the loop of `_processSyncQueue`: the time of the sync is recorded and, in
the `finally` block, `_isSyncing` is reset. -/
def finishDrain (now : String) (a : App) : App :=
  { updateSettings { a with lastSyncTime := .str now } [("lastSyncTime", .str now)] with
    isSyncing := false, pending := none }

/-- Head of the loop of `_processSyncQueue` at index `i`: while `i < _syncQueue.length`
the item at `i` is handed to the transport and the drain is suspended until the
transport answers; otherwise the loop ends. -/
def drainFrom (now : String) (a : App) (i : Nat) : App :=
  match a.syncQueue[i]? with
  | some item => { a with sent := a.sent ++ [item], pending := some i }
  | none => finishDrain now a

/-- Translation of `_processSyncQueue`, up to its first suspension. `now` is the
reading of the clock at the end of the loop. -/
def processSyncQueue (now : String) (a : App) : App :=
  if a.isSyncing || !a.online || a.syncQueue.length == 0 then a
  else
    let a1 := { a with isSyncing := true }
    if !truthy ((field (getSettings a1) "apiUrl").getD .undefined)
        || !truthy ((field (getSettings a1) "apiKey").getD .undefined) then
      { a1 with notices := a1.notices ++ [⟨"error", "Sync Error"⟩], isSyncing := false }
    else drainFrom now a1 0

/-- Resumption of `_processSyncQueue` when the transport answers the pending call of
`_syncItem`: `ok` when the call resolves, not `ok` when it throws (the request
failed, the response is not ok, or its body is not JSON). The body of the loop is
completed and the loop goes on to its next suspension or to its end. -/
def transportAnswer (now : String) (ok : Bool) (a : App) : App :=
  match a.pending with
  | none => a
  | some i =>
    match a.syncQueue[i]? with
    | none => a
    | some item =>
      if ok then
        drainFrom now (saveSyncQueue { a with syncQueue := a.syncQueue.eraseIdx i }) i
      else
        let item1 : QueueItem := { item with retries := item.retries + 1 }
        if item1.retries >= 3 then
          drainFrom now
            (saveSyncQueue
              { a with
                syncQueue := a.syncQueue.eraseIdx i
                notices := a.notices ++ [⟨"error", "Sync Failed"⟩] }) i
        else
          drainFrom now (saveSyncQueue { a with syncQueue := a.syncQueue.set i item1 }) (i + 1)

/-- Translation of `addToSyncQueue`. `freshId` is what `utils.generateUniqueId()`
returns and `now` the reading of the clock. -/
def addToSyncQueue (freshId now : String) (a : App) (action data : JVal) : App :=
  let a1 := saveSyncQueue
    { a with
      syncQueue := a.syncQueue ++
        [{ id := freshId, action := action, data := data, timestamp := now, retries := 0 }] }
  if a1.online then processSyncQueue now a1 else a1

/-- State of the sync module when the script is loaded: the initial values of
`_isSyncing`, `_lastSyncTime` and `_syncQueue`. Nothing else changes. -/
def reloadSync (a : App) : App :=
  { a with isSyncing := false, lastSyncTime := .null, syncQueue := [], pending := none }

/-- Translation of `init` of the sync module. -/
def syncInit (now : String) (a : App) : App :=
  processSyncQueue now
    { a with lastSyncTime := (field (getSettings a) "lastSyncTime").getD .undefined }

/-- Translation of `_handleOnline`. -/
def handleOnline (now : String) (a : App) : App :=
  processSyncQueue now { a with notices := a.notices ++ [⟨"info", "Connection Restored"⟩] }

/-- Translation of `_handleOffline`. -/
def handleOffline (a : App) : App :=
  { a with notices := a.notices ++ [⟨"warning", "Connection Lost"⟩] }

/-- Result of `getStatus`. -/
structure SyncStatus where
  isSyncing : Bool
  lastSyncTime : JVal
  queueLength : Nat
  deriving DecidableEq

/-- Translation of `getStatus`. -/
def getStatus (a : App) : SyncStatus :=
  { isSyncing := a.isSyncing, lastSyncTime := a.lastSyncTime,
    queueLength := a.syncQueue.length }

/-- The transport answers the calls of a drain one after the other, as long as a
call is pending, with the outcomes of the list. -/
def answerAll (now : String) : List Bool → App → App
  | [], a => a
  | ok :: rest, a =>
      match a.pending with
      | none => a
      | some _ => answerAll now rest (transportAnswer now ok a)

/-- A drain pass that nothing interleaves with: `_processSyncQueue` is called and the
transport answers its calls with the outcomes of the list, in order. -/
def drainPass (now : String) (outcomes : List Bool) (a : App) : App :=
  answerAll now outcomes (processSyncQueue now a)

/-- Loop `questions.forEach(question => addToSyncQueue('questions', question))` of
`forceSync`, from the call number `k` on. `freshId k` is what the id generator returns
in the call number `k` and `clock k` the reading of the clock in that call. -/
def enqueueAll (freshId clock : Nat → String) : App → Nat → List JVal → App
  | a, _, [] => a
  | a, k, question :: rest =>
      enqueueAll freshId clock
        (addToSyncQueue (freshId k) (clock k) a (.str "questions") question) (k + 1) rest

/-- Translation of `forceSync`, up to its first suspension: the state, and what the
call returns, `none` while it waits at `await _processSyncQueue()` for a drain that
this very call of `_processSyncQueue` started (the call set `_isSyncing` and has not
reset it). A call of `_processSyncQueue` that returns at once does not suspend
`forceSync`. -/
def forceSync (freshId clock : Nat → String) (now : String) (a : App) : App × Option Bool :=
  if a.isSyncing then
    ({ a with notices := a.notices ++ [⟨"warning", "Sync in Progress"⟩] }, some false)
  else
    let settings := getSettings a
    if !truthy ((field settings "apiUrl").getD .undefined)
        || !truthy ((field settings "apiKey").getD .undefined) then
      ({ a with notices := a.notices ++ [⟨"error", "Sync Error"⟩] }, some false)
    else if !a.online then
      ({ a with notices := a.notices ++ [⟨"error", "Sync Error"⟩] }, some false)
    else
      let a1 := enqueueAll freshId clock a 0 (getQuestions a.store)
      let a2 := processSyncQueue now a1
      if !a1.isSyncing && a2.isSyncing then (a2, none)
      else ({ a2 with notices := a2.notices ++ [⟨"success", "Sync Complete"⟩] }, some true)

/-- Target of a `change` event of the settings form: the `id`, `type`, `checked` and
`value` of the input element. -/
structure Target where
  id : String
  type : String
  checked : Bool
  value : String
  deriving DecidableEq

/-- Translation of `_handleSettingChange` of the user interface. -/
def handleSettingChange (a : App) (setting : Target) : App :=
  let value := if setting.type == "checkbox" then JVal.bool setting.checked
    else JVal.str setting.value
  updateSettings a [(setting.id, value)]

/-- Translation of `_initializeSettings` of the user interface: the values assigned to
the inputs of the settings form, by element id. -/
def initializeSettings (a : App) : Obj :=
  let settings := getSettings a
  [("api-url", (field settings "apiUrl").getD .undefined),
   ("api-key", (field settings "apiKey").getD .undefined),
   ("auto-sync", (field settings "autoSync").getD .undefined),
   ("dark-mode", (field settings "darkMode").getD .undefined)] ++
    (if truthy ((field settings "directoryName").getD .undefined)
     then [("storage-location", (field settings "directoryName").getD .undefined)] else [])

/-- Initial value of `_settings` in the storage module. -/
def defaultSettings : Obj :=
  [("apiUrl", .str ""), ("apiKey", .str ""), ("autoSync", .bool true),
   ("darkMode", .bool false), ("lastSyncTime", .null)]

/-! ## Vocabulary of the properties -/

/-- Two elements of the collection carry the same id, as the store compares ids. -/
def sameId (a b : JVal) : Bool :=
  match getProp a "id", getProp b "id" with
  | some x, some y => strictEq x y
  | _, _ => false

/-- No two elements of the collection share an id. -/
def UniqueIds (qs : List JVal) : Prop := qs.Pairwise (fun a b => sameId a b = false)

instance (qs : List JVal) : Decidable (UniqueIds qs) := by
  unfold UniqueIds; infer_instance

/-- Ids of the elements of a collection, `none` where reading the id throws. -/
def idsOf (qs : List JVal) : List (Option JVal) := qs.map (fun q => getProp q "id")

/-- A mutation of the record store. -/
inductive Op where
  | create (freshId tCreated tUpdated : String) (draft : Obj)
  | update (now : String) (id : JVal) (patch : Obj)
  | delete (id : JVal)
  | merge (input : ImportInput)

/-- Store after one mutation, run under the faults `f`. -/
def step (h : Host) (f : Faults) (s : Store) : Op → Store
  | .create freshId tCreated tUpdated draft =>
      (addQuestion h f freshId tCreated tUpdated s draft).1
  | .update now id patch => (updateQuestion h f now s id patch).1
  | .delete id => (deleteQuestion h f s id).1
  | .merge input => (importQuestions h f s input).1

/-- Store after a sequence of mutations, each run under faults of its own. -/
def run (h : Host) : Store → List (Faults × Op) → Store
  | s, [] => s
  | s, (f, op) :: rest => run h (step h f s op) rest

/-- Condition under which a mutation cannot introduce a second record with an id
already in the store `s`: a created record (with the id of its draft or the generated
one) has an id that no stored record has, and a patch names no `id`. -/
def keepsIds (s : Store) : Op → Prop
  | .create freshId tCreated tUpdated draft =>
      ∀ q ∈ s.questions, sameId q (.obj (stamp freshId tCreated tUpdated draft)) = false
  | .update _ _ patch => field patch "id" = none
  | .delete _ => True
  | .merge _ => True

/-- Every mutation of the sequence meets `keepsIds` in the store it is applied to. -/
def Guarded (h : Host) : Store → List (Faults × Op) → Prop
  | _, [] => True
  | s, (f, op) :: rest => keepsIds s op ∧ Guarded h (step h f s op) rest

/-- An attachment descriptor as the deletion loop expects it: an item whose `path`
can be read and is a string or falsy (absent, empty). -/
def PathReadable (item : JVal) : Prop :=
  ∃ p, getProp item "path" = some p ∧ (truthy p = false ∨ ∃ t, p = .str t)

instance (s : Store) (op : Op) : Decidable (keepsIds s op) := by
  cases op <;> unfold keepsIds <;> infer_instance

/-- Decision procedure for `Guarded`. -/
def decGuarded (h : Host) : (s : Store) → (ops : List (Faults × Op)) → Decidable (Guarded h s ops)
  | _, [] => isTrue trivial
  | s, (f, op) :: rest => by
      unfold Guarded
      exact @instDecidableAnd _ _ _ (decGuarded h (step h f s op) rest)

instance (h : Host) (s : Store) (ops : List (Faults × Op)) : Decidable (Guarded h s ops) :=
  decGuarded h s ops

/-- Id of the record that `addQuestion` stores for a draft: the id of the draft when
it is truthy, the generated one otherwise. -/
def createdId (freshId : String) (question : Obj) : JVal :=
  if truthy ((field question "id").getD .undefined)
  then (field question "id").getD .undefined else .str freshId

/-- A well-formed record: an object, no property of which is listed twice. -/
def WellFormed (q : JVal) : Prop := ∃ fs, q = .obj fs ∧ (fs.map Prod.fst).Nodup

/-- Whether the loop body of the merge inserts the imported item or puts it in the
place of a local record, rather than leaving the collection as it is. -/
def merges (h : Host) (qs : List JVal) (question : JVal) : Bool :=
  match findIndexById qs (getProp question "id") with
  | none => false
  | some none => true
  | some (some existingIndex) =>
      match getProp (qs.getD existingIndex .undefined) "updatedAt",
          getProp question "updatedAt" with
      | some existing, some imported => numGt (h.dateOf imported) (h.dateOf existing)
      | _, _ => false

/-- Number of imported items that the merge loop inserts or puts in the place of a
local record. -/
def mergedCount (h : Host) : List JVal → List JVal → Nat
  | _, [] => 0
  | qs, question :: rest =>
      match mergeOne h qs question with
      | none => 0
      | some qs1 => (if merges h qs question then 1 else 0) + mergedCount h qs1 rest

/-- The notification of an abandoned item. -/
def syncFailed : Notice := ⟨"error", "Sync Failed"⟩

/-- What happens to the sync module. -/
inductive SyncEvent where
  /-- A call of `addToSyncQueue`. -/
  | enqueue (freshId now : String) (action data : JVal)
  /-- A call of `_processSyncQueue`. -/
  | drain (now : String)
  /-- The transport answers the pending call of `_syncItem`. -/
  | answer (now : String) (ok : Bool)
  /-- The host goes online and the `online` listener runs. -/
  | connect (now : String)
  /-- The host goes offline and the `offline` listener runs. -/
  | disconnect

/-- Application after one event. -/
def syncStep (a : App) : SyncEvent → App
  | .enqueue freshId now action data => addToSyncQueue freshId now a action data
  | .drain now => processSyncQueue now a
  | .answer now ok => transportAnswer now ok a
  | .connect now => handleOnline now { a with online := true }
  | .disconnect => handleOffline { a with online := false }

/-- Application after a sequence of events. -/
def syncRun : App → List SyncEvent → App
  | a, [] => a
  | a, ev :: rest => syncRun (syncStep a ev) rest

/-- Number of times an item with the id `x` was handed to the transport. -/
def sendCount (a : App) (x : String) : Nat := (a.sent.map (fun e => e.id)).count x

/-- The id generator never returns an id that a queued or sent item has. -/
def FreshIds : App → List SyncEvent → Prop
  | _, [] => True
  | a, ev :: rest =>
      (match ev with
        | .enqueue freshId _ _ _ =>
            freshId ∉ a.syncQueue.map (fun e => e.id) ∧ freshId ∉ a.sent.map (fun e => e.id)
        | _ => True) ∧ FreshIds (syncStep a ev) rest

/-- Decision procedure for `FreshIds`. -/
def decFreshIds : (a : App) → (evs : List SyncEvent) → Decidable (FreshIds a evs)
  | _, [] => isTrue trivial
  | a, ev :: rest => by
      unfold FreshIds
      have : Decidable (FreshIds (syncStep a ev) rest) := decFreshIds (syncStep a ev) rest
      cases ev <;> infer_instance

instance (a : App) (evs : List SyncEvent) : Decidable (FreshIds a evs) := decFreshIds a evs

/-- A session of the sync module: an item is enqueued while online, its request
fails twice, a second item is enqueued, and the requests of a last pass fail. -/
def sampleEvents : List SyncEvent :=
  [.enqueue "i1" "t0" (.str "questions") (.str "x"), .answer "t1" false, .drain "t2",
   .answer "t3" false, .enqueue "i2" "t4" (.str "questions") (.str "y"),
   .answer "t5" false, .answer "t6" false, .drain "t7", .answer "t8" true]

/-- Items that a drain pass leaves in the queue, given the outcomes of its calls in
order: a delivered item leaves, a failed one stays with one more retry unless that
is its third. -/
def passKept : List QueueItem → List Bool → List QueueItem
  | [], _ => []
  | q, [] => q
  | item :: q, ok :: outcomes =>
      if ok then passKept q outcomes
      else if item.retries + 1 ≥ 3 then passKept q outcomes
      else { item with retries := item.retries + 1 } :: passKept q outcomes

/-- Number of items that a drain pass abandons, given the outcomes of its calls. -/
def passAbandoned : List QueueItem → List Bool → Nat
  | [], _ => 0
  | _, [] => 0
  | item :: q, ok :: outcomes =>
      (if !ok && decide (item.retries + 1 ≥ 3) then 1 else 0) + passAbandoned q outcomes

/-- The remote endpoint and the credential are both set. -/
def Configured (a : App) : Prop :=
  truthy ((field a.settings "apiUrl").getD .undefined) = true ∧
  truthy ((field a.settings "apiKey").getD .undefined) = true

instance (a : App) : Decidable (Configured a) := by
  unfold Configured; infer_instance

/-- No drain is running. -/
def Idle (a : App) : Prop := a.isSyncing = false ∧ a.pending = none

instance (a : App) : Decidable (Idle a) := by
  unfold Idle; infer_instance

/-- State at the end of a drain pass that started in `a`: the queue is `queue`, also
in its persisted copy, the items `handed` were handed to the transport, `abandoned`
notifications `Sync Failed` were shown, and the time of the sync is recorded. -/
def afterPass (now : String) (a : App) (queue handed : List QueueItem) (abandoned : Nat) :
    App :=
  finishDrain now
    (saveSyncQueue
      { a with
        syncQueue := queue
        sent := a.sent ++ handed
        notices := a.notices ++ List.replicate abandoned syncFailed })

/-- The items of a queue, each with one more retry. -/
def bump (q : List QueueItem) : List QueueItem :=
  q.map (fun item => { item with retries := item.retries + 1 })

/-- The item whose request the transport has not answered yet, if any. -/
def pendingItem (a : App) : Option QueueItem := a.pending.bind (fun i => a.syncQueue[i]?)

/-- Invariant of the sync module: the queued items have distinct ids; a drain is
suspended only at an item of the queue, with `_isSyncing` set; a queued item has at
most 2 retries and was handed to the transport once per retry, plus once if its
request is pending; an id that is not queued was handed over at most 3 times. -/
def SyncInv (a : App) : Prop :=
  (a.syncQueue.map (fun e => e.id)).Nodup ∧
  (∀ i, a.pending = some i → a.isSyncing = true ∧ i < a.syncQueue.length) ∧
  (∀ item ∈ a.syncQueue, item.retries ≤ 2 ∧
    sendCount a item.id = item.retries + (if pendingItem a = some item then 1 else 0)) ∧
  (∀ x, x ∉ a.syncQueue.map (fun e => e.id) → sendCount a x ≤ 3)

/-- The media file that the attachment `item` at index `i` of the record with id `r`
carries: its name `<r>_<i><extension of the type>` and its bytes, when the attachment
has inline bytes (a truthy `data`) and its type has an extension. -/
def attachmentFile (r : JVal) (i : Nat) (item : JVal) : Option (String × JVal) :=
  match getProp item "data", (getProp item "type").bind getFileExtension with
  | some data, some ext =>
      if truthy data then some (toStr r ++ "_" ++ toString i ++ ext, data) else none
  | _, _ => none

/-- The attachment `item` at index `i` as the metadata file is to describe it: without
its `data` and with the `path` of its media file when it carries one, as it is
otherwise (in its serialised form). -/
def storedAttachment (r : JVal) (i : Nat) (item : JVal) : JVal :=
  match attachmentFile r i item, jsonClone item with
  | some (name, _), .obj fs =>
      .obj (setProp (deleteProp fs "data") "path" (.str ("media/" ++ name)))
  | _, c => c

/-- The attachments `items`, the first of which has the index `i`, as the metadata
file is to describe them. -/
def storedAttachments (r : JVal) : Nat → List JVal → List JVal
  | _, [] => []
  | i, item :: rest => storedAttachment r i item :: storedAttachments r (i + 1) rest

/-- The record with the properties `fs`, the id `r` and the attachments `m` as the
metadata file is to describe it: the serialised record with its attachments
rewritten. -/
def storedRecord (fs : Obj) (r : JVal) (m : List JVal) : JVal :=
  .obj (setProp (jsonCloneFields fs) "media" (.arr (storedAttachments r 0 m)))

/-- The media files after the bytes of the attachments `items`, the first of which
has the index `i`, are written, each to its file and in order. -/
def mediaWritten (r : JVal) :
    Nat → List JVal → List (String × Content) → List (String × Content)
  | _, [], files => files
  | i, item :: rest, files =>
      match attachmentFile r i item with
      | some (name, data) => mediaWritten r (i + 1) rest (writeEntry files name data)
      | none => mediaWritten r (i + 1) rest files

/-- An id that equals itself under `===`: a string, a number, a boolean, `null` or a
missing id (`undefined`), and no array or object. -/
def Identifier (x : JVal) : Prop := strictEq x x = true

instance (x : JVal) : Decidable (Identifier x) := by
  unfold Identifier; infer_instance

/-- Number of distinct ids of the incoming records that no local record has: an
incoming record is counted when its id is the id of none of the records `seen`, which
are the local records and the incoming records before it. -/
def newIdCount : List JVal → List JVal → Nat
  | _, [] => 0
  | seen, x :: rest =>
      (if seen.any (fun q => sameId q x) then 0 else 1) + newIdCount (seen ++ [x]) rest

/-- Items of the queue that a pass is to leave, as the outcomes of their requests
decide: those whose request failed and whose retries, the failure counted, are below
3, in their order and with the failure counted. -/
def failedBelowLimit (queue : List QueueItem) (outcomes : List Bool) : List QueueItem :=
  ((queue.zip outcomes).filter (fun p => !p.2 && decide (p.1.retries + 1 < 3))).map
    (fun p => { p.1 with retries := p.1.retries + 1 })

/-- An incoming record that the merge leaves out of the collection `qs`: the search
finds a record with its id, whose `updatedAt` the one of the incoming record is not
later than. -/
def Settled (h : Host) (qs : List JVal) (x : JVal) : Prop :=
  ∃ idx e t, findIndexById qs (getProp x "id") = some (some idx) ∧
    getProp (qs.getD idx .undefined) "updatedAt" = some e ∧
    getProp x "updatedAt" = some t ∧
    numGt (h.dateOf t) (h.dateOf e) = false

/-! ## Sample data -/

/-- Host whose date parser reads a number as a time value in milliseconds and takes
nothing else for a date, and whose numeric conversion takes no string for a number. -/
def sampleHost : Host where
  dateOf := fun v =>
    match v with
    | .num n => some n
    | _ => none
  strToNum := fun _ => none

/-- Store of a session without durable backend. -/
def fallbackStore (qs : List JVal) : Store :=
  { questions := qs, stored := some (jsonCloneItems qs), fsSupported := false, dir := none }

/-- Store of a session whose durable backend is the directory `d`. -/
def durableStore (qs : List JVal) (d : Dir) : Store :=
  { questions := qs, stored := some (jsonCloneItems qs), fsSupported := true, dir := some d }

/-- Record with id `a`, last updated at time 1. -/
def recA : JVal := .obj [("id", .str "a"), ("question", .str "old"), ("updatedAt", .num 1)]

/-- Record with id `a`, last updated at time 2. -/
def recA2 : JVal := .obj [("id", .str "a"), ("question", .str "new"), ("updatedAt", .num 2)]

/-- Record with id `b`. -/
def recB : JVal := .obj [("id", .str "b"), ("question", .str "other"), ("updatedAt", .num 2)]

/-- Draft that carries the id `a`. -/
def draftA : Obj := [("id", .str "a"), ("question", .str "new")]

/-- Draft with id `q1` and one image attachment carrying inline bytes. -/
def draftQ1 : Obj :=
  [("id", .str "q1"),
   ("media", .arr [.obj [("type", .str "image/png"), ("name", .str "a.png"),
      ("data", .blob [1, 2, 3])]])]

/-- Record with id `q1` as a directory load yields it: its attachment has a path. -/
def recQ1 : JVal :=
  .obj [("id", .str "q1"),
    ("media", .arr [.obj [("type", .str "image/png"), ("name", .str "a.png"),
      ("path", .str "media/q1_0.png")]])]

/-- Patch that names an `id`. -/
def patchIdB : Obj := [("id", .str "b"), ("question", .str "edited")]

/-- Patch that names no `id`. -/
def patchText : Obj := [("question", .str "edited")]

/-- A session: create `a`, edit it, merge a file with `a` and `b`, delete `b`. -/
def sampleSession : List (Faults × Op) :=
  [(noFaults, .create "g" "t0" "t1" draftA),
   (noFaults, .update "t2" (.str "a") patchText),
   (noFaults, .merge (.parsed (.arr [recA2, recB, recB]))),
   (noFaults, .delete (.str "b"))]

/-- Directory that holds the file of `q1` and its attachment. -/
def dirQ1 : Dir :=
  { files := [("q1.json", some recQ1)], media := some [("q1_0.png", some (.blob [1, 2, 3]))] }

/-- Directory that holds the file of `q1` and has no `media` subdirectory. -/
def dirNoMedia : Dir := { files := [("q1.json", some recQ1)], media := none }

/-- Directory without any entry. -/
def emptyDir : Dir := { files := [], media := none }

/-- Host that rejects the call `op` and no other. -/
def failOn (op : FsOp) : Faults := fun o => decide (o = op)

/-- Settings with an endpoint, a credential and auto-sync on. -/
def sampleSettings : Obj :=
  [("apiUrl", .str "https://api.example"), ("apiKey", .str "key"), ("autoSync", .bool true),
   ("darkMode", .bool false), ("lastSyncTime", .null)]

/-- Application that is online and configured, with the questions `qs`, no durable
backend and the sync queue `queue`, persisted. -/
def sampleApp (qs : List JVal) (queue : List QueueItem) : App :=
  { store := fallbackStore qs, settings := sampleSettings,
    storedSettings := some sampleSettings, darkMode := false, isSyncing := false,
    lastSyncTime := .null, syncQueue := queue, pending := none,
    storedQueue := some (jsonCloneItems (queue.map QueueItem.toJVal)), online := true,
    sent := [], notices := [] }

/-- Application like `sampleApp`, whose storage module has the directory `d` as
durable backend. -/
def durableApp (qs : List JVal) (d : Dir) : App :=
  { sampleApp qs [] with store := durableStore qs d }

/-- Queue item `i1`, not yet attempted. -/
def item1 : QueueItem :=
  { id := "i1", action := .str "questions", data := recA, timestamp := "t0", retries := 0 }

/-- Queue item `i2`, not yet attempted. -/
def item2 : QueueItem :=
  { id := "i2", action := .str "questions", data := recB, timestamp := "t0", retries := 0 }

/-- Queue item `i0`, attempted twice already. -/
def item0 : QueueItem :=
  { id := "i0", action := .str "questions", data := recA, timestamp := "t0", retries := 2 }

/-- Directory with the file of record `b` and a file that is not JSON. -/
def dirB : Dir :=
  { files := [("b.json", some recB), ("notes.txt", none), ("bad.json", none)], media := none }

/-- Application like `sampleApp` whose settings are the initial ones: no endpoint and
no credential. -/
def freshApp (qs : List JVal) (queue : List QueueItem) : App :=
  { sampleApp qs queue with settings := defaultSettings, storedSettings := none }

/-- Id generator and clock of the sample calls of `forceSync`. -/
def sampleIds (k : Nat) : String := "g" ++ toString k

/-- Record whose id is an array. -/
def recArrayId : JVal := .obj [("id", .arr []), ("question", .str "odd"), ("updatedAt", .num 1)]

/-- Record `a` without `updatedAt`. -/
def recA0 : JVal := .obj [("id", .str "a"), ("question", .str "undated")]

/-- Record with id `q2` and two attachments: a sound that has a path and no inline
bytes, and an image that carries inline bytes. -/
def recQ2fields : Obj :=
  [("id", .str "q2"), ("question", .str "which?"),
   ("media", .arr
     [.obj [("type", .str "audio/mp3"), ("name", .str "s.mp3"), ("path", .str "media/old.mp3")],
      .obj [("type", .str "image/jpeg"), ("name", .str "a.jpg"), ("data", .blob [1, 2, 3])]])]

/-! ## Lemmas on objects -/

theorem strictEq_eq {a b : JVal} (h : strictEq a b = true) : a = b := by
  cases a <;> cases b <;> simp_all [strictEq]

theorem field_nil (k : String) : field [] k = none := rfl

theorem field_cons (k0 : String) (v0 : JVal) (rest : Obj) (k : String) :
    field ((k0, v0) :: rest) k = if k = k0 then some v0 else field rest k := by
  unfold field
  by_cases h : k = k0
  · subst h; simp [List.lookup]
  · have : (k == k0) = false := by simpa using h
    simp [List.lookup, this, h]

theorem field_setProp (o : Obj) (k k1 : String) (v : JVal) :
    field (setProp o k v) k1 = if k1 = k then some v else field o k1 := by
  induction o with
  | nil => simp [setProp, field_cons, field_nil]
  | cons kv rest ih =>
    obtain ⟨k0, v0⟩ := kv
    by_cases h0 : k0 = k
    · subst h0
      by_cases hk : k1 = k0 <;> simp [setProp, field_cons, hk]
    · simp only [setProp, h0, if_false, field_cons, ih]
      by_cases hk : k1 = k
      · subst hk
        have : ¬ k1 = k0 := fun e => h0 e.symm
        simp [this]
      · simp [hk]

theorem field_map_overlay (a b : Obj) (k : String) :
    field (a.map (fun kv => (kv.1, (field b kv.1).getD kv.2))) k
      = (field a k).map (fun v => (field b k).getD v) := by
  induction a with
  | nil => simp [field_nil]
  | cons kv rest ih =>
    obtain ⟨k0, v0⟩ := kv
    simp only [List.map_cons, field_cons, ih]
    by_cases h1 : k = k0
    · subst h1; simp
    · simp [h1]

theorem field_filter_new (a b : Obj) (k : String) :
    field (b.filter (fun kv => (field a kv.1).isNone)) k
      = if (field a k).isNone then field b k else none := by
  induction b with
  | nil => simp [field_nil]
  | cons kv rest ih =>
    obtain ⟨k0, v0⟩ := kv
    by_cases hn : (field a k0).isNone = true
    · simp only [List.filter, hn, field_cons, ih]
      by_cases h1 : k = k0
      · subst h1; simp [hn]
      · simp [h1]
    · simp only [List.filter, hn, field_cons, ih]
      by_cases h1 : k = k0
      · subst h1; simp [hn]
      · simp [h1]

theorem field_append (a b : Obj) (k : String) :
    field (a ++ b) k = (field a k).or (field b k) := by
  induction a with
  | nil => simp [field_nil]
  | cons kv rest ih =>
    obtain ⟨k0, v0⟩ := kv
    simp only [List.cons_append, field_cons, ih]
    by_cases h1 : k = k0
    · subst h1; simp
    · simp [h1]

/-- Field of a spread: the value of the second object where it names the field, the
value of the first otherwise. -/
theorem field_spread (a b : Obj) (k : String) :
    field (spread a b) k = (field b k).or (field a k) := by
  unfold spread
  rw [field_append, field_map_overlay, field_filter_new]
  cases ha : field a k <;> cases hb : field b k <;> simp

theorem toDigitsCore_mem (fuel n : Nat) (ds : List Char) (c : Char)
    (hc : c ∈ Nat.toDigitsCore 10 fuel n ds) : c ∈ ds ∨ ∃ m, m < 10 ∧ c = Nat.digitChar m := by
  induction fuel generalizing n ds with
  | zero => simp [Nat.toDigitsCore] at hc; exact Or.inl hc
  | succ fuel ih =>
    simp only [Nat.toDigitsCore] at hc
    split at hc
    · rcases List.mem_cons.mp hc with h | h
      · exact Or.inr ⟨n % 10, Nat.mod_lt _ (by decide), h⟩
      · exact Or.inl h
    · rcases ih _ _ hc with h | h
      · rcases List.mem_cons.mp h with h | h
        · exact Or.inr ⟨n % 10, Nat.mod_lt _ (by decide), h⟩
        · exact Or.inl h
      · exact Or.inr h

/-- The decimal numeral of an index is never the property name `id`. -/
theorem toString_ne_id (i : Nat) : toString i ≠ "id" := by
  intro h
  have hdata : (toString i).data = ['i', 'd'] := by rw [h]
  have hmem : 'i' ∈ Nat.toDigitsCore 10 (i + 1) i [] := by
    have : (toString i).data = Nat.toDigitsCore 10 (i + 1) i [] := rfl
    rw [← this, hdata]; simp
  rcases toDigitsCore_mem _ _ _ _ hmem with h | ⟨m, hm, hmc⟩
  · simp at h
  · interval_cases m <;> simp [Nat.digitChar] at hmc

theorem field_enum_id {α : Type} (g : α → JVal) (xs : List α) (n : Nat) :
    field ((xs.enumFrom n).map (fun p => (toString p.1, g p.2))) "id" = none := by
  induction xs generalizing n with
  | nil => simp [field_nil]
  | cons x rest ih =>
    simp only [List.enumFrom, List.map_cons, field_cons]
    rw [if_neg (fun e => toString_ne_id n e.symm)]
    exact ih (n + 1)

/-- Array and string indices are not the property `id`. -/
theorem field_ownProps_id (v : JVal) :
    (field (ownProps v) "id").getD .undefined = (getProp v "id").getD .undefined := by
  cases v with
  | obj fs => simp [ownProps, getProp]
  | arr xs => simp [ownProps, getProp, List.enum, field_enum_id (fun x => x)]
  | str s => simp [ownProps, getProp, List.enum, field_enum_id charStr]
  | _ => simp [ownProps, getProp, field_nil]

/-! ## Lemmas on the search by id -/

theorem findIndexById_cons (q : JVal) (rest : List JVal) (v k : JVal)
    (hv : getProp q "id" = some v) :
    findIndexById (q :: rest) (some k) =
      if strictEq v k then some (some 0)
      else (findIndexById rest (some k)).map (fun r => r.map (fun i => i + 1)) := by
  simp [findIndexById, hv]

/-- A successful search returns a position of the collection whose id is the key. -/
theorem findIndexById_found {qs : List JVal} {key : Option JVal} {i : Nat}
    (hf : findIndexById qs key = some (some i)) :
    i < qs.length ∧ ∃ v k, getProp (qs.getD i .undefined) "id" = some v ∧ key = some k ∧
      strictEq v k = true := by
  induction qs generalizing i with
  | nil => simp [findIndexById] at hf
  | cons q rest ih =>
    cases hq : getProp q "id" with
    | none => simp [findIndexById, hq] at hf
    | some v =>
      cases key with
      | none => simp [findIndexById, hq] at hf
      | some k =>
        rw [findIndexById_cons q rest v k hq] at hf
        by_cases he : strictEq v k = true
        · simp [he] at hf; subst hf
          exact ⟨by simp, v, k, by simpa using hq, rfl, he⟩
        · simp only [he, Bool.false_eq_true, if_false, Option.map_eq_some'] at hf
          obtain ⟨r, hr, hri⟩ := hf
          cases r with
          | none => simp at hri
          | some j =>
            simp at hri; subst hri
            obtain ⟨hlt, hrest⟩ := ih hr
            exact ⟨by simp; omega, by simpa using hrest⟩

/-- A search that ends without a match has read the id of every element and found
each different from the key. -/
theorem findIndexById_absent {qs : List JVal} {key : Option JVal}
    (hf : findIndexById qs key = some none) :
    ∀ q ∈ qs, ∃ v k, getProp q "id" = some v ∧ key = some k ∧ strictEq v k = false := by
  induction qs with
  | nil => simp
  | cons q rest ih =>
    cases hq : getProp q "id" with
    | none => simp [findIndexById, hq] at hf
    | some v =>
      cases key with
      | none => simp [findIndexById, hq] at hf
      | some k =>
        rw [findIndexById_cons q rest v k hq] at hf
        by_cases he : strictEq v k = true
        · simp [he] at hf
        · simp only [he, Bool.false_eq_true, if_false, Option.map_eq_some'] at hf
          obtain ⟨r, hr, hri⟩ := hf
          cases r with
          | some j => simp at hri
          | none =>
            intro q1 hq1
            rcases List.mem_cons.mp hq1 with h1 | h1
            · subst h1; exact ⟨v, k, hq, rfl, by simpa using he⟩
            · exact ih hr q1 h1

/-- The search reads nothing but the ids. -/
theorem findIndexById_congr {qs qs1 : List JVal} (key : Option JVal)
    (h : idsOf qs = idsOf qs1) : findIndexById qs key = findIndexById qs1 key := by
  induction qs generalizing qs1 with
  | nil =>
    cases qs1 with
    | nil => rfl
    | cons _ _ => simp [idsOf] at h
  | cons q rest ih =>
    cases qs1 with
    | nil => simp [idsOf] at h
    | cons q1 rest1 =>
      simp only [idsOf, List.map_cons, List.cons.injEq] at h
      have hr := @ih rest1 h.2
      simp only [findIndexById, h.1, hr]

/-- Appending a record with the key to a collection that has none finds it last. -/
theorem findIndexById_append_new {qs : List JVal} {q k v : JVal}
    (hf : findIndexById qs (some k) = some none) (hq : getProp q "id" = some v)
    (he : strictEq v k = true) :
    findIndexById (qs ++ [q]) (some k) = some (some qs.length) := by
  induction qs with
  | nil => simp [findIndexById, hq, he]
  | cons q0 rest ih =>
    cases hq0 : getProp q0 "id" with
    | none => simp [findIndexById, hq0] at hf
    | some v0 =>
      rw [findIndexById_cons q0 rest v0 k hq0] at hf
      by_cases he0 : strictEq v0 k = true
      · simp [he0] at hf
      · simp only [he0, Bool.false_eq_true, if_false, Option.map_eq_some'] at hf
        obtain ⟨r, hr, hri⟩ := hf
        cases r with
        | some j => simp at hri
        | none =>
          rw [List.cons_append, findIndexById_cons q0 _ v0 k hq0]
          simp [he0, ih hr]

theorem idsOf_set {qs : List JVal} {i : Nat} {q : JVal}
    (h : getProp q "id" = getProp (qs.getD i .undefined) "id") (hi : i < qs.length) :
    idsOf (qs.set i q) = idsOf qs := by
  unfold idsOf
  rw [List.map_set, h]
  apply List.ext_getElem
  · simp
  · intro n h1 h2
    by_cases hn : i = n
    · subst hn; simp [List.getD_eq_getElem?_getD, List.getElem?_eq_getElem hi]
    · simp [List.getElem_set_ne hn]

/-- Uniqueness of ids is a property of the list of ids. -/
theorem uniqueIds_congr {qs qs1 : List JVal} (h : idsOf qs = idsOf qs1) :
    UniqueIds qs ↔ UniqueIds qs1 := by
  have key : ∀ l : List JVal, UniqueIds l ↔ (idsOf l).Pairwise (fun a b =>
      (match a, b with
        | some x, some y => strictEq x y
        | _, _ => false) = false) := by
    intro l
    unfold UniqueIds idsOf
    rw [List.pairwise_map]
    rfl
  rw [key, key, h]

/-! ## Lemmas on the operations of the store -/

/-- Saving to the directory changes nothing but the directory. -/
theorem saveToFileSystem_fst (h : Host) (f : Faults) (s : Store) (q : JVal) :
    (saveToFileSystem h f s q).1.questions = s.questions ∧
    (saveToFileSystem h f s q).1.stored = s.stored ∧
    (saveToFileSystem h f s q).1.fsSupported = s.fsSupported := by
  unfold saveToFileSystem
  cases s.dir <;> simp

/-- Deleting from the directory changes nothing but the directory. -/
theorem deleteFromFileSystem_fst (h : Host) (f : Faults) (s : Store) (q : JVal) :
    (deleteFromFileSystem h f s q).1.questions = s.questions ∧
    (deleteFromFileSystem h f s q).1.stored = s.stored ∧
    (deleteFromFileSystem h f s q).1.fsSupported = s.fsSupported := by
  unfold deleteFromFileSystem
  cases s.dir <;> simp

theorem saveAll_fst (h : Host) (f : Faults) (s : Store) (qs : List JVal) :
    (saveAll h f s qs).1.questions = s.questions ∧
    (saveAll h f s qs).1.stored = s.stored := by
  induction qs generalizing s with
  | nil => simp [saveAll]
  | cons q rest ih =>
    have h1 := saveToFileSystem_fst h f s q
    unfold saveAll
    rcases hr : saveToFileSystem h f s q with ⟨s1, b⟩
    rw [hr] at h1
    cases b
    · simpa using ⟨h1.1, h1.2.1⟩
    · simp only
      rw [(ih s1).1, (ih s1).2]
      exact ⟨h1.1, h1.2.1⟩

/-- Collection after `addQuestion`: the completed draft is appended, whatever the
directory does. -/
theorem addQuestion_questions (h : Host) (f : Faults) (freshId tCreated tUpdated : String)
    (s : Store) (question : Obj) :
    (addQuestion h f freshId tCreated tUpdated s question).1.questions
      = s.questions ++ [.obj (stamp freshId tCreated tUpdated question)] := by
  unfold addQuestion
  simp only
  split
  · rw [(saveToFileSystem_fst h f _ _).1]; rfl
  · rfl

/-- Fallback store after `addQuestion`. -/
theorem addQuestion_stored (h : Host) (f : Faults) (freshId tCreated tUpdated : String)
    (s : Store) (question : Obj) :
    (addQuestion h f freshId tCreated tUpdated s question).1.stored
      = some (jsonCloneItems (s.questions ++ [.obj (stamp freshId tCreated tUpdated question)])) := by
  unfold addQuestion
  simp only
  split
  · rw [(saveToFileSystem_fst h f _ _).2.1]; rfl
  · rfl

/-- Collection after `updateQuestion` when the search finds position `i`. -/
theorem updateQuestion_questions (h : Host) (f : Faults) (now : String) (s : Store)
    (id : JVal) (patch : Obj) (i : Nat)
    (hf : findIndexById s.questions (some id) = some (some i)) :
    (updateQuestion h f now s id patch).1.questions
      = s.questions.set i (.obj (spread (ownProps (s.questions.getD i .undefined))
          (setProp patch "updatedAt" (.str now)))) := by
  unfold updateQuestion
  simp only [hf]
  split
  · rw [(saveToFileSystem_fst h f _ _).1]; rfl
  · rfl

/-- Collection after `deleteQuestion` when the search finds position `i`. -/
theorem deleteQuestion_questions (h : Host) (f : Faults) (s : Store) (id : JVal) (i : Nat)
    (hf : findIndexById s.questions (some id) = some (some i)) :
    (deleteQuestion h f s id).1.questions = s.questions.eraseIdx i := by
  unfold deleteQuestion
  simp only [hf]
  split
  · rw [(deleteFromFileSystem_fst h f _ _).1]; rfl
  · rfl

/-- Collection after `importQuestions` of an array: what the merge loop leaves. -/
theorem importQuestions_questions (h : Host) (f : Faults) (s : Store) (items : List JVal) :
    (importQuestions h f s (.parsed (.arr items))).1.questions
      = (mergeLoop h s.questions items).1 := by
  unfold importQuestions
  simp only
  rcases hm : mergeLoop h s.questions items with ⟨qs, b⟩
  cases b
  · rfl
  · simp only
    split
    · rcases hs : saveAll h f (saveQuestions { s with questions := qs })
        (saveQuestions { s with questions := qs }).questions with ⟨s2, b2⟩
      have := (saveAll_fst h f (saveQuestions { s with questions := qs })
        (saveQuestions { s with questions := qs }).questions).1
      rw [hs] at this
      cases b2 <;> simpa [saveQuestions] using this
    · rfl

/-! ## Claims C1 to C10 -/

/-- A lookup that returns a value with an id has found it at some position. -/
theorem getQuestionById_found {s : Store} {x L v : JVal}
    (hL : getQuestionById s x = some L) (hLid : getProp L "id" = some v) :
    ∃ i, findIndexById s.questions (some x) = some (some i) ∧
      s.questions.getD i .undefined = L := by
  unfold getQuestionById at hL
  cases hf : findIndexById s.questions (some x) with
  | none => simp [hf] at hL
  | some r =>
    cases r with
    | none =>
      simp [hf] at hL
      subst hL
      simp [getProp] at hLid
    | some i =>
      simp only [hf, Option.map_some', Option.some.injEq] at hL
      exact ⟨i, rfl, hL⟩

/-- One pass of the merge loop over a single record whose id is found at `i`. -/
theorem mergeLoop_single_found (h : Host) (qs : List JVal) (R : JVal) (x e r : JVal) (i : Nat)
    (hRid : getProp R "id" = some x)
    (hf : findIndexById qs (some x) = some (some i))
    (he : getProp (qs.getD i .undefined) "updatedAt" = some e)
    (hr : getProp R "updatedAt" = some r) :
    mergeLoop h qs [R]
      = (if numGt (h.dateOf r) (h.dateOf e) then qs.set i R else qs, true) := by
  by_cases hg : numGt (h.dateOf r) (h.dateOf e) = true
  · simp only [mergeLoop, mergeOne, hRid, hf, he, hr, hg, if_true]
  · simp only [mergeLoop, mergeOne, hRid, hf, he, hr, hg, if_false, Bool.false_eq_true]

/-- C1. Merge is last-write-wins with ties favouring local. When the store's record
for id `x` is `L`, with a valid `updatedAt` of time value `t1`, and the imported file
is the one-record array `[R]` where `R` has id `x` and a valid `updatedAt` of time
value `t2`, then after `importQuestions` the store's record for `x` is `R` if
`t2 > t1` and `L` otherwise; for `R` different from `L` it equals `R` exactly when
`t2 > t1`. -/
theorem merge_last_write_wins (h : Host) (f : Faults) (s : Store) (x L R : JVal)
    (t1 t2 : Int)
    (hL : getQuestionById s x = some L) (hLid : getProp L "id" = some x)
    (hRid : getProp R "id" = some x)
    (hLt : (getProp L "updatedAt").bind h.dateOf = some t1)
    (hRt : (getProp R "updatedAt").bind h.dateOf = some t2) :
    getQuestionById (importQuestions h f s (.parsed (.arr [R]))).1 x
        = some (if t1 < t2 then R else L) ∧
    (R ≠ L →
      (getQuestionById (importQuestions h f s (.parsed (.arr [R]))).1 x = some R ↔ t1 < t2)) := by
  obtain ⟨i, hf, hi⟩ := getQuestionById_found hL hLid
  obtain ⟨hlt, -⟩ := findIndexById_found hf
  obtain ⟨e, he, hde⟩ := Option.bind_eq_some.mp hLt
  obtain ⟨r, hr, hdr⟩ := Option.bind_eq_some.mp hRt
  have hmain : getQuestionById (importQuestions h f s (.parsed (.arr [R]))).1 x
      = some (if t1 < t2 then R else L) := by
    unfold getQuestionById
    rw [importQuestions_questions,
      mergeLoop_single_found h s.questions R x e r i hRid hf (by rw [hi]; exact he) hr]
    simp only [hde, hdr, numGt]
    by_cases hlt12 : t1 < t2
    · have hids : idsOf (s.questions.set i R) = idsOf s.questions :=
        idsOf_set (by rw [hi, hRid, hLid]) hlt
      simp only [hlt12, decide_True, if_true]
      rw [findIndexById_congr _ hids, hf]
      simp [List.getD_eq_getElem?_getD, hlt]
    · simp only [hlt12, decide_False, if_false, Bool.false_eq_true]
      rw [hf]
      simp only [Option.map_some', hi]
  refine ⟨hmain, fun hne => ?_⟩
  rw [hmain]
  by_cases hlt12 : t1 < t2
  · simp [hlt12]
  · simp only [hlt12, if_false, iff_false]
    intro e1
    exact hne (Option.some.inj e1).symm

/-- Instance of C1: the stored record `a` of time 1 is replaced by the imported
record `a` of time 2. -/
theorem merge_last_write_wins_witness :
    getQuestionById (importQuestions sampleHost noFaults (fallbackStore [recB, recA])
        (.parsed (.arr [recA2]))).1 (.str "a") = some (if (1 : Int) < 2 then recA2 else recA) ∧
    (recA2 ≠ recA →
      (getQuestionById (importQuestions sampleHost noFaults (fallbackStore [recB, recA])
        (.parsed (.arr [recA2]))).1 (.str "a") = some recA2 ↔ (1 : Int) < 2)) :=
  merge_last_write_wins sampleHost noFaults (fallbackStore [recB, recA]) (.str "a") recA recA2
    1 2 (by decide) (by decide) (by decide) (by decide) (by decide)

/-- The merge loop over a concatenation runs the second part from where the first
part ended, unless the first part threw. -/
theorem mergeLoop_append (h : Host) (qs pre rest : List JVal) :
    mergeLoop h qs (pre ++ rest) =
      if (mergeLoop h qs pre).2 then mergeLoop h (mergeLoop h qs pre).1 rest
      else mergeLoop h qs pre := by
  induction pre generalizing qs with
  | nil => simp [mergeLoop]
  | cons q pre ih =>
    simp only [List.cons_append, mergeLoop]
    cases mergeOne h qs q with
    | none => simp
    | some qs1 => simpa using ih qs1

/-- A `null` item makes the loop body throw as soon as the collection has an element. -/
theorem mergeOne_null (h : Host) (q : JVal) (qs : List JVal) :
    mergeOne h (q :: qs) .null = none := by
  unfold mergeOne
  have : findIndexById (q :: qs) (getProp .null "id") = none := by
    cases hq : getProp q "id" <;> simp [findIndexById, hq, getProp]
  rw [this]

/-- C2, refuted as stated. With the record `a` in the store, importing the array
`[b, null]` returns `false` after `b` has been inserted: the collection is no
longer what it was. Importing `[5]`, whose element is not an object, does not fail. -/
theorem import_atomic_counterexample :
    (importQuestions sampleHost noFaults (fallbackStore [recA])
      (.parsed (.arr [recB, .null]))).2 = none ∧
    (importQuestions sampleHost noFaults (fallbackStore [recA])
      (.parsed (.arr [recB, .null]))).1.questions = [recA, recB] ∧
    (importQuestions sampleHost noFaults (fallbackStore [recA])
      (.parsed (.arr [recB, .null]))).1.questions ≠ (fallbackStore [recA]).questions ∧
    (importQuestions sampleHost noFaults (fallbackStore [recA])
      (.parsed (.arr [.num 5]))).2 = some 1 := by
  decide

/-- C2, amended. When the file cannot be read, is not JSON, or denotes a value that is
not an array, `importQuestions` returns `false` and the whole store is unchanged. When
it denotes an array with a `null` element, reached with a non-empty collection after
the elements before it were merged, `importQuestions` returns `false`, the fallback
store and the directory are unchanged, and the in-memory collection is the merge of
the elements that precede the `null`. -/
theorem import_format_failure (h : Host) (f : Faults) (s : Store) :
    (∀ input, (∀ items, input ≠ .parsed (.arr items)) →
      importQuestions h f s input = (s, none)) ∧
    (∀ pre post qs, mergeLoop h s.questions pre = (qs, true) → qs ≠ [] →
      importQuestions h f s (.parsed (.arr (pre ++ .null :: post)))
        = ({ s with questions := qs }, none)) := by
  constructor
  · intro input hna
    cases input with
    | unavailable => rfl
    | unparsable => rfl
    | parsed v =>
      cases v with
      | arr items => exact absurd rfl (hna items)
      | _ => rfl
  · intro pre post qs hpre hne
    have hloop : mergeLoop h s.questions (pre ++ .null :: post) = (qs, false) := by
      rw [mergeLoop_append, hpre]
      cases qs with
      | nil => exact absurd rfl hne
      | cons q rest => simp [mergeLoop, mergeOne_null]
    simp only [importQuestions, hloop]

/-- Instance of the amended C2 on the sample store. -/
theorem import_format_failure_witness :
    importQuestions sampleHost noFaults (fallbackStore [recA]) (.parsed (.num 7))
      = (fallbackStore [recA], none) ∧
    importQuestions sampleHost noFaults (fallbackStore [recA])
        (.parsed (.arr ([recB] ++ .null :: [recA2])))
      = ({ fallbackStore [recA] with questions := [recA, recB] }, none) :=
  ⟨(import_format_failure sampleHost noFaults (fallbackStore [recA])).1 (.parsed (.num 7))
      (by intro items; simp),
   (import_format_failure sampleHost noFaults (fallbackStore [recA])).2 [recB] [recA2]
      [recA, recB] (by decide) (by decide)⟩

/-- The stored record carries the id `createdId`. -/
theorem field_stamp_id (freshId tCreated tUpdated : String) (question : Obj) :
    field (stamp freshId tCreated tUpdated question) "id"
      = some (createdId freshId question) := by
  unfold stamp createdId
  by_cases hid : truthy ((field question "id").getD .undefined) = true
  · have hsome : field question "id" = some ((field question "id").getD .undefined) := by
      cases hq : field question "id" with
      | none => simp [hq, truthy] at hid
      | some v => simp
    simp only [hid, Bool.not_true, Bool.false_eq_true, if_false, if_true]
    split <;> simp only [field_setProp, String.reduceEq, if_false] <;> exact hsome
  · simp only [hid, Bool.not_false, Bool.false_eq_true, if_false, if_true, Bool.not_eq_true] 
    split <;> simp [field_setProp]

/-- Fields of the stored record other than the id and the two time stamps are those
of the draft. -/
theorem field_stamp_other (freshId tCreated tUpdated : String) (question : Obj) (k : String)
    (h1 : k ≠ "id") (h2 : k ≠ "createdAt") (h3 : k ≠ "updatedAt") :
    field (stamp freshId tCreated tUpdated question) k = field question k := by
  unfold stamp
  simp only
  split <;> split <;> simp [field_setProp, h1, h2, h3]


/-- C3, refuted as stated. The store holds a record with id `a`; a draft that carries
the id `a` is created with success, and `getQuestionById` of `a` returns the
older record, whose `question` field is not the one of the draft. -/
theorem create_then_get_counterexample :
    (addQuestion sampleHost noFaults "g" "t0" "t1" (fallbackStore [recA]) draftA).2 = true ∧
    getQuestionById
      (addQuestion sampleHost noFaults "g" "t0" "t1" (fallbackStore [recA]) draftA).1
      (createdId "g" draftA) = some recA ∧
    getProp recA "question" = some (.str "old") ∧
    field draftA "question" = some (.str "new") := by
  decide

/-- C3, amended. When no record of the store has the id of the created record (the
id of the draft if it carries a truthy one, the generated id otherwise) and that id
is a string, a number or a boolean, `getQuestionById` of that id returns the created
record after `addQuestion`, and the created record has the fields of the draft
except for `id`, `createdAt` and `updatedAt`. -/
theorem create_then_get (h : Host) (f : Faults) (freshId tCreated tUpdated : String)
    (s : Store) (question : Obj)
    (hnew : findIndexById s.questions (some (createdId freshId question)) = some none)
    (hprim : strictEq (createdId freshId question) (createdId freshId question) = true) :
    getQuestionById (addQuestion h f freshId tCreated tUpdated s question).1
        (createdId freshId question)
      = some (.obj (stamp freshId tCreated tUpdated question)) ∧
    field (stamp freshId tCreated tUpdated question) "id"
      = some (createdId freshId question) ∧
    ∀ k, k ≠ "id" → k ≠ "createdAt" → k ≠ "updatedAt" →
      field (stamp freshId tCreated tUpdated question) k = field question k := by
  refine ⟨?_, field_stamp_id _ _ _ _, fun k h1 h2 h3 => field_stamp_other _ _ _ _ k h1 h2 h3⟩
  have hq : getProp (.obj (stamp freshId tCreated tUpdated question)) "id"
      = some (createdId freshId question) := by
    simp only [getProp, field_stamp_id, Option.getD_some]
  unfold getQuestionById
  rw [addQuestion_questions, findIndexById_append_new hnew hq hprim]
  simp [List.getD_eq_getElem?_getD]

/-- Instance of the amended C3: a draft with id `a` created in a store that holds
only the record `b`. -/
theorem create_then_get_witness :
    getQuestionById (addQuestion sampleHost noFaults "g" "t0" "t1" (fallbackStore [recB])
        draftA).1 (createdId "g" draftA)
      = some (.obj (stamp "g" "t0" "t1" draftA)) ∧
    field (stamp "g" "t0" "t1" draftA) "id" = some (createdId "g" draftA) ∧
    ∀ k, k ≠ "id" → k ≠ "createdAt" → k ≠ "updatedAt" →
      field (stamp "g" "t0" "t1" draftA) k = field draftA k :=
  create_then_get sampleHost noFaults "g" "t0" "t1" (fallbackStore [recB]) draftA
    (by decide) (by decide)

/-- C4, refuted as stated. With the durable backend active and the host rejecting
`getFileHandle` for `q1.json`, `addQuestion` returns `false` while the new record is
in the in-memory collection and in the fallback store. -/
theorem create_rollback_counterexample :
    (addQuestion sampleHost (failOn (.getFileHandle "q1.json")) "g" "t0" "t1"
      (durableStore [] emptyDir) draftQ1).2 = false ∧
    (addQuestion sampleHost (failOn (.getFileHandle "q1.json")) "g" "t0" "t1"
      (durableStore [] emptyDir) draftQ1).1.questions
        = [.obj (stamp "g" "t0" "t1" draftQ1)] ∧
    (addQuestion sampleHost (failOn (.getFileHandle "q1.json")) "g" "t0" "t1"
      (durableStore [] emptyDir) draftQ1).1.questions ≠ (durableStore [] emptyDir).questions ∧
    (addQuestion sampleHost (failOn (.getFileHandle "q1.json")) "g" "t0" "t1"
      (durableStore [] emptyDir) draftQ1).1.stored ≠ (durableStore [] emptyDir).stored := by
  decide

/-- C4, amended. When the durable backend is active and saving the record to it
fails, `addQuestion` returns `false`, and the in-memory collection and the fallback
store both hold the new record: nothing is rolled back. -/
theorem create_failure_keeps_record (h : Host) (f : Faults)
    (freshId tCreated tUpdated : String) (s : Store) (question : Obj) (d : Dir)
    (hsup : s.fsSupported = true) (hdir : s.dir = some d)
    (hfail : (saveQuestionToFileSystem h f d
      (.obj (stamp freshId tCreated tUpdated question))).2 = false) :
    (addQuestion h f freshId tCreated tUpdated s question).2 = false ∧
    (addQuestion h f freshId tCreated tUpdated s question).1.questions
      = s.questions ++ [.obj (stamp freshId tCreated tUpdated question)] ∧
    (addQuestion h f freshId tCreated tUpdated s question).1.stored
      = some (jsonCloneItems
          (s.questions ++ [.obj (stamp freshId tCreated tUpdated question)])) := by
  refine ⟨?_, addQuestion_questions _ _ _ _ _ _ _, addQuestion_stored _ _ _ _ _ _ _⟩
  simp only [addQuestion, durable, saveQuestions, hsup, hdir, saveToFileSystem,
    Option.isSome_some, Bool.and_self, if_true, hfail]

/-- Instance of the amended C4: the host rejects the creation of `q1.json`. -/
theorem create_failure_keeps_record_witness :
    (addQuestion sampleHost (failOn (.getFileHandle "q1.json")) "g" "t0" "t1"
      (durableStore [recA] emptyDir) draftQ1).2 = false ∧
    (addQuestion sampleHost (failOn (.getFileHandle "q1.json")) "g" "t0" "t1"
      (durableStore [recA] emptyDir) draftQ1).1.questions
      = (durableStore [recA] emptyDir).questions ++ [.obj (stamp "g" "t0" "t1" draftQ1)] ∧
    (addQuestion sampleHost (failOn (.getFileHandle "q1.json")) "g" "t0" "t1"
      (durableStore [recA] emptyDir) draftQ1).1.stored
      = some (jsonCloneItems
          ((durableStore [recA] emptyDir).questions ++ [.obj (stamp "g" "t0" "t1" draftQ1)])) :=
  create_failure_keeps_record sampleHost (failOn (.getFileHandle "q1.json")) "g" "t0" "t1"
    (durableStore [recA] emptyDir) draftQ1 emptyDir rfl rfl (by decide)

/-- The loop body of the merge keeps the ids pairwise different. -/
theorem mergeOne_unique (h : Host) {qs qs1 : List JVal} {q : JVal}
    (hu : UniqueIds qs) (hm : mergeOne h qs q = some qs1) : UniqueIds qs1 := by
  unfold mergeOne at hm
  cases hf : findIndexById qs (getProp q "id") with
  | none => simp [hf] at hm
  | some r =>
    cases r with
    | none =>
      simp only [hf, Option.some.injEq] at hm
      subst hm
      unfold UniqueIds
      rw [List.pairwise_append]
      refine ⟨hu, List.pairwise_singleton _ _, ?_⟩
      intro a ha b hb
      obtain ⟨v, k, hv, hk, he⟩ := findIndexById_absent hf a ha
      simp only [List.mem_singleton] at hb
      subst hb
      simp only [sameId, hv, hk, he]
    | some i =>
      obtain ⟨hlt, v, k, hv, hk, he⟩ := findIndexById_found hf
      simp only [hf] at hm
      split at hm
      · split at hm
        · simp only [Option.some.injEq] at hm
          subst hm
          have hids : idsOf (qs.set i q) = idsOf qs :=
            idsOf_set (by rw [hk, hv, strictEq_eq he]) hlt
          exact (uniqueIds_congr hids).mpr hu
        · simp only [Option.some.injEq] at hm
          subst hm; exact hu
      · simp at hm

/-- The merge loop keeps the ids pairwise different, also when it is cut short. -/
theorem mergeLoop_unique (h : Host) (qs items : List JVal) (hu : UniqueIds qs) :
    UniqueIds (mergeLoop h qs items).1 := by
  induction items generalizing qs with
  | nil => simpa [mergeLoop] using hu
  | cons q rest ih =>
    unfold mergeLoop
    cases hm : mergeOne h qs q with
    | none => simpa using hu
    | some qs1 => simpa using ih qs1 (mergeOne_unique h hu hm)

/-- Id of a patched record: the id the patch names, the former id otherwise. -/
theorem getProp_spread_id (old : JVal) (patch : Obj) (now : String) (v : JVal)
    (hv : getProp old "id" = some v) :
    getProp (.obj (spread (ownProps old) (setProp patch "updatedAt" (.str now)))) "id"
      = some ((field patch "id").getD v) := by
  have h1 := field_ownProps_id old
  rw [hv] at h1
  simp only [getProp, field_spread, field_setProp, String.reduceEq, if_false]
  cases hp : field patch "id" with
  | some w => simp
  | none =>
    simp only [Option.none_or, Option.getD_none]
    simpa using h1

/-- One mutation that meets `keepsIds` keeps the ids pairwise different. -/
theorem step_unique (h : Host) (f : Faults) (s : Store) (op : Op)
    (hu : UniqueIds s.questions) (hk : keepsIds s op) :
    UniqueIds (step h f s op).questions := by
  cases op with
  | create freshId tCreated tUpdated draft =>
    simp only [step, addQuestion_questions]
    unfold UniqueIds
    rw [List.pairwise_append]
    refine ⟨hu, List.pairwise_singleton _ _, ?_⟩
    intro a ha b hb
    simp only [List.mem_singleton] at hb
    subst hb
    exact hk a ha
  | update now id patch =>
    simp only [step]
    cases hf : findIndexById s.questions (some id) with
    | none => simpa [updateQuestion, hf] using hu
    | some r =>
      cases r with
      | none => simpa [updateQuestion, hf] using hu
      | some i =>
        obtain ⟨hlt, v, k, hv, -, -⟩ := findIndexById_found hf
        rw [updateQuestion_questions h f now s id patch i hf]
        have hid := getProp_spread_id _ patch now v hv
        have hp : field patch "id" = none := hk
        rw [hp] at hid
        exact (uniqueIds_congr (idsOf_set (by rw [hid, hv]; rfl) hlt)).mpr hu
  | delete id =>
    simp only [step]
    cases hf : findIndexById s.questions (some id) with
    | none => simpa [deleteQuestion, hf] using hu
    | some r =>
      cases r with
      | none => simpa [deleteQuestion, hf] using hu
      | some i =>
        rw [deleteQuestion_questions h f s id i hf]
        exact List.Pairwise.sublist (List.eraseIdx_sublist _ _) hu
  | merge input =>
    simp only [step]
    cases input with
    | unavailable => simpa [importQuestions] using hu
    | unparsable => simpa [importQuestions] using hu
    | parsed v =>
      cases v with
      | arr items =>
        rw [importQuestions_questions]
        exact mergeLoop_unique h _ _ hu
      | _ => simpa [importQuestions] using hu

/-- C5, refuted as stated. From a collection with the single record `a`, creating a
draft that carries the id `a` leaves two records with that id; from the records `a`
and `b`, updating `a` with a patch that names the id `b` does the same. -/
theorem ids_unique_counterexample :
    UniqueIds (fallbackStore [recA]).questions ∧
    ¬ UniqueIds (run sampleHost (fallbackStore [recA])
      [(noFaults, .create "g" "t0" "t1" draftA)]).questions ∧
    UniqueIds (fallbackStore [recA, recB]).questions ∧
    ¬ UniqueIds (run sampleHost (fallbackStore [recA, recB])
      [(noFaults, .update "t2" (.str "a") patchIdB)]).questions := by
  decide

/-- C5, amended. Starting from a collection in which no two records share an id,
after any sequence of `addQuestion`, `updateQuestion`, `deleteQuestion` and
`importQuestions` calls, under any faults of the directory, no two records share an
id, provided every created record has an id (the one of its draft, or the generated
one) that no record of the store has at that time, and no patch names an `id`. -/
theorem ids_stay_unique (h : Host) (s : Store) (ops : List (Faults × Op))
    (hu : UniqueIds s.questions) (hg : Guarded h s ops) :
    UniqueIds (run h s ops).questions := by
  induction ops generalizing s with
  | nil => simpa [run] using hu
  | cons fop rest ih =>
    obtain ⟨f, op⟩ := fop
    simp only [run]
    exact ih (step h f s op) (step_unique h f s op hu hg.1) hg.2

/-- Instance of the amended C5 on the sample session. -/
theorem ids_stay_unique_witness :
    UniqueIds (run sampleHost (fallbackStore [recB]) sampleSession).questions :=
  ids_stay_unique sampleHost (fallbackStore [recB]) sampleSession (by decide) (by decide)

/-- C6, refuted as stated. The record `a` is updated with a patch that names the id
`b`: the record at its position then has the id `b`. -/
theorem id_immutable_counterexample :
    findIndexById (fallbackStore [recA]).questions (some (.str "a")) = some (some 0) ∧
    getProp ((updateQuestion sampleHost noFaults "t2" (fallbackStore [recA]) (.str "a")
      patchIdB).1.questions.getD 0 .undefined) "id" = some (.str "b") := by
  decide

/-- C6, amended. When `updateQuestion(x, patch)` finds the id `x` at position `i`, the
record at position `i` afterwards still has the id `x` if the patch names no `id`,
and has the id named by the patch if it names one. -/
theorem update_id (h : Host) (f : Faults) (now : String) (s : Store) (x : JVal)
    (patch : Obj) (i : Nat)
    (hf : findIndexById s.questions (some x) = some (some i)) :
    (field patch "id" = none →
      getProp ((updateQuestion h f now s x patch).1.questions.getD i .undefined) "id"
        = some x) ∧
    (∀ v, field patch "id" = some v →
      getProp ((updateQuestion h f now s x patch).1.questions.getD i .undefined) "id"
        = some v) := by
  obtain ⟨hlt, v, k, hv, hk, he⟩ := findIndexById_found hf
  have hx : v = x := by
    have := strictEq_eq he
    rw [this]; exact (Option.some.inj hk).symm
  have hget : (updateQuestion h f now s x patch).1.questions.getD i .undefined
      = .obj (spread (ownProps (s.questions.getD i .undefined))
          (setProp patch "updatedAt" (.str now))) := by
    rw [updateQuestion_questions h f now s x patch i hf]
    simp [List.getD_eq_getElem?_getD, hlt]
  rw [hget, getProp_spread_id _ patch now v hv]
  constructor
  · intro hp; rw [hp, hx]; rfl
  · intro w hp; rw [hp]; rfl

/-- Instance of the amended C6: the record `a` patched without an id. -/
theorem update_id_witness :
    (field patchText "id" = none →
      getProp ((updateQuestion sampleHost noFaults "t2" (fallbackStore [recB, recA]) (.str "a")
        patchText).1.questions.getD 1 .undefined) "id" = some (.str "a")) ∧
    (∀ v, field patchText "id" = some v →
      getProp ((updateQuestion sampleHost noFaults "t2" (fallbackStore [recB, recA]) (.str "a")
        patchText).1.questions.getD 1 .undefined) "id" = some v) :=
  update_id sampleHost noFaults "t2" (fallbackStore [recB, recA]) (.str "a") patchText 1
    (by decide)

/-- C7. Update is a field-level overwrite. When `updateQuestion(x, patch)` finds the
id `x` at position `i`, the element at position `i` afterwards is a record whose
`updatedAt` is the current time and whose every other field has the value the patch
gives it if the patch names it, and the value it had before otherwise; the
collection keeps its length and every other position keeps its record. -/
theorem update_field_overwrite (h : Host) (f : Faults) (now : String) (s : Store)
    (x : JVal) (patch : Obj) (i : Nat)
    (hf : findIndexById s.questions (some x) = some (some i)) :
    ∃ r : Obj,
      (updateQuestion h f now s x patch).1.questions.getD i .undefined = .obj r ∧
      field r "updatedAt" = some (.str now) ∧
      (∀ k v, k ≠ "updatedAt" → field patch k = some v → field r k = some v) ∧
      (∀ k, k ≠ "updatedAt" → field patch k = none →
        field r k = field (ownProps (s.questions.getD i .undefined)) k) ∧
      (updateQuestion h f now s x patch).1.questions.length = s.questions.length ∧
      ∀ j, j ≠ i →
        (updateQuestion h f now s x patch).1.questions[j]? = s.questions[j]? := by
  obtain ⟨hlt, -⟩ := findIndexById_found hf
  refine ⟨spread (ownProps (s.questions.getD i .undefined))
    (setProp patch "updatedAt" (.str now)), ?_, ?_, ?_, ?_, ?_, ?_⟩
  · rw [updateQuestion_questions h f now s x patch i hf]
    simp [List.getD_eq_getElem?_getD, hlt]
  · simp [field_spread, field_setProp]
  · intro k v hk hp
    simp [field_spread, field_setProp, hk, hp]
  · intro k hk hp
    simp [field_spread, field_setProp, hk, hp]
  · rw [updateQuestion_questions h f now s x patch i hf]; simp
  · intro j hj
    rw [updateQuestion_questions h f now s x patch i hf]
    exact List.getElem?_set_ne (Ne.symm hj)

/-- Instance of C7: the record `a`, second of two, patched on its `question`. -/
theorem update_field_overwrite_witness :
    ∃ r : Obj,
      (updateQuestion sampleHost noFaults "t2" (fallbackStore [recB, recA]) (.str "a")
        patchText).1.questions.getD 1 .undefined = .obj r ∧
      field r "updatedAt" = some (.str "t2") ∧
      (∀ k v, k ≠ "updatedAt" → field patchText k = some v → field r k = some v) ∧
      (∀ k, k ≠ "updatedAt" → field patchText k = none →
        field r k = field (ownProps ((fallbackStore [recB, recA]).questions.getD 1 .undefined)) k) ∧
      (updateQuestion sampleHost noFaults "t2" (fallbackStore [recB, recA]) (.str "a")
        patchText).1.questions.length = (fallbackStore [recB, recA]).questions.length ∧
      ∀ j, j ≠ 1 →
        (updateQuestion sampleHost noFaults "t2" (fallbackStore [recB, recA]) (.str "a")
          patchText).1.questions[j]? = (fallbackStore [recB, recA]).questions[j]? :=
  update_field_overwrite sampleHost noFaults "t2" (fallbackStore [recB, recA]) (.str "a")
    patchText 1 (by decide)

/-- Value returned by `deleteQuestion` when the search finds position `i`: `true`
without durable backend, else whether the deletion in the directory completed. -/
theorem deleteQuestion_snd (h : Host) (f : Faults) (s : Store) (x : JVal) (i : Nat)
    (hf : findIndexById s.questions (some x) = some (some i)) :
    (deleteQuestion h f s x).2 =
      match s.fsSupported, s.dir with
      | true, some d =>
          .returned (deleteQuestionFromFileSystem h f d (s.questions.getD i .undefined)).2
      | _, _ => .returned true := by
  unfold deleteQuestion
  simp only [hf, durable, saveQuestions, deleteFromFileSystem]
  cases hs : s.fsSupported <;> cases hd : s.dir <;> simp

/-- Deleting an id that the search does not find changes nothing and returns `false`. -/
theorem deleteQuestion_absent (h : Host) (f : Faults) (s : Store) (x : JVal)
    (hf : findIndexById s.questions (some x) = some none) :
    deleteQuestion h f s x = (s, .returned false) := by
  unfold deleteQuestion
  rw [hf]

/-- C8, refuted as stated. Three store states in which a record with the id is
present: after two creations of a draft with id `a`, both deletions of `a` return
`true`; with the durable backend active and no `media` directory, the first deletion
of `q1`, which has an attachment, returns `false`; after an import of `[null]` into
the empty store and the creation of `a`, the deletion of `a` throws. -/
theorem delete_twice_counterexample :
    (deleteQuestion sampleHost noFaults
      (run sampleHost (fallbackStore [])
        [(noFaults, .create "g" "t0" "t1" draftA), (noFaults, .create "g" "t0" "t1" draftA)])
      (.str "a")).2 = .returned true ∧
    (deleteQuestion sampleHost noFaults
      (deleteQuestion sampleHost noFaults
        (run sampleHost (fallbackStore [])
          [(noFaults, .create "g" "t0" "t1" draftA), (noFaults, .create "g" "t0" "t1" draftA)])
        (.str "a")).1 (.str "a")).2 = .returned true ∧
    (deleteQuestion sampleHost noFaults (durableStore [recQ1] dirNoMedia) (.str "q1")).2
      = .returned false ∧
    (deleteQuestion sampleHost noFaults
      (run sampleHost (fallbackStore [])
        [(noFaults, .merge (.parsed (.arr [.null]))), (noFaults, .create "g" "t0" "t1" draftA)])
      (.str "a")).2 = .threw := by
  decide

/-- C8, amended. When the search for `x` finds a record, no other element of the
collection has the id `x` (and the search over the others completes), and the
durable backend is inactive or the deletion in the directory completes, the first
`deleteQuestion(x)` returns `true`, a second one returns `false`, neither throws,
`getQuestionById(x)` then finds no record and `getQuestions()` is one shorter. -/
theorem delete_twice (h : Host) (f1 f2 : Faults) (s : Store) (x : JVal) (i : Nat)
    (hf : findIndexById s.questions (some x) = some (some i))
    (hone : findIndexById (s.questions.eraseIdx i) (some x) = some none)
    (hfs : ∀ d, s.fsSupported = true → s.dir = some d →
      (deleteQuestionFromFileSystem h f1 d (s.questions.getD i .undefined)).2 = true) :
    (deleteQuestion h f1 s x).2 = .returned true ∧
    (deleteQuestion h f2 (deleteQuestion h f1 s x).1 x).2 = .returned false ∧
    getQuestionById (deleteQuestion h f1 s x).1 x = some .undefined ∧
    (getQuestions (deleteQuestion h f1 s x).1).length + 1 = (getQuestions s).length := by
  obtain ⟨hlt, -⟩ := findIndexById_found hf
  have hq := deleteQuestion_questions h f1 s x i hf
  refine ⟨?_, ?_, ?_, ?_⟩
  · rw [deleteQuestion_snd h f1 s x i hf]
    cases hs : s.fsSupported <;> cases hd : s.dir <;> simp only
    rename_i d
    rw [hfs d hs hd]
  · have h2 : findIndexById (deleteQuestion h f1 s x).1.questions (some x) = some none := by
      rw [hq]; exact hone
    rw [deleteQuestion_absent h f2 _ x h2]
  · unfold getQuestionById
    rw [hq, hone]; rfl
  · simp only [getQuestions, hq, List.length_eraseIdx, hlt, if_true]
    omega

/-- Instance of the amended C8: the record `a` deleted twice from the records `b`, `a`. -/
theorem delete_twice_witness :
    (deleteQuestion sampleHost noFaults (fallbackStore [recB, recA]) (.str "a")).2
      = .returned true ∧
    (deleteQuestion sampleHost noFaults
      (deleteQuestion sampleHost noFaults (fallbackStore [recB, recA]) (.str "a")).1
      (.str "a")).2 = .returned false ∧
    getQuestionById (deleteQuestion sampleHost noFaults (fallbackStore [recB, recA])
      (.str "a")).1 (.str "a") = some .undefined ∧
    (getQuestions (deleteQuestion sampleHost noFaults (fallbackStore [recB, recA])
      (.str "a")).1).length + 1 = (getQuestions (fallbackStore [recB, recA])).length :=
  delete_twice sampleHost noFaults noFaults (fallbackStore [recB, recA]) (.str "a") 1
    (by decide) (by decide) (by intro d hs; exact absurd hs (by decide))

/-- C9, evaluated. With the durable backend active and no call rejected, creating
the draft `q1` writes `q1.json` and the attachment file `q1_0.png`; the record kept
in memory has no `path` for its attachment, and deleting `q1` in the same session
returns `true`, removes `q1.json` and leaves `q1_0.png` in the `media` directory. -/
theorem delete_leaves_attachment :
    (addQuestion sampleHost noFaults "g" "t0" "t1" (durableStore [] emptyDir) draftQ1).2
      = true ∧
    ((addQuestion sampleHost noFaults "g" "t0" "t1" (durableStore [] emptyDir) draftQ1).1.dir.bind
      (fun d => d.media)) = some [("q1_0.png", some (.blob [1, 2, 3]))] ∧
    (deleteQuestion sampleHost noFaults
      (addQuestion sampleHost noFaults "g" "t0" "t1" (durableStore [] emptyDir) draftQ1).1
      (.str "q1")).2 = .returned true ∧
    (deleteQuestion sampleHost noFaults
      (addQuestion sampleHost noFaults "g" "t0" "t1" (durableStore [] emptyDir) draftQ1).1
      (.str "q1")).1.questions = [] ∧
    (deleteQuestion sampleHost noFaults
      (addQuestion sampleHost noFaults "g" "t0" "t1" (durableStore [] emptyDir) draftQ1).1
      (.str "q1")).1.dir
      = some { files := [], media := some [("q1_0.png", some (.blob [1, 2, 3]))] } := by
  decide

/-- The deletion loop completes on items whose `path` is readable, whichever
removals the host rejects. -/
theorem deleteMediaLoop_completes (f : Faults) (items : List JVal)
    (files : List (String × Content)) (hp : ∀ item ∈ items, PathReadable item) :
    (deleteMediaLoop f items files).2 = true := by
  induction items generalizing files with
  | nil => rfl
  | cons item rest ih =>
    obtain ⟨p, hpp, hcase⟩ := hp item (List.mem_cons_self _ _)
    have hrest : ∀ it ∈ rest, PathReadable it := fun it hit => hp it (List.mem_cons_of_mem _ hit)
    have hitem : ∃ files1, deleteMediaItem f item files = (files1, true) := by
      unfold deleteMediaItem
      rw [hpp]
      rcases hcase with hfalsy | ⟨t, ht⟩
      · exact ⟨files, by simp [hfalsy]⟩
      · subst ht
        by_cases htr : truthy (.str t) = true
        · simp only [htr, Bool.not_true, Bool.false_eq_true, if_false]
          split
          · exact ⟨_, rfl⟩
          · exact ⟨_, rfl⟩
        · exact ⟨files, by simp [htr]⟩
    obtain ⟨files1, h1⟩ := hitem
    unfold deleteMediaLoop
    rw [h1]
    exact ih files1 hrest

/-- Whether `_deleteQuestionFromFileSystem` completes, for a question whose `media`
can be read: only the opening of the `media` directory and the loop can throw. -/
theorem deleteQuestionFromFileSystem_snd (h : Host) (f : Faults) (d : Dir) (q media : JVal)
    (hm : getProp q "media" = some media) :
    (deleteQuestionFromFileSystem h f d q).2 =
      if nonEmpty h media then
        if f .getMediaDir then false
        else match d.media with
          | none => false
          | some files =>
            match iterate media with
            | none => false
            | some items => (deleteMediaLoop f items files).2
      else true := by
  have hd1 : ∀ d1 : Dir, d1.media = d.media →
      (match getProp q "media" with
        | none => (d1, false)
        | some media =>
          if nonEmpty h media then
            if f .getMediaDir then (d1, false) else
            match d1.media with
            | none => (d1, false)
            | some files =>
              match iterate media with
              | none => (d1, false)
              | some items =>
                let r := deleteMediaLoop f items files
                (({ d1 with media := some r.1 } : Dir), r.2)
          else (d1, true)).2 =
      if nonEmpty h media then
        if f .getMediaDir then false
        else match d.media with
          | none => false
          | some files =>
            match iterate media with
            | none => false
            | some items => (deleteMediaLoop f items files).2
      else true := by
    intro d1 hd
    rw [hm, hd]
    simp only
    split
    · split
      · rfl
      · cases d.media with
        | none => rfl
        | some files => cases iterate media <;> rfl
    · rfl
  unfold deleteQuestionFromFileSystem
  apply hd1
  cases getProp q "id" with
  | none => rfl
  | some id =>
    simp only
    split <;> rfl

/-- C10, refuted as stated. With the durable backend active, deleting the record
`q1`, which has an attachment, returns `false` when the directory has no `media`
subdirectory, and also when the host rejects the opening of that subdirectory; in
both cases the record has left the collection. -/
theorem delete_media_dir_counterexample :
    (deleteQuestion sampleHost noFaults (durableStore [recQ1] dirNoMedia) (.str "q1")).2
      = .returned false ∧
    (deleteQuestion sampleHost noFaults (durableStore [recQ1] dirNoMedia)
      (.str "q1")).1.questions = [] ∧
    (deleteQuestion sampleHost (failOn .getMediaDir) (durableStore [recQ1] dirQ1) (.str "q1")).2
      = .returned false ∧
    (deleteQuestion sampleHost (failOn .getMediaDir) (durableStore [recQ1] dirQ1)
      (.str "q1")).1.questions = [] := by
  decide

/-- C10, amended. With the durable backend active, `deleteQuestion` of an id found at
position `i` removes the record from the collection in every case. It returns `true`
when the record has no attachment, and when its attachments are an array of
descriptors and the `media` directory opens, whichever removal of an attachment file
or of the record file the host rejects. It returns `false` when the record has
attachments and the `media` directory cannot be opened. -/
theorem delete_best_effort (h : Host) (f : Faults) (s : Store) (x : JVal) (i : Nat) (d : Dir)
    (hf : findIndexById s.questions (some x) = some (some i))
    (hsup : s.fsSupported = true) (hdir : s.dir = some d) :
    (deleteQuestion h f s x).1.questions = s.questions.eraseIdx i ∧
    (∀ media, getProp (s.questions.getD i .undefined) "media" = some media →
      nonEmpty h media = false → (deleteQuestion h f s x).2 = .returned true) ∧
    (∀ items files, getProp (s.questions.getD i .undefined) "media" = some (.arr items) →
      (∀ item ∈ items, PathReadable item) → f .getMediaDir = false → d.media = some files →
      (deleteQuestion h f s x).2 = .returned true) ∧
    (∀ media, getProp (s.questions.getD i .undefined) "media" = some media →
      nonEmpty h media = true → (f .getMediaDir = true ∨ d.media = none) →
      (deleteQuestion h f s x).2 = .returned false) := by
  have hsnd : (deleteQuestion h f s x).2
      = .returned (deleteQuestionFromFileSystem h f d (s.questions.getD i .undefined)).2 := by
    rw [deleteQuestion_snd h f s x i hf, hsup, hdir]
  refine ⟨deleteQuestion_questions h f s x i hf, ?_, ?_, ?_⟩
  · intro media hm hne
    rw [hsnd, deleteQuestionFromFileSystem_snd h f d _ media hm, hne]
    rfl
  · intro items files hm hitems hopen hmedia
    rw [hsnd, deleteQuestionFromFileSystem_snd h f d _ _ hm, hopen, hmedia]
    simp only [iterate, deleteMediaLoop_completes f items files hitems]
    split <;> rfl
  · intro media hm hne hcannot
    rw [hsnd, deleteQuestionFromFileSystem_snd h f d _ media hm, hne]
    rcases hcannot with hc | hc
    · simp [hc]
    · simp only [hc, if_true]
      split <;> rfl

/-- Instance of the amended C10: the record `q1` is deleted while the host rejects
the removal of its attachment file and of its record file. -/
theorem delete_best_effort_witness :
    (deleteQuestion sampleHost
      (fun op => decide (op = .mediaRemoveEntry "q1_0.png" ∨ op = .removeEntry "q1.json"))
      (durableStore [recQ1] dirQ1) (.str "q1")).1.questions = [] ∧
    (deleteQuestion sampleHost
      (fun op => decide (op = .mediaRemoveEntry "q1_0.png" ∨ op = .removeEntry "q1.json"))
      (durableStore [recQ1] dirQ1) (.str "q1")).2 = .returned true :=
  ⟨(delete_best_effort sampleHost
      (fun op => decide (op = .mediaRemoveEntry "q1_0.png" ∨ op = .removeEntry "q1.json"))
      (durableStore [recQ1] dirQ1) (.str "q1") 0 dirQ1 (by decide) rfl rfl).1,
   (delete_best_effort sampleHost
      (fun op => decide (op = .mediaRemoveEntry "q1_0.png" ∨ op = .removeEntry "q1.json"))
      (durableStore [recQ1] dirQ1) (.str "q1") 0 dirQ1 (by decide) rfl rfl).2.2.1
      [.obj [("type", .str "image/png"), ("name", .str "a.png"),
        ("path", .str "media/q1_0.png")]]
      [("q1_0.png", some (.blob [1, 2, 3]))] (by decide)
      (by
        intro item hitem
        simp only [List.mem_singleton] at hitem
        subst hitem
        exact ⟨.str "media/q1_0.png", by decide, Or.inr ⟨_, rfl⟩⟩)
      (by decide) rfl⟩

/-! ## Claims C11 to C20 -/

/-! ## Lemmas on the sync module -/

/-- Recording the end of a drain leaves the queue as it is. -/
theorem finishDrain_queue (now : String) (a : App) :
    (finishDrain now a).syncQueue = a.syncQueue ∧
    (finishDrain now a).storedQueue = a.storedQueue ∧
    (finishDrain now a).sent = a.sent ∧ (finishDrain now a).notices = a.notices := by
  simp [finishDrain, updateSettings, applySettings, saveSettings]

/-- The head of the drain loop changes neither the queue nor its persisted copy. -/
theorem drainFrom_queue (now : String) (a : App) (i : Nat) :
    (drainFrom now a i).syncQueue = a.syncQueue ∧
    (drainFrom now a i).storedQueue = a.storedQueue := by
  unfold drainFrom
  cases a.syncQueue[i]? with
  | none => exact ⟨(finishDrain_queue now a).1, (finishDrain_queue now a).2.1⟩
  | some item => simp

/-- Starting a drain changes neither the queue nor its persisted copy. -/
theorem processSyncQueue_queue (now : String) (a : App) :
    (processSyncQueue now a).syncQueue = a.syncQueue ∧
    (processSyncQueue now a).storedQueue = a.storedQueue := by
  unfold processSyncQueue
  split
  · exact ⟨rfl, rfl⟩
  · simp only
    split
    · exact ⟨rfl, rfl⟩
    · exact drainFrom_queue now _ 0

/-- C11, refuted as stated. With auto-sync on, online, an endpoint and a credential
set, a successful `addQuestion`, a successful `updateQuestion` and a successful
`deleteQuestion` each leave the sync queue empty. -/
theorem mutation_enqueue_counterexample :
    field (sampleApp [recB] []).settings "autoSync" = some (.bool true) ∧
    (appAddQuestion sampleHost noFaults "g" "t0" "t1" (sampleApp [recB] []) draftA).2 = true ∧
    (appAddQuestion sampleHost noFaults "g" "t0" "t1" (sampleApp [recB] [])
      draftA).1.syncQueue.length = 0 ∧
    (appUpdateQuestion sampleHost noFaults "t2" (sampleApp [recB] []) (.str "b") patchText).2
      = .returned true ∧
    (appUpdateQuestion sampleHost noFaults "t2" (sampleApp [recB] []) (.str "b")
      patchText).1.syncQueue.length = 0 ∧
    (appDeleteQuestion sampleHost noFaults (sampleApp [recB] []) (.str "b")).2
      = .returned true ∧
    (appDeleteQuestion sampleHost noFaults (sampleApp [recB] [])
      (.str "b")).1.syncQueue.length = 0 := by
  decide

/-- C11, amended. Whatever the auto-sync setting, `addQuestion`, `updateQuestion` and
`deleteQuestion` leave the sync queue, its persisted copy and the requests handed to
the transport as they were. The queue grows, by exactly one item with the given
action and no retry, through a call of `addToSyncQueue`, which none of the three
makes. -/
theorem mutations_leave_queue (h : Host) (f : Faults) (freshId tCreated tUpdated now : String)
    (a : App) (question patch : Obj) (id action data : JVal) :
    ((appAddQuestion h f freshId tCreated tUpdated a question).1.syncQueue = a.syncQueue ∧
      (appAddQuestion h f freshId tCreated tUpdated a question).1.storedQueue = a.storedQueue ∧
      (appAddQuestion h f freshId tCreated tUpdated a question).1.sent = a.sent) ∧
    ((appUpdateQuestion h f now a id patch).1.syncQueue = a.syncQueue ∧
      (appUpdateQuestion h f now a id patch).1.storedQueue = a.storedQueue ∧
      (appUpdateQuestion h f now a id patch).1.sent = a.sent) ∧
    ((appDeleteQuestion h f a id).1.syncQueue = a.syncQueue ∧
      (appDeleteQuestion h f a id).1.storedQueue = a.storedQueue ∧
      (appDeleteQuestion h f a id).1.sent = a.sent) ∧
    (addToSyncQueue freshId now a action data).syncQueue
      = a.syncQueue ++
        [{ id := freshId, action := action, data := data, timestamp := now, retries := 0 }] := by
  refine ⟨⟨rfl, rfl, rfl⟩, ⟨rfl, rfl, rfl⟩, ⟨rfl, rfl, rfl⟩, ?_⟩
  unfold addToSyncQueue
  simp only
  split
  · rw [(processSyncQueue_queue now _).1]; rfl
  · rfl

/-- Serialised form of a property value: `undefined` stays, anything else is cloned. -/
theorem field_jsonCloneFields (fs : List (String × JVal)) (k : String)
    (hn : (fs.map Prod.fst).Nodup) :
    field (jsonCloneFields fs) k =
      match field fs k with
      | some .undefined => none
      | some v => some (jsonClone v)
      | none => none := by
  induction fs with
  | nil => simp [jsonCloneFields, field_nil]
  | cons kv rest ih =>
    obtain ⟨k0, v0⟩ := kv
    simp only [List.map_cons, List.nodup_cons] at hn
    have ih1 := ih hn.2
    have hrest : k = k0 → field rest k = none := by
      intro e
      subst e
      unfold field
      rw [List.lookup_eq_none_iff]
      intro p hp
      have hp1 : p.1 ≠ k := fun e => hn.1 (e ▸ List.mem_map_of_mem Prod.fst hp)
      simpa using fun e => hp1 e.symm
    by_cases hk : k = k0
    · have hr := hrest hk
      subst hk
      cases v0 <;> simp [jsonCloneFields, field_cons, ih1, hr]
    · cases v0 <;> simp [jsonCloneFields, field_cons, ih1, hk]


/-- Serialising does not change how two ids compare. -/
theorem strictEq_jsonClone (a b : JVal) :
    strictEq (jsonClone a) (jsonClone b) = strictEq a b := by
  cases a <;> cases b <;> simp [jsonClone, strictEq]

/-- Id of a serialised record: the serialised id. -/
theorem getProp_jsonClone_id (q : JVal) (hw : WellFormed q) :
    getProp (jsonClone q) "id" = (getProp q "id").map jsonClone := by
  obtain ⟨fs, rfl, hn⟩ := hw
  simp only [jsonClone, getProp, Option.map_some', field_jsonCloneFields fs "id" hn]
  cases hf : field fs "id" with
  | none => simp [jsonClone]
  | some v => cases v <;> simp [jsonClone]

/-- Two serialised records share an id exactly when the records do. -/
theorem sameId_jsonClone (a b : JVal) (ha : WellFormed a) (hb : WellFormed b) :
    sameId (jsonClone a) (jsonClone b) = sameId a b := by
  unfold sameId
  rw [getProp_jsonClone_id a ha, getProp_jsonClone_id b hb]
  cases getProp a "id" <;> cases getProp b "id" <;> simp [strictEq_jsonClone]

/-- A collection of records is serialised record by record. -/
theorem jsonCloneItems_records (qs : List JVal) (hw : ∀ q ∈ qs, WellFormed q) :
    jsonCloneItems qs = qs.map jsonClone := by
  induction qs with
  | nil => rfl
  | cons q rest ih =>
    obtain ⟨fs, rfl, -⟩ := hw q (List.mem_cons_self _ _)
    simp only [jsonCloneItems, List.map_cons]
    rw [ih (fun p hp => hw p (List.mem_cons_of_mem _ hp))]

/-- The search finds nothing in a collection whose ids all differ from the key. -/
theorem findIndexById_none_of {qs : List JVal} {k : JVal}
    (hq : ∀ p ∈ qs, ∃ v, getProp p "id" = some v ∧ strictEq v k = false) :
    findIndexById qs (some k) = some none := by
  induction qs with
  | nil => rfl
  | cons p rest ih =>
    obtain ⟨v, hv, he⟩ := hq p (List.mem_cons_self _ _)
    rw [findIndexById_cons p rest v k hv, he,
      ih (fun p1 hp1 => hq p1 (List.mem_cons_of_mem _ hp1))]
    rfl

/-- In a collection with readable, pairwise different ids, the search for the id of
an element finds that element. -/
theorem findIndexById_unique {qs : List JVal} {j : Nat} {q x : JVal}
    (hr : ∀ p ∈ qs, ∃ v, getProp p "id" = some v) (hu : UniqueIds qs)
    (hj : qs[j]? = some q) (hx : getProp q "id" = some x) (hp : strictEq x x = true) :
    findIndexById qs (some x) = some (some j) := by
  induction qs generalizing j with
  | nil => simp at hj
  | cons p rest ih =>
    obtain ⟨v, hv⟩ := hr p (List.mem_cons_self _ _)
    rw [findIndexById_cons p rest v x hv]
    cases j with
    | zero =>
      simp only [List.getElem?_cons_zero, Option.some.injEq] at hj
      subst hj
      rw [hx] at hv
      cases hv
      simp [hp]
    | succ j1 =>
      simp only [List.getElem?_cons_succ] at hj
      have hmem : q ∈ rest := List.getElem?_mem hj
      have hne : sameId p q = false := (List.pairwise_cons.mp hu).1 q hmem
      simp only [sameId, hv, hx] at hne
      rw [hne, ih (fun p1 hp1 => hr p1 (List.mem_cons_of_mem _ hp1))
        (List.pairwise_cons.mp hu).2 hj]
      rfl

/-- Merging items with readable ids, different from one another and from those of
the collection, appends them all. -/
theorem mergeLoop_all_new (h : Host) (qs items : List JVal)
    (hr : ∀ p ∈ qs ++ items, ∃ v, getProp p "id" = some v) (hu : UniqueIds (qs ++ items)) :
    mergeLoop h qs items = (qs ++ items, true) := by
  induction items generalizing qs with
  | nil => simp [mergeLoop]
  | cons q rest ih =>
    obtain ⟨k, hk⟩ := hr q (by simp)
    have hpair := List.pairwise_append.mp hu
    have hnone : findIndexById qs (some k) = some none := by
      apply findIndexById_none_of
      intro p hp
      obtain ⟨v, hv⟩ := hr p (by simp [hp])
      have := hpair.2.2 p hp q (List.mem_cons_self _ _)
      simp only [sameId, hv, hk] at this
      exact ⟨v, hv, this⟩
    have hone : mergeOne h qs q = some (qs ++ [q]) := by
      simp only [mergeOne, hk, hnone]
    simp only [mergeLoop, hone]
    have := ih (qs ++ [q]) (by simpa using hr) (by simpa using hu)
    simpa using this


/-- C12. Export/import round trip. When the records of a store are well-formed
objects with pairwise different ids, importing the file that `exportQuestions` writes
into a store with an empty collection yields the exported records, one for one and
in order: the collection has the serialised ids of the original, `getQuestionById`
of an id (a string, number, boolean or `null`) returns the exported form of the
record that has it, and records that serialisation leaves as they are come back
equal to the originals. -/
theorem export_import_round_trip (h : Host) (f : Faults) (source target : Store) (v : JVal)
    (hw : ∀ q ∈ source.questions, WellFormed q) (hu : UniqueIds source.questions)
    (hexp : exportQuestions source true = some v) (hempty : target.questions = []) :
    (importQuestions h f target (.parsed v)).1.questions = source.questions.map jsonClone ∧
    idsOf (importQuestions h f target (.parsed v)).1.questions
      = (idsOf source.questions).map (fun id => id.map jsonClone) ∧
    (∀ q ∈ source.questions, ∀ x, getProp q "id" = some x → strictEq x x = true →
      getQuestionById (importQuestions h f target (.parsed v)).1 x = some (jsonClone q)) ∧
    ((∀ q ∈ source.questions, jsonClone q = q) →
      (importQuestions h f target (.parsed v)).1.questions = source.questions) := by
  have hv : v = .arr (source.questions.map jsonClone) := by
    simp only [exportQuestions, if_true, Option.some.injEq] at hexp
    rw [← hexp, jsonCloneItems_records _ hw]
  have hwc : ∀ p ∈ source.questions.map jsonClone, ∃ w, getProp p "id" = some w := by
    intro p hp
    obtain ⟨q, hq, rfl⟩ := List.mem_map.mp hp
    obtain ⟨fs, rfl, -⟩ := hw q hq
    exact ⟨_, rfl⟩
  have huc : UniqueIds (source.questions.map jsonClone) := by
    unfold UniqueIds at hu ⊢
    rw [List.pairwise_map]
    exact hu.imp_of_mem (fun {a b} ha hb hab => by
      rw [sameId_jsonClone a b (hw a ha) (hw b hb)]; exact hab)
  have hq : (importQuestions h f target (.parsed v)).1.questions
      = source.questions.map jsonClone := by
    rw [hv, importQuestions_questions, hempty,
      mergeLoop_all_new h [] _ (by simpa using hwc) (by simpa using huc)]
    simp
  refine ⟨hq, ?_, ?_, ?_⟩
  · rw [hq]
    unfold idsOf
    rw [List.map_map, List.map_map]
    apply List.map_congr_left
    intro q hqm
    exact getProp_jsonClone_id q (hw q hqm)
  · intro q hqm x hx hp
    obtain ⟨j, hj⟩ := List.mem_iff_getElem?.mp hqm
    have hjc : (source.questions.map jsonClone)[j]? = some (jsonClone q) := by
      simp [hj]
    have hxc : getProp (jsonClone q) "id" = some x := by
      rw [getProp_jsonClone_id q (hw q hqm), hx]
      cases x <;> simp_all [strictEq, jsonClone]
    unfold getQuestionById
    rw [hq, findIndexById_unique hwc huc hjc hxc hp]
    simp [List.getD_eq_getElem?_getD, hj]
  · intro hclean
    have hid : source.questions.map jsonClone = source.questions.map id :=
      List.map_congr_left hclean
    rw [hq, hid, List.map_id]

/-- Instance of C12: the records `a` and `b` exported and imported into an empty
store. -/
theorem export_import_round_trip_witness :
    (importQuestions sampleHost noFaults (fallbackStore [])
      (.parsed (.arr (jsonCloneItems [recA, recB])))).1.questions = [recA, recB].map jsonClone ∧
    idsOf (importQuestions sampleHost noFaults (fallbackStore [])
      (.parsed (.arr (jsonCloneItems [recA, recB])))).1.questions
      = (idsOf (fallbackStore [recA, recB]).questions).map (fun id => id.map jsonClone) ∧
    (∀ q ∈ (fallbackStore [recA, recB]).questions, ∀ x, getProp q "id" = some x →
      strictEq x x = true →
      getQuestionById (importQuestions sampleHost noFaults (fallbackStore [])
        (.parsed (.arr (jsonCloneItems [recA, recB])))).1 x = some (jsonClone q)) ∧
    ((∀ q ∈ (fallbackStore [recA, recB]).questions, jsonClone q = q) →
      (importQuestions sampleHost noFaults (fallbackStore [])
        (.parsed (.arr (jsonCloneItems [recA, recB])))).1.questions
        = (fallbackStore [recA, recB]).questions) :=
  export_import_round_trip sampleHost noFaults (fallbackStore [recA, recB]) (fallbackStore [])
    (.arr (jsonCloneItems [recA, recB]))
    (by
      intro q hq
      simp only [fallbackStore, List.mem_cons, List.mem_singleton, List.not_mem_nil,
        or_false] at hq
      rcases hq with rfl | rfl
      · exact ⟨_, rfl, by decide⟩
      · exact ⟨_, rfl, by decide⟩)
    (by decide) (by decide) rfl

/-- The loop body of the merge leaves in place every record whose id differs from
the id of the imported item. -/
theorem mergeOne_keeps (h : Host) {qs qs1 : List JVal} {question q : JVal} {j : Nat}
    (hm : mergeOne h qs question = some qs1) (hj : qs[j]? = some q)
    (hne : sameId q question = false) : qs1[j]? = some q := by
  have hjlt : j < qs.length := (List.getElem?_eq_some.mp hj).1
  unfold mergeOne at hm
  cases hf : findIndexById qs (getProp question "id") with
  | none => simp [hf] at hm
  | some r =>
    cases r with
    | none =>
      simp only [hf, Option.some.injEq] at hm
      subst hm
      rw [List.getElem?_append_left hjlt]; exact hj
    | some i =>
      obtain ⟨hlt, v, k, hv, hk, he⟩ := findIndexById_found hf
      have hij : i ≠ j := by
        intro e
        subst e
        have hq : qs.getD i .undefined = q := by
          simp [List.getD_eq_getElem?_getD, hj]
        rw [hq] at hv
        simp only [sameId, hv, hk, he] at hne
        exact absurd hne (by decide)
      simp only [hf] at hm
      split at hm
      · split at hm
        · simp only [Option.some.injEq] at hm
          subst hm
          rw [List.getElem?_set_ne hij]; exact hj
        · simp only [Option.some.injEq] at hm
          subst hm; exact hj
      · simp at hm

/-- The merge loop leaves in place every record whose id differs from the ids of all
the imported items. -/
theorem mergeLoop_keeps (h : Host) (qs items : List JVal) (q : JVal) (j : Nat)
    (hj : qs[j]? = some q) (hne : ∀ item ∈ items, sameId q item = false) :
    (mergeLoop h qs items).1[j]? = some q := by
  induction items generalizing qs with
  | nil => simpa [mergeLoop] using hj
  | cons item rest ih =>
    unfold mergeLoop
    cases hm : mergeOne h qs item with
    | none => simpa using hj
    | some qs1 =>
      simp only
      exact ih qs1 (mergeOne_keeps h hm hj (hne item (List.mem_cons_self _ _)))
        (fun it hit => hne it (List.mem_cons_of_mem _ hit))

/-- C13. Merge inserts unknown records. An imported item whose id the search finds
in no record of the collection, at the time the item is processed, is appended to the
end of the collection as it is (in the loop body, and in `importQuestions` when it is
the last item of the file); a local record whose id is the id of no imported item is,
after `importQuestions`, the same record at the same position. -/
theorem merge_inserts_unknown (h : Host) (f : Faults) (s : Store) :
    (∀ (qs : List JVal) (question : JVal), findIndexById qs (getProp question "id") = some none →
      mergeOne h qs question = some (qs ++ [question])) ∧
    (∀ (pre : List JVal) (question : JVal) (qs : List JVal), mergeLoop h s.questions pre = (qs, true) →
      findIndexById qs (getProp question "id") = some none →
      (importQuestions h f s (.parsed (.arr (pre ++ [question])))).1.questions
        = qs ++ [question]) ∧
    (∀ (items : List JVal) (j : Nat) (q : JVal), s.questions[j]? = some q → (∀ item ∈ items, sameId q item = false) →
      (importQuestions h f s (.parsed (.arr items))).1.questions[j]? = some q) := by
  refine ⟨?_, ?_, ?_⟩
  · intro qs question hf
    simp only [mergeOne, hf]
  · intro pre question qs hpre hf
    rw [importQuestions_questions, mergeLoop_append, hpre]
    simp only [if_true, mergeLoop, mergeOne, hf]
  · intro items j q hj hne
    rw [importQuestions_questions]
    exact mergeLoop_keeps h _ items q j hj hne


/-- Instance of C13: the record `b` is imported into a store that holds `a`. -/
theorem merge_inserts_unknown_witness :
    mergeOne sampleHost [recA] recB = some ([recA] ++ [recB]) ∧
    (importQuestions sampleHost noFaults (fallbackStore [recA])
      (.parsed (.arr ([recA2] ++ [recB])))).1.questions = [recA2] ++ [recB] ∧
    (importQuestions sampleHost noFaults (fallbackStore [recA])
      (.parsed (.arr [recB]))).1.questions[0]? = some recA :=
  ⟨(merge_inserts_unknown sampleHost noFaults (fallbackStore [recA])).1 [recA] recB
      (by decide),
   (merge_inserts_unknown sampleHost noFaults (fallbackStore [recA])).2.1 [recA2] recB
      [recA2] (by decide) (by decide),
   (merge_inserts_unknown sampleHost noFaults (fallbackStore [recA])).2.2 [recB] 0 recA
      (by decide) (by decide)⟩

theorem mergedCount_le (h : Host) (qs items : List JVal) :
    mergedCount h qs items ≤ items.length := by
  induction items generalizing qs with
  | nil => simp [mergedCount]
  | cons q rest ih =>
    unfold mergedCount
    cases mergeOne h qs q with
    | none => simp
    | some qs1 =>
      have := ih qs1
      simp only [List.length_cons]
      split <;> omega

/-- C14, refuted as stated. The store holds the record `a` of time 2 and the file
the record `a` of time 1: nothing is merged, the collection is unchanged, and
`importQuestions` returns 1. -/
theorem import_count_counterexample :
    (importQuestions sampleHost noFaults (fallbackStore [recA2]) (.parsed (.arr [recA]))).2
      = some 1 ∧
    mergedCount sampleHost (fallbackStore [recA2]).questions [recA] = 0 ∧
    (importQuestions sampleHost noFaults (fallbackStore [recA2])
      (.parsed (.arr [recA]))).1.questions = (fallbackStore [recA2]).questions := by
  decide

/-- C14, amended. A number returned by `importQuestions` is the number of items of
the imported array, whether they were inserted, put in the place of a local record
or left out; it is returned when the merge loop completes and the durable backend is
inactive. The number of items merged is at most that number. -/
theorem import_returns_length (h : Host) (f : Faults) (s : Store) (items : List JVal) :
    (∀ n, (importQuestions h f s (.parsed (.arr items))).2 = some n → n = items.length) ∧
    ((mergeLoop h s.questions items).2 = true → durable s = false →
      (importQuestions h f s (.parsed (.arr items))).2 = some items.length) ∧
    mergedCount h s.questions items ≤ items.length := by
  refine ⟨?_, ?_, mergedCount_le h _ _⟩
  · intro n hn
    unfold importQuestions at hn
    simp only at hn
    rcases hm : mergeLoop h s.questions items with ⟨qs, b⟩
    rw [hm] at hn
    cases b
    · simp at hn
    · simp only at hn
      split at hn
      · split at hn
        · simp only [Option.some.injEq] at hn; exact hn.symm
        · simp at hn
      · simp only [Option.some.injEq] at hn; exact hn.symm
  · intro hloop hd
    unfold importQuestions
    simp only
    rcases hm : mergeLoop h s.questions items with ⟨qs, b⟩
    rw [hm] at hloop
    simp only at hloop
    subst hloop
    have hd1 : durable (saveQuestions { s with questions := qs }) = false := by
      simpa [durable, saveQuestions] using hd
    simp only [hd1, Bool.false_eq_true, if_false]

/-- Instance of the amended C14 on the sample import. -/
theorem import_returns_length_witness :
    (importQuestions sampleHost noFaults (fallbackStore [recA2]) (.parsed (.arr [recA]))).2
      = some [recA].length :=
  (import_returns_length sampleHost noFaults (fallbackStore [recA2]) [recA]).2.1
    (by decide) (by decide)

/-- When no read is rejected, the load loop collects the values of the `.json` files
whose text is JSON, in the order of the listing. -/
theorem loadEntries_ok (f : Faults) (files : List (String × Content)) (acc : List JVal)
    (hread : ∀ e ∈ files, endsWith e.1 ".json" = true → f (.getFile e.1) = false) :
    loadEntries f files acc
      = some (acc ++ (files.filter (fun e => endsWith e.1 ".json")).filterMap (fun e => e.2)) := by
  induction files generalizing acc with
  | nil => simp [loadEntries]
  | cons e rest ih =>
    obtain ⟨name, content⟩ := e
    have hrest : ∀ e ∈ rest, endsWith e.1 ".json" = true → f (.getFile e.1) = false :=
      fun e he => hread e (List.mem_cons_of_mem _ he)
    unfold loadEntries
    by_cases hj : endsWith name ".json" = true
    · have hf := hread (name, content) (List.mem_cons_self _ _) hj
      simp only [hj, if_true, hf, Bool.false_eq_true, if_false]
      cases content with
      | none => simp [ih _ hrest, List.filter_cons, hj]
      | some q => simp [ih _ hrest, List.filter_cons, hj]
    · simp only [hj, if_false]
      simp [ih _ hrest, List.filter_cons, hj]

/-- C15, refuted as stated. The collection holds the record `a`; the user picks a
directory with the file `b.json`, whose reading the host rejects: `chooseDirectory`
returns `true` and the collection still holds the record `a`, not the record `b`. -/
theorem choose_directory_counterexample :
    (chooseDirectory (failOn (.getFile "b.json")) (durableApp [recA] emptyDir)
      (some ("root", dirB))).2 = true ∧
    getQuestions (chooseDirectory (failOn (.getFile "b.json")) (durableApp [recA] emptyDir)
      (some ("root", dirB))).1.store = [recA] := by
  decide

/-- C15, amended. When the File System Access API is supported, the user picks a
directory and no listing or reading of that directory is rejected, `chooseDirectory`
returns `true` and the collection consists exactly of the values parsed from the
`.json` files of the new directory, in the order of its listing; nothing of the
prior collection remains, and the fallback store holds the new collection. -/
theorem choose_directory_replaces (f : Faults) (a : App) (name : String) (d : Dir)
    (hsup : a.store.fsSupported = true) (hlist : f .entries = false)
    (hread : ∀ e ∈ d.files, endsWith e.1 ".json" = true → f (.getFile e.1) = false) :
    (chooseDirectory f a (some (name, d))).2 = true ∧
    getQuestions (chooseDirectory f a (some (name, d))).1.store
      = (d.files.filter (fun e => endsWith e.1 ".json")).filterMap (fun e => e.2) ∧
    (chooseDirectory f a (some (name, d))).1.store.stored
      = some (jsonCloneItems
          ((d.files.filter (fun e => endsWith e.1 ".json")).filterMap (fun e => e.2))) ∧
    (chooseDirectory f a (some (name, d))).1.store.dir = some d := by
  simp only [chooseDirectory, hsup, Bool.not_true, Bool.false_eq_true, if_false,
    loadQuestionsFromFileSystem, saveSettings, hlist, loadEntries_ok f d.files [] hread,
    List.nil_append, getQuestions, saveQuestions, and_self]

/-- Instance of the amended C15: the directory of record `b` replaces a collection
that holds record `a`. -/
theorem choose_directory_replaces_witness :
    (chooseDirectory noFaults (durableApp [recA] emptyDir) (some ("root", dirB))).2 = true ∧
    getQuestions (chooseDirectory noFaults (durableApp [recA] emptyDir)
      (some ("root", dirB))).1.store
      = (dirB.files.filter (fun e => endsWith e.1 ".json")).filterMap (fun e => e.2) ∧
    (chooseDirectory noFaults (durableApp [recA] emptyDir) (some ("root", dirB))).1.store.stored
      = some (jsonCloneItems
          ((dirB.files.filter (fun e => endsWith e.1 ".json")).filterMap (fun e => e.2))) ∧
    (chooseDirectory noFaults (durableApp [recA] emptyDir) (some ("root", dirB))).1.store.dir
      = some dirB :=
  choose_directory_replaces noFaults (durableApp [recA] emptyDir) "root" dirB rfl rfl
    (fun _ _ _ => rfl)

/-- Splitting a text that does not contain the separator yields the text alone. -/
theorem splitOn_absent (c : Char) (l : List Char) (hc : c ∉ l) : splitOn c l = [l] := by
  induction l with
  | nil => rfl
  | cons x rest ih =>
    have hx : x ≠ c := fun e => hc (by simp [e])
    have hr : c ∉ rest := fun hm => hc (List.mem_cons_of_mem _ hm)
    simp [splitOn, hx, ih hr]

/-- First segment of a split: the text before the first separator. -/
theorem splitOn_head (c : Char) (l : List Char) :
    (splitOn c l).head? = some (l.takeWhile (fun x => x != c)) := by
  induction l with
  | nil => rfl
  | cons x rest ih =>
    by_cases hx : x = c
    · simp [splitOn, hx]
    · simp only [splitOn, hx, if_false]
      cases hs : splitOn c rest with
      | nil => simp [hs] at ih
      | cons seg segs =>
        simp only [hs, List.head?_cons, Option.some.injEq] at ih
        simp [List.takeWhile_cons, hx, ih]

theorem subtype_image (fmt : String) :
    subtype ("image/" ++ fmt) = String.mk (fmt.data.takeWhile (fun x => x != '/')) := by
  unfold subtype
  have h := splitOn_head '/' fmt.data
  have hd : ("image/" ++ fmt).data = 'i' :: 'm' :: 'a' :: 'g' :: 'e' :: '/' :: fmt.data := by
    simp [String.data_append]
  rw [hd]
  cases hs : splitOn '/' fmt.data with
  | nil => simp [hs] at h
  | cons seg segs =>
    simp only [hs, List.head?_cons, Option.some.injEq] at h
    simp [splitOn, hs, h]


theorem subtype_audio (fmt : String) :
    subtype ("audio/" ++ fmt) = String.mk (fmt.data.takeWhile (fun x => x != '/')) := by
  unfold subtype
  have h := splitOn_head '/' fmt.data
  have hd : ("audio/" ++ fmt).data = 'a' :: 'u' :: 'd' :: 'i' :: 'o' :: '/' :: fmt.data := by
    simp [String.data_append]
  rw [hd]
  cases hs : splitOn '/' fmt.data with
  | nil => simp [hs] at h
  | cons seg segs =>
    simp only [hs, List.head?_cons, Option.some.injEq] at h
    simp [splitOn, hs, h]

theorem startsWith_image (fmt : String) : startsWith ("image/" ++ fmt) "image/" = true := by
  unfold startsWith
  rw [String.data_append, List.isPrefixOf_iff_prefix]
  exact List.prefix_append _ _

theorem startsWith_audio (fmt : String) :
    startsWith ("audio/" ++ fmt) "image/" = false ∧
    startsWith ("audio/" ++ fmt) "audio/" = true := by
  constructor
  · unfold startsWith
    have hd : ("audio/" ++ fmt).data = 'a' :: 'u' :: 'd' :: 'i' :: 'o' :: '/' :: fmt.data := by
      simp [String.data_append]
    rw [hd]
    simp [List.isPrefixOf]
  · unfold startsWith
    rw [String.data_append, List.isPrefixOf_iff_prefix]
    exact List.prefix_append _ _

/-- A text without the separator is its own first segment. -/
theorem takeWhile_absent (fmt : String) (hs : '/' ∉ fmt.data) :
    String.mk (fmt.data.takeWhile (fun x => x != '/')) = fmt := by
  have : fmt.data.takeWhile (fun x => x != '/') = fmt.data := by
    rw [List.takeWhile_eq_self_iff]
    intro x hx
    have : x ≠ '/' := fun e => hs (e ▸ hx)
    simpa using this
  rw [this]

/-- C16, refuted as stated. For the type `image/a/b` the suffix is `.a`, not a dot
followed by `a/b`; for `image/jpeg/x` it is `.jpg`; for `audio/a/b` it is `.a`. -/
theorem extension_counterexample :
    getFileExtension (.str ("image/" ++ "a/b")) = some ".a" ∧
    some ".a" ≠ some ("." ++ "a/b") ∧
    getFileExtension (.str ("image/" ++ "jpeg/x")) = some ".jpg" ∧
    getFileExtension (.str ("audio/" ++ "a/b")) = some ".a" := by
  decide

/-- C16, amended. `_getFileExtension` gives `.jpg` for `image/jpeg`; for a type
`image/<fmt>` or `audio/<fmt>` it gives a dot followed by the part of `<fmt>` that
precedes its first slash (with `jpg` for `jpeg` in an image type), so a dot followed
by `<fmt>` when `<fmt>` contains no slash (and is not `jpeg` in an image type); for a
type that starts with neither `image/` nor `audio/` it gives the empty string. -/
theorem extension_of_type (fmt t : String) :
    getFileExtension (.str "image/jpeg") = some ".jpg" ∧
    getFileExtension (.str ("image/" ++ fmt))
      = some ("." ++
          (if String.mk (fmt.data.takeWhile (fun x => x != '/')) = "jpeg" then "jpg"
           else String.mk (fmt.data.takeWhile (fun x => x != '/')))) ∧
    getFileExtension (.str ("audio/" ++ fmt))
      = some ("." ++ String.mk (fmt.data.takeWhile (fun x => x != '/'))) ∧
    ('/' ∉ fmt.data → fmt ≠ "jpeg" →
      getFileExtension (.str ("image/" ++ fmt)) = some ("." ++ fmt)) ∧
    ('/' ∉ fmt.data → getFileExtension (.str ("audio/" ++ fmt)) = some ("." ++ fmt)) ∧
    (startsWith t "image/" = false → startsWith t "audio/" = false →
      getFileExtension (.str t) = some "") := by
  have himg : getFileExtension (.str ("image/" ++ fmt))
      = some ("." ++
          (if String.mk (fmt.data.takeWhile (fun x => x != '/')) = "jpeg" then "jpg"
           else String.mk (fmt.data.takeWhile (fun x => x != '/')))) := by
    simp only [getFileExtension, startsWith_image, if_true, subtype_image]
  have haud : getFileExtension (.str ("audio/" ++ fmt))
      = some ("." ++ String.mk (fmt.data.takeWhile (fun x => x != '/'))) := by
    simp only [getFileExtension, startsWith_audio, if_true, subtype_audio,
      Bool.false_eq_true, if_false]
  refine ⟨by decide, himg, haud, ?_, ?_, ?_⟩
  · intro hs hj
    rw [himg, takeWhile_absent fmt hs, if_neg hj]
  · intro hs
    rw [haud, takeWhile_absent fmt hs]
  · intro h1 h2
    simp only [getFileExtension, h1, h2, Bool.false_eq_true, if_false]

/-- Instance of the amended C16 on the type `image/png` and on `video/mp4`. -/
theorem extension_of_type_witness :
    getFileExtension (.str ("image/" ++ "png")) = some ("." ++ "png") ∧
    getFileExtension (.str ("audio/" ++ "png")) = some ("." ++ "png") ∧
    getFileExtension (.str "video/mp4") = some "" :=
  ⟨(extension_of_type "png" "video/mp4").2.2.2.1 (by decide) (by decide),
   (extension_of_type "png" "video/mp4").2.2.2.2.1 (by decide),
   (extension_of_type "png" "video/mp4").2.2.2.2.2 (by decide) (by decide)⟩

/-- Once no call is pending the transport has nothing to answer. -/
theorem answerAll_idle (now : String) (os : List Bool) (a : App) (hp : a.pending = none) :
    answerAll now os a = a := by
  cases os with
  | nil => rfl
  | cons ok rest => simp [answerAll, hp]

/-- The element that follows a prefix is the head of what follows. -/
theorem getElem?_after (kept rest : List QueueItem) :
    (kept ++ rest)[kept.length]? = rest.head? := by
  rw [List.getElem?_append_right (Nat.le_refl _)]
  cases rest <;> simp

/-- The drain, resumed at the loop index `kept.length` with `rest` the items still to
process, ends in the state `afterPass` once the transport has answered every call. -/
theorem answerAll_drainFrom (now : String) (rest : List QueueItem) :
    ∀ (kept : List QueueItem) (os : List Bool) (a : App),
      a.syncQueue = kept ++ rest →
      (rest = [] → a.storedQueue = some (jsonCloneItems (a.syncQueue.map QueueItem.toJVal))) →
      rest.length ≤ os.length →
      answerAll now os (drainFrom now a kept.length)
        = afterPass now a (kept ++ passKept rest os) rest (passAbandoned rest os) := by
  induction rest with
  | nil =>
    intro kept os a hq hst _
    have hnone : a.syncQueue[kept.length]? = none := by
      rw [hq, getElem?_after]; rfl
    have hq1 : a.syncQueue = kept := by simpa using hq
    simp only [drainFrom, hnone]
    rw [answerAll_idle now os _ (by simp [finishDrain])]
    have hsave : saveSyncQueue
        { a with
          syncQueue := kept ++ passKept [] os
          sent := a.sent ++ []
          notices := a.notices ++ List.replicate (passAbandoned [] os) syncFailed } = a := by
      cases a
      simp only [saveSyncQueue, passKept, passAbandoned, List.append_nil, List.replicate_zero]
      simp only at hq1 hst
      subst hq1
      simp
      exact (hst trivial).symm
    simp only [afterPass, hsave]
  | cons item rest ih =>
    intro kept os a hq _ hlen
    cases os with
    | nil => simp at hlen
    | cons ok os1 =>
      have hlen1 : rest.length ≤ os1.length := by simpa using hlen
      have hget : a.syncQueue[kept.length]? = some item := by
        rw [hq, getElem?_after]; rfl
      have herase : a.syncQueue.eraseIdx kept.length = kept ++ rest := by
        rw [hq, List.eraseIdx_append_of_length_le (Nat.le_refl _)]; simp
      have hset : ∀ x, a.syncQueue.set kept.length x = (kept ++ [x]) ++ rest := by
        intro x; rw [hq]; simp
      have hlen2 : (kept ++ [({ item with retries := item.retries + 1 } : QueueItem)]).length
          = kept.length + 1 := by simp
      simp only [drainFrom, hget, answerAll]
      cases ok
      · by_cases h3 : item.retries + 1 ≥ 3
        · simp only [transportAnswer, hget, herase, Bool.false_eq_true, if_false, h3, if_true]
          rw [ih kept os1 _ (by simp [saveSyncQueue]) (by intro _; simp [saveSyncQueue]) hlen1]
          simp [afterPass, saveSyncQueue, passKept, passAbandoned, h3, finishDrain,
            updateSettings, saveSettings, applySettings, syncFailed, List.replicate_succ,
            Nat.add_comm 1 (passAbandoned rest os1)]
        · simp only [transportAnswer, hget, hset, Bool.false_eq_true, if_false, h3]
          have hih := ih (kept ++ [{ item with retries := item.retries + 1 }]) os1
            (saveSyncQueue
              { a with
                sent := a.sent ++ [item]
                pending := some kept.length
                syncQueue := (kept ++ [{ item with retries := item.retries + 1 }]) ++ rest })
            (by simp [saveSyncQueue]) (by intro _; simp [saveSyncQueue]) hlen1
          rw [hlen2] at hih
          rw [hih]
          simp [afterPass, saveSyncQueue, passKept, passAbandoned, h3, finishDrain,
            updateSettings, saveSettings, applySettings]
      · simp only [transportAnswer, hget, herase, if_true]
        rw [ih kept os1 _ (by simp [saveSyncQueue]) (by intro _; simp [saveSyncQueue]) hlen1]
        simp [afterPass, saveSyncQueue, passKept, passAbandoned, finishDrain,
          updateSettings, saveSettings, applySettings]


/-- A drain pass on a non-empty queue, started idle, online and configured, and not
interleaved with anything: every item is handed to the transport once, in order, and
the pass ends in the state `afterPass`. -/
theorem drainPass_eq (now : String) (os : List Bool) (a : App)
    (hidle : Idle a) (hon : a.online = true) (hconf : Configured a)
    (hne : a.syncQueue ≠ []) (hlen : a.syncQueue.length ≤ os.length) :
    drainPass now os a
      = afterPass now a (passKept a.syncQueue os) a.syncQueue (passAbandoned a.syncQueue os) := by
  have hl : (a.syncQueue.length == 0) = false := by
    cases hq : a.syncQueue with
    | nil => exact absurd hq hne
    | cons x xs => rfl
  have hstart : processSyncQueue now a = drainFrom now { a with isSyncing := true } 0 := by
    simp only [processSyncQueue, hidle.1, hon, hl, getSettings, hconf.1, hconf.2,
      Bool.not_true, Bool.or_self, Bool.false_eq_true, if_false]
  rw [drainPass, hstart]
  have hres := answerAll_drainFrom now a.syncQueue [] os { a with isSyncing := true }
    (by simp) (by intro e; exact absurd e hne) hlen
  simp only [List.length_nil, List.nil_append] at hres
  rw [hres]
  simp [afterPass, finishDrain, saveSyncQueue, updateSettings, saveSettings, applySettings]

/-- A drain pass on an empty queue does nothing. -/
theorem drainPass_empty (now : String) (os : List Bool) (a : App)
    (hp : a.pending = none) (he : a.syncQueue = []) : drainPass now os a = a := by
  have : processSyncQueue now a = a := by
    simp [processSyncQueue, he]
  rw [drainPass, this, answerAll_idle now os a hp]

/-- Fields of the state at the end of a pass. -/
theorem afterPass_fields (now : String) (a : App) (queue handed : List QueueItem) (k : Nat) :
    (afterPass now a queue handed k).syncQueue = queue ∧
    (afterPass now a queue handed k).sent = a.sent ++ handed ∧
    (afterPass now a queue handed k).notices = a.notices ++ List.replicate k syncFailed ∧
    (afterPass now a queue handed k).storedQueue
      = some (jsonCloneItems (queue.map QueueItem.toJVal)) ∧
    (afterPass now a queue handed k).online = a.online ∧
    Idle (afterPass now a queue handed k) ∧
    (afterPass now a queue handed k).lastSyncTime = .str now ∧
    (Configured a → Configured (afterPass now a queue handed k)) := by
  refine ⟨?_, ?_, ?_, ?_, ?_, ?_, ?_, ?_⟩ <;>
    simp [afterPass, finishDrain, saveSyncQueue, updateSettings, saveSettings, applySettings,
      Idle, Configured, field_spread, field_cons, field_nil]

/-- The head of the drain loop shows no notification. -/
theorem drainFrom_notices (now : String) (a : App) (i : Nat) :
    (drainFrom now a i).notices = a.notices := by
  unfold drainFrom
  cases a.syncQueue[i]? with
  | none => exact (finishDrain_queue now a).2.2.2
  | some item => rfl

/-- C18. Abandonment removes the item and notifies exactly once. When the transport
answers the pending call for the item at index `i`, the notification `Sync Failed`
is shown once if the call failed and the retries of the item thereby reach 3, in
which case the item is removed from the queue, and no notification is shown
otherwise. In a drain pass (started idle, online and configured, nothing interleaved)
the notifications shown are as many `Sync Failed` as items abandoned, and the queue
keeps the items neither delivered nor abandoned. -/
theorem abandonment_notifies_once (now : String) (a : App) :
    (∀ (i : Nat) (item : QueueItem) (ok : Bool),
      a.pending = some i → a.syncQueue[i]? = some item →
      (transportAnswer now ok a).notices
          = a.notices ++ (if !ok && decide (item.retries + 1 ≥ 3) then [syncFailed] else []) ∧
      (ok = false → item.retries + 1 ≥ 3 →
          (transportAnswer now ok a).syncQueue = a.syncQueue.eraseIdx i)) ∧
    (∀ outcomes : List Bool, Idle a → a.online = true → Configured a →
      a.syncQueue.length ≤ outcomes.length →
      (drainPass now outcomes a).syncQueue = passKept a.syncQueue outcomes ∧
      (drainPass now outcomes a).notices
          = a.notices ++ List.replicate (passAbandoned a.syncQueue outcomes) syncFailed ∧
      (drainPass now outcomes a).notices.count syncFailed
          = a.notices.count syncFailed + passAbandoned a.syncQueue outcomes) := by
  constructor
  · intro i item ok hp hget
    cases ok
    · by_cases h3 : item.retries + 1 ≥ 3
      · simp only [transportAnswer, hp, hget, Bool.false_eq_true, if_false, h3, if_true,
          drainFrom_notices, (drainFrom_queue now _ i).1, saveSyncQueue, syncFailed,
          Bool.not_false, decide_True, Bool.and_self]
        exact ⟨trivial, fun _ _ => trivial⟩
      · simp [transportAnswer, hp, hget, h3, drainFrom_notices, saveSyncQueue]
    · simp [transportAnswer, hp, hget, drainFrom_notices, saveSyncQueue]
  · intro outcomes hidle hon hconf hlen
    by_cases hne : a.syncQueue = []
    · rw [drainPass_empty now outcomes a hidle.2 hne, hne]
      simp [passKept, passAbandoned]
    · rw [drainPass_eq now outcomes a hidle hon hconf hne hlen]
      obtain ⟨hq, -, hn, -⟩ := afterPass_fields now a (passKept a.syncQueue outcomes)
        a.syncQueue (passAbandoned a.syncQueue outcomes)
      refine ⟨hq, hn, ?_⟩
      rw [hn, List.count_append, List.count_replicate_self]


/-- Instance of C18: a pass over an item at its third attempt and a fresh one, both
failing. -/
theorem abandonment_notifies_once_witness :
    (drainPass "t9" [false, false] (sampleApp [] [item0, item1])).syncQueue
      = passKept [item0, item1] [false, false] ∧
    (drainPass "t9" [false, false] (sampleApp [] [item0, item1])).notices
      = [] ++ List.replicate (passAbandoned [item0, item1] [false, false]) syncFailed ∧
    (drainPass "t9" [false, false] (sampleApp [] [item0, item1])).notices.count syncFailed
      = List.count syncFailed [] + passAbandoned [item0, item1] [false, false] :=
  (abandonment_notifies_once "t9" (sampleApp [] [item0, item1])).2 [false, false]
    (by decide) rfl (by decide) (by decide)

/-- A pass in which every call fails, over items below their third attempt, keeps
them all with one more retry. -/
theorem passKept_fail_low (q : List QueueItem) (h : ∀ item ∈ q, item.retries + 1 < 3) :
    passKept q (List.replicate q.length false) = bump q ∧
    passAbandoned q (List.replicate q.length false) = 0 := by
  induction q with
  | nil => simp [passKept, passAbandoned, bump]
  | cons item rest ih =>
    have h1 : ¬ item.retries + 1 ≥ 3 := by
      have := h item (List.mem_cons_self _ _); omega
    obtain ⟨ih1, ih2⟩ := ih (fun it hit => h it (List.mem_cons_of_mem _ hit))
    simp only [List.length_cons, List.replicate_succ, passKept, passAbandoned,
      Bool.false_eq_true, if_false, h1, ih1, ih2, decide_False, Bool.and_false]
    simp [bump]

/-- A pass in which every call fails, over items at their third attempt, abandons
them all. -/
theorem passKept_fail_high (q : List QueueItem) (h : ∀ item ∈ q, item.retries + 1 ≥ 3) :
    passKept q (List.replicate q.length false) = [] ∧
    passAbandoned q (List.replicate q.length false) = q.length := by
  induction q with
  | nil => simp [passKept, passAbandoned]
  | cons item rest ih =>
    have h1 : item.retries + 1 ≥ 3 := h item (List.mem_cons_self _ _)
    obtain ⟨ih1, ih2⟩ := ih (fun it hit => h it (List.mem_cons_of_mem _ hit))
    simp only [List.length_cons, List.replicate_succ, passKept, passAbandoned,
      Bool.false_eq_true, if_false, h1, ih1, ih2, decide_True, Bool.not_false,
      Bool.and_self, if_true]
    exact ⟨trivial, by omega⟩

/-- State after a pass in which every call fails. -/
theorem failing_pass (now : String) (a : App) (hidle : Idle a) (hon : a.online = true)
    (hconf : Configured a) :
    (drainPass now (List.replicate a.syncQueue.length false) a).sent = a.sent ++ a.syncQueue ∧
    Idle (drainPass now (List.replicate a.syncQueue.length false) a) ∧
    (drainPass now (List.replicate a.syncQueue.length false) a).online = true ∧
    Configured (drainPass now (List.replicate a.syncQueue.length false) a) ∧
    ((∀ item ∈ a.syncQueue, item.retries + 1 < 3) →
      (drainPass now (List.replicate a.syncQueue.length false) a).syncQueue = bump a.syncQueue ∧
      (drainPass now (List.replicate a.syncQueue.length false) a).notices = a.notices) ∧
    ((∀ item ∈ a.syncQueue, item.retries + 1 ≥ 3) →
      (drainPass now (List.replicate a.syncQueue.length false) a).syncQueue = [] ∧
      (drainPass now (List.replicate a.syncQueue.length false) a).notices
        = a.notices ++ List.replicate a.syncQueue.length syncFailed) := by
  by_cases hne : a.syncQueue = []
  · rw [hne, drainPass_empty now _ a hidle.2 hne]
    simp [hne, hidle, hon, hconf, bump]
  · rw [drainPass_eq now _ a hidle hon hconf hne (by simp)]
    obtain ⟨hq, hs, hn, -, ho, hi, -, hc⟩ := afterPass_fields now a
      (passKept a.syncQueue (List.replicate a.syncQueue.length false)) a.syncQueue
      (passAbandoned a.syncQueue (List.replicate a.syncQueue.length false))
    refine ⟨hs, hi, ho.trans hon, hc hconf, ?_, ?_⟩
    · intro hlow
      rw [hq, hn, (passKept_fail_low _ hlow).1, (passKept_fail_low _ hlow).2]
      simp
    · intro hhigh
      rw [hq, hn, (passKept_fail_high _ hhigh).1, (passKept_fail_high _ hhigh).2]
      exact ⟨rfl, rfl⟩

theorem bump_length (q : List QueueItem) : (bump q).length = q.length := by simp [bump]

theorem bump_ids (q : List QueueItem) :
    (bump q).map (fun e => e.id) = q.map (fun e => e.id) := by
  simp [bump, Function.comp_def]

theorem bump_retries (q : List QueueItem) (r : Nat) (h : ∀ item ∈ q, item.retries = r) :
    ∀ item ∈ bump q, item.retries = r + 1 := by
  intro item hi
  simp only [bump, List.mem_map] at hi
  obtain ⟨it, hit, rfl⟩ := hi
  simp [h it hit]


/-- C19. Three failing passes. For a queue of `n` items without any retry, in an
application that is idle, online and configured, when every call of the transport
fails: after one pass and after two passes the queue still holds the `n` items (with
1 and 2 retries); after three passes the queue is empty, the requests handed to the
transport are the `n` items three times over (each item once per pass, so exactly 3
times when ids are distinct), and `n` notifications `Sync Failed` have been shown,
one per abandoned item. -/
theorem three_failing_passes (now1 now2 now3 : String) (a a1 a2 a3 : App) (n : Nat)
    (hidle : Idle a) (hon : a.online = true) (hconf : Configured a)
    (hn : a.syncQueue.length = n) (h0 : ∀ item ∈ a.syncQueue, item.retries = 0)
    (h1 : a1 = drainPass now1 (List.replicate n false) a)
    (h2 : a2 = drainPass now2 (List.replicate n false) a1)
    (h3 : a3 = drainPass now3 (List.replicate n false) a2) :
    (a1.syncQueue = bump a.syncQueue ∧ a1.syncQueue.length = n) ∧
    (a2.syncQueue = bump (bump a.syncQueue) ∧ a2.syncQueue.length = n) ∧
    a3.syncQueue = [] ∧
    a3.sent = a.sent ++ (a.syncQueue ++ bump a.syncQueue ++ bump (bump a.syncQueue)) ∧
    a3.notices = a.notices ++ List.replicate n syncFailed ∧
    ((a.syncQueue.map (fun e => e.id)).Nodup →
      ∀ item ∈ a.syncQueue, sendCount a3 item.id = sendCount a item.id + 3) := by
  subst hn
  -- first pass
  obtain ⟨s1, i1, o1, c1, low1, -⟩ := failing_pass now1 a hidle hon hconf
  rw [← h1] at s1 i1 o1 c1 low1
  obtain ⟨q1, n1⟩ := low1 (fun item hi => by have := h0 item hi; omega)
  have l1 : a1.syncQueue.length = a.syncQueue.length := by rw [q1, bump_length]
  have r1 : ∀ item ∈ a1.syncQueue, item.retries = 1 := by
    rw [q1]; exact bump_retries _ 0 h0
  -- second pass
  obtain ⟨s2, i2, o2, c2, low2, -⟩ := failing_pass now2 a1 i1 o1 c1
  rw [l1, ← h2] at s2 i2 o2 c2 low2
  obtain ⟨q2, n2⟩ := low2 (fun item hi => by have := r1 item hi; omega)
  have l2 : a2.syncQueue.length = a.syncQueue.length := by rw [q2, bump_length, l1]
  have r2 : ∀ item ∈ a2.syncQueue, item.retries = 2 := by
    rw [q2]; exact bump_retries _ 1 r1
  -- third pass
  obtain ⟨s3, -, -, -, -, high3⟩ := failing_pass now3 a2 i2 o2 c2
  rw [l2, ← h3] at s3 high3
  obtain ⟨q3, n3⟩ := high3 (fun item hi => by have := r2 item hi; omega)
  have hsent : a3.sent
      = a.sent ++ (a.syncQueue ++ bump a.syncQueue ++ bump (bump a.syncQueue)) := by
    rw [s3, s2, s1, q2, q1]; simp only [List.append_assoc]
  refine ⟨⟨q1, l1⟩, ⟨by rw [q2, q1], l2⟩, q3, hsent, by rw [n3, n2, n1], ?_⟩
  intro hnd item hi
  have hmem : item.id ∈ a.syncQueue.map (fun e => e.id) := List.mem_map_of_mem _ hi
  have hone : (a.syncQueue.map (fun e => e.id)).count item.id = 1 :=
    List.count_eq_one_of_mem hnd hmem
  simp only [sendCount, hsent, List.map_append, List.count_append, bump_ids, hone]

/-- Instance of C19: two fresh items and a transport that fails every call. -/
theorem three_failing_passes_witness :
    ((drainPass "t1" (List.replicate 2 false) (sampleApp [] [item1, item2])).syncQueue
        = bump (sampleApp [] [item1, item2]).syncQueue ∧
      (drainPass "t1" (List.replicate 2 false) (sampleApp [] [item1, item2])).syncQueue.length
        = 2) ∧
    ((drainPass "t2" (List.replicate 2 false)
        (drainPass "t1" (List.replicate 2 false) (sampleApp [] [item1, item2]))).syncQueue
        = bump (bump (sampleApp [] [item1, item2]).syncQueue) ∧
      (drainPass "t2" (List.replicate 2 false)
        (drainPass "t1" (List.replicate 2 false)
          (sampleApp [] [item1, item2]))).syncQueue.length = 2) ∧
    (drainPass "t3" (List.replicate 2 false)
      (drainPass "t2" (List.replicate 2 false)
        (drainPass "t1" (List.replicate 2 false) (sampleApp [] [item1, item2])))).syncQueue
      = [] ∧
    (drainPass "t3" (List.replicate 2 false)
      (drainPass "t2" (List.replicate 2 false)
        (drainPass "t1" (List.replicate 2 false) (sampleApp [] [item1, item2])))).sent
      = (sampleApp [] [item1, item2]).sent ++
        ((sampleApp [] [item1, item2]).syncQueue ++
          bump (sampleApp [] [item1, item2]).syncQueue ++
          bump (bump (sampleApp [] [item1, item2]).syncQueue)) ∧
    (drainPass "t3" (List.replicate 2 false)
      (drainPass "t2" (List.replicate 2 false)
        (drainPass "t1" (List.replicate 2 false) (sampleApp [] [item1, item2])))).notices
      = (sampleApp [] [item1, item2]).notices ++ List.replicate 2 syncFailed ∧
    (((sampleApp [] [item1, item2]).syncQueue.map (fun e => e.id)).Nodup →
      ∀ item ∈ (sampleApp [] [item1, item2]).syncQueue,
        sendCount (drainPass "t3" (List.replicate 2 false)
          (drainPass "t2" (List.replicate 2 false)
            (drainPass "t1" (List.replicate 2 false) (sampleApp [] [item1, item2]))))
          item.id = sendCount (sampleApp [] [item1, item2]) item.id + 3) :=
  three_failing_passes "t1" "t2" "t3" (sampleApp [] [item1, item2]) _ _ _ 2
    (by decide) rfl (by decide) rfl (by decide) rfl rfl rfl

/-- C20, evaluated. After the sync module is loaded again and `init` is run, the
in-memory queue is empty and `getStatus().queueLength` is 0, whatever queue
`_saveSyncQueue` persisted, and the persisted queue is untouched: `init` does not
call `_loadSyncQueue`. For the persisted queue of the two items `i1` and `i2` the
in-memory queue after the restart has length 0, not 2. -/
theorem restart_forgets_queue (now : String) (a : App) :
    (syncInit now (reloadSync a)).syncQueue = [] ∧
    (getStatus (syncInit now (reloadSync a))).queueLength = 0 ∧
    (syncInit now (reloadSync a)).storedQueue = a.storedQueue ∧
    (saveSyncQueue (sampleApp [] [item1, item2])).storedQueue
      = some (jsonCloneItems ([item1, item2].map QueueItem.toJVal)) ∧
    (getStatus (syncInit "t1" (reloadSync (saveSyncQueue (sampleApp [] [item1, item2]))))).queueLength
      = 0 := by
  have hq : (syncInit now (reloadSync a)).syncQueue = [] := by
    rw [syncInit, (processSyncQueue_queue now _).1]; rfl
  refine ⟨hq, ?_, ?_, rfl, by decide⟩
  · simp only [getStatus, hq, List.length_nil]
  · rw [syncInit, (processSyncQueue_queue now _).2]; rfl

/-- Queued items with distinct ids are equal when their ids are. -/
theorem eq_of_id_eq {q : List QueueItem} (hn : (q.map (fun e => e.id)).Nodup)
    {x y : QueueItem} (hx : x ∈ q) (hy : y ∈ q) (he : x.id = y.id) : x = y :=
  List.inj_on_of_nodup_map hn hx hy he

/-- The queue around the item at a given index. -/
theorem split_at {q : List QueueItem} {i : Nat} {item : QueueItem}
    (hg : q[i]? = some item) : ∃ kept rest, q = kept ++ item :: rest ∧ kept.length = i := by
  induction q generalizing i with
  | nil => simp at hg
  | cons x xs ih =>
    cases i with
    | zero =>
      simp only [List.getElem?_cons_zero, Option.some.injEq] at hg
      exact ⟨[], xs, by simp [hg], rfl⟩
    | succ j =>
      simp only [List.getElem?_cons_succ] at hg
      obtain ⟨kept, rest, hq, hl⟩ := ih hg
      exact ⟨x :: kept, rest, by simp [hq], by simp [hl]⟩

/-- The head of the drain loop keeps the invariant, coming from a state in which no
request is counted as pending. -/
theorem drainFrom_inv (now : String) (b : App) (i : Nat)
    (hn : (b.syncQueue.map (fun e => e.id)).Nodup) (hs : b.isSyncing = true)
    (hc : ∀ item ∈ b.syncQueue, item.retries ≤ 2 ∧ sendCount b item.id = item.retries)
    (hg : ∀ x, x ∉ b.syncQueue.map (fun e => e.id) → sendCount b x ≤ 3) :
    SyncInv (drainFrom now b i) := by
  unfold drainFrom
  cases hget : b.syncQueue[i]? with
  | none =>
    refine ⟨by simpa [finishDrain, updateSettings, saveSettings, applySettings] using hn,
      by simp [finishDrain], ?_, ?_⟩
    · intro item hi
      have hi1 : item ∈ b.syncQueue := by
        simpa [finishDrain, updateSettings, saveSettings, applySettings] using hi
      have := hc item hi1
      simpa [finishDrain, updateSettings, saveSettings, applySettings, sendCount,
        pendingItem] using this
    · intro x hx
      have hx1 : x ∉ b.syncQueue.map (fun e => e.id) := by
        simpa [finishDrain, updateSettings, saveSettings, applySettings] using hx
      have := hg x hx1
      simpa [finishDrain, updateSettings, saveSettings, applySettings, sendCount] using this
  | some item =>
    have hmem : item ∈ b.syncQueue := List.getElem?_mem hget
    have hlt : i < b.syncQueue.length := (List.getElem?_eq_some.mp hget).1
    refine ⟨hn, ?_, ?_, ?_⟩
    · intro j hj
      simp only [Option.some.injEq] at hj
      subst hj
      exact ⟨hs, hlt⟩
    · intro it hit
      have hit1 : it ∈ b.syncQueue := hit
      obtain ⟨h2, hcnt⟩ := hc it hit1
      refine ⟨h2, ?_⟩
      simp only [sendCount, pendingItem, Option.bind, hget, List.map_append, List.map_cons,
        List.map_nil, List.count_append, List.count_singleton, Option.some.injEq] at hcnt ⊢
      by_cases he : item = it
      · subst he; simp [hcnt]
      · have hid : ¬ item.id = it.id := fun e => he (eq_of_id_eq hn hmem hit1 e)
        simp [hcnt, he, hid]
    · intro x hx
      have hx1 : x ∉ b.syncQueue.map (fun e => e.id) := hx
      have hne : ¬ item.id = x := fun e => hx1 (e ▸ List.mem_map_of_mem _ hmem)
      have := hg x hx1
      simpa [sendCount, List.count_singleton, hne] using this


/-- In a state where no request is pending, the invariant says that every queued
item was handed over once per retry. -/
theorem SyncInv.idle {a : App} (hi : SyncInv a) (hp : a.pending = none) :
    ∀ item ∈ a.syncQueue, item.retries ≤ 2 ∧ sendCount a item.id = item.retries := by
  intro item hm
  have := hi.2.2.1 item hm
  simpa [pendingItem, hp] using this

/-- Starting a drain keeps the invariant. -/
theorem processSyncQueue_inv (now : String) (a : App) (hi : SyncInv a) :
    SyncInv (processSyncQueue now a) := by
  unfold processSyncQueue
  split
  · exact hi
  · rename_i hcond
    have hs : a.isSyncing = false := by
      cases h : a.isSyncing
      · rfl
      · simp [h] at hcond
    have hp : a.pending = none := by
      cases h : a.pending with
      | none => rfl
      | some i => have := (hi.2.1 i h).1; rw [hs] at this; exact absurd this (by decide)
    have hidle := hi.idle hp
    simp only
    split
    · refine ⟨hi.1, ?_, ?_, hi.2.2.2⟩
      · intro i h; exact absurd h (by simp [hp])
      · intro item hm
        have := hidle item hm
        simpa [pendingItem, hp, sendCount] using this
    · exact drainFrom_inv now _ 0 hi.1 rfl hidle hi.2.2.2

/-- The answer of the transport to the pending request keeps the invariant. -/
theorem transportAnswer_inv (now : String) (ok : Bool) (a : App) (hi : SyncInv a) :
    SyncInv (transportAnswer now ok a) := by
  cases hp : a.pending with
  | none => simpa [transportAnswer, hp] using hi
  | some i =>
    obtain ⟨hs, hlt⟩ := hi.2.1 i hp
    cases hget : a.syncQueue[i]? with
    | none => simpa [transportAnswer, hp, hget] using hi
    | some item =>
      obtain ⟨kept, rest, hq, hl⟩ := split_at hget
      have hpi : pendingItem a = some item := by simp [pendingItem, hp, hget]
      have hnd : (kept.map (fun e => e.id) ++ item.id :: rest.map (fun e => e.id)).Nodup := by
        have := hi.1; rw [hq] at this; simpa using this
      have hnd2 : ((kept ++ rest).map (fun e => e.id)).Nodup := by
        rw [List.map_append]
        exact hnd.sublist (List.Sublist.append_left (List.sublist_cons_self _ _) _)
      have hitem : item.retries ≤ 2 ∧ sendCount a item.id = item.retries + 1 := by
        have := hi.2.2.1 item (by rw [hq]; simp)
        simpa [hpi] using this
      have hother : ∀ it, it ∈ kept ∨ it ∈ rest →
          it.retries ≤ 2 ∧ sendCount a it.id = it.retries ∧ it.id ≠ item.id := by
        intro it hit
        have hmem : it ∈ a.syncQueue := by
          rw [hq]; rcases hit with h | h <;> simp [h]
        have hne : it.id ≠ item.id := by
          intro e
          rw [List.nodup_append] at hnd
          rcases hit with h | h
          · exact hnd.2.2 (List.mem_map_of_mem _ h) (by simp [e])
          · have := (List.nodup_cons.mp hnd.2.1).1
            exact this (e ▸ List.mem_map_of_mem _ h)
        have hne2 : ¬ item = it := fun e => hne (by rw [e])
        have := hi.2.2.1 it hmem
        simp only [hpi, Option.some.injEq, hne2, if_false, Nat.add_zero] at this
        exact ⟨this.1, this.2, hne⟩
      have herase : a.syncQueue.eraseIdx i = kept ++ rest := by
        rw [hq, ← hl, List.eraseIdx_append_of_length_le (Nat.le_refl _)]; simp
      have hset : ∀ x, a.syncQueue.set i x = kept ++ x :: rest := by
        intro x; rw [hq, ← hl]; simp
      have hgone : ∀ x, x ∉ (kept ++ rest).map (fun e => e.id) → sendCount a x ≤ 3 := by
        intro x hx
        by_cases hxi : x = item.id
        · rw [hxi, hitem.2]; have := hitem.1; omega
        · apply hi.2.2.2
          rw [hq]
          simp only [List.map_append, List.map_cons, List.mem_append, List.mem_cons,
            List.mem_map] at hx ⊢
          rintro (h | h | h)
          · exact hx (Or.inl h)
          · exact hxi h
          · exact hx (Or.inr h)
      have hremoved : ∀ ns : List Notice, SyncInv (drainFrom now
          (saveSyncQueue { a with syncQueue := a.syncQueue.eraseIdx i, notices := ns }) i) := by
        intro ns
        apply drainFrom_inv
        · simpa only [saveSyncQueue, herase] using hnd2
        · exact hs
        · intro it hit
          simp only [saveSyncQueue, herase, List.mem_append] at hit
          have := hother it hit
          exact ⟨this.1, by simpa [sendCount, saveSyncQueue] using this.2.1⟩
        · intro x hx
          simp only [saveSyncQueue, herase] at hx
          simpa [sendCount, saveSyncQueue] using hgone x hx
      cases ok
      · by_cases h3 : item.retries + 1 ≥ 3
        · simp only [transportAnswer, hp, hget, Bool.false_eq_true, if_false, h3, if_true]
          exact hremoved _
        · simp only [transportAnswer, hp, hget, Bool.false_eq_true, if_false, h3]
          apply drainFrom_inv
          · simp only [saveSyncQueue, hset]
            simpa using hnd
          · exact hs
          · intro it hit
            simp only [saveSyncQueue, hset, List.mem_append, List.mem_cons] at hit
            rcases hit with h | h | h
            · have := hother it (Or.inl h)
              exact ⟨this.1, by simpa [sendCount, saveSyncQueue] using this.2.1⟩
            · subst h
              refine ⟨by simp only; omega, ?_⟩
              simpa [sendCount, saveSyncQueue] using hitem.2
            · have := hother it (Or.inr h)
              exact ⟨this.1, by simpa [sendCount, saveSyncQueue] using this.2.1⟩
          · intro x hx
            simp only [saveSyncQueue, hset] at hx
            apply hi.2.2.2
            rw [hq]
            simpa using hx
      · simp only [transportAnswer, hp, hget, if_true]
        have := hremoved a.notices
        simpa using this


/-- Enqueueing an item under a fresh id keeps the invariant. -/
theorem addToSyncQueue_inv (freshId now : String) (a : App) (action data : JVal)
    (hi : SyncInv a) (hq : freshId ∉ a.syncQueue.map (fun e => e.id))
    (hs : freshId ∉ a.sent.map (fun e => e.id)) :
    SyncInv (addToSyncQueue freshId now a action data) := by
  have hnew : ∀ it ∈ a.syncQueue,
      it ≠ QueueItem.mk freshId action data now 0 := by
    intro it hit e
    exact hq (by rw [e] at hit; exact List.mem_map_of_mem (fun e => e.id) hit)
  have hpend : ∀ x : QueueItem,
      (a.pending.bind (fun i => (a.syncQueue ++ [x])[i]?)) = pendingItem a := by
    intro x
    unfold pendingItem
    cases hp : a.pending with
    | none => rfl
    | some i =>
      have := (hi.2.1 i hp).2
      simp [List.getElem?_append_left this]
  have hb : SyncInv (saveSyncQueue
      { a with
        syncQueue := a.syncQueue ++
          [QueueItem.mk freshId action data now 0] }) := by
    refine ⟨?_, ?_, ?_, ?_⟩
    · simp only [saveSyncQueue, List.map_append, List.map_cons, List.map_nil]
      rw [List.nodup_append]
      refine ⟨hi.1, List.nodup_singleton _, ?_⟩
      intro x hx1 hx2
      simp only [List.mem_singleton] at hx2
      exact hq (hx2 ▸ hx1)
    · intro i hp
      have := hi.2.1 i hp
      simp only [saveSyncQueue, List.length_append, List.length_singleton]
      exact ⟨this.1, by omega⟩
    · intro it hit
      simp only [saveSyncQueue, List.mem_append, List.mem_singleton] at hit
      simp only [saveSyncQueue, sendCount, pendingItem, hpend]
      rcases hit with h | h
      · exact hi.2.2.1 it h
      · subst h
        have hcount : List.count freshId (a.sent.map (fun e => e.id)) = 0 :=
          List.count_eq_zero_of_not_mem hs
        have hne : ¬ pendingItem a = some (QueueItem.mk freshId action data now 0) := by
          intro e
          unfold pendingItem at e
          cases hp : a.pending with
          | none => simp [hp] at e
          | some i =>
            simp only [hp, Option.bind] at e
            exact hnew _ (List.getElem?_mem e) rfl
        unfold pendingItem at hne
        simp [hcount, hne]
    · intro x hx
      apply hi.2.2.2
      intro hm
      apply hx
      simp only [saveSyncQueue, List.map_append, List.mem_append]
      exact Or.inl hm
  unfold addToSyncQueue
  simp only
  split
  · exact processSyncQueue_inv now _ hb
  · exact hb

/-- Every event keeps the invariant, the id generator being fresh. -/
theorem syncRun_inv (a : App) (evs : List SyncEvent) (hi : SyncInv a)
    (hf : FreshIds a evs) : SyncInv (syncRun a evs) := by
  induction evs generalizing a with
  | nil => exact hi
  | cons ev rest ih =>
    obtain ⟨hev, hrest⟩ := hf
    apply ih _ _ hrest
    cases ev with
    | enqueue freshId now action data =>
      exact addToSyncQueue_inv freshId now a action data hi hev.1 hev.2
    | drain now => exact processSyncQueue_inv now a hi
    | answer now ok => exact transportAnswer_inv now ok a hi
    | connect now =>
      apply processSyncQueue_inv
      exact ⟨hi.1, hi.2.1, hi.2.2.1, hi.2.2.2⟩
    | disconnect => exact ⟨hi.1, hi.2.1, hi.2.2.1, hi.2.2.2⟩

/-- C17. The sync queue never exceeds 3 delivery attempts per item. Starting from a
queue whose items have distinct ids and no retry, with no request sent or pending,
after any sequence of calls of `addToSyncQueue` (under fresh ids), calls of
`_processSyncQueue`, answers of the transport (success or failure) and connectivity
changes, interleaved in any way, every item of the queue has at most 2 retries and
no item was handed to the transport more than 3 times. -/
theorem retries_bounded (a : App) (evs : List SyncEvent)
    (h0 : ∀ item ∈ a.syncQueue, item.retries = 0)
    (hids : (a.syncQueue.map (fun e => e.id)).Nodup)
    (hp : a.pending = none) (hsent : a.sent = []) (hfresh : FreshIds a evs) :
    (∀ item ∈ (syncRun a evs).syncQueue, item.retries ≤ 2) ∧
    ∀ x, sendCount (syncRun a evs) x ≤ 3 := by
  have hinit : SyncInv a := by
    refine ⟨hids, ?_, ?_, ?_⟩
    · intro i h; rw [hp] at h; exact absurd h (by simp)
    · intro item hm
      simp [h0 item hm, sendCount, hsent, pendingItem, hp]
    · intro x _; simp [sendCount, hsent]
  have hinv := syncRun_inv a evs hinit hfresh
  refine ⟨fun item hm => (hinv.2.2.1 item hm).1, ?_⟩
  intro x
  by_cases hx : x ∈ (syncRun a evs).syncQueue.map (fun e => e.id)
  · obtain ⟨item, hm, rfl⟩ := List.mem_map.mp hx
    obtain ⟨h2, hc⟩ := hinv.2.2.1 item hm
    rw [hc]
    split <;> omega
  · exact hinv.2.2.2 x hx

/-- Instance of C17 on the sample session. -/
theorem retries_bounded_witness :
    (∀ item ∈ (syncRun (sampleApp [] []) sampleEvents).syncQueue, item.retries ≤ 2) ∧
    ∀ x, sendCount (syncRun (sampleApp [] []) sampleEvents) x ≤ 3 :=
  retries_bounded (sampleApp [] []) sampleEvents (by decide) (by decide) rfl rfl (by decide)

/-! ## Claims C21 to C28 -/

/-- C21. A drain that must not run is a no-op. When a drain is already running, or
the host is offline, or the queue is empty, `_processSyncQueue` returns at once and
the state of the application is the one before the call: no item is handed to the
transport, the queue and the retries of its items, its persisted copy, the time of the
last sync (in the sync module and in the settings) and the notifications are
unchanged. -/
theorem drain_noop (now : String) (a : App)
    (hc : a.isSyncing = true ∨ a.online = false ∨ a.syncQueue = []) :
    processSyncQueue now a = a ∧
    (processSyncQueue now a).sent = a.sent ∧
    (processSyncQueue now a).syncQueue = a.syncQueue ∧
    (processSyncQueue now a).syncQueue.map (fun e => e.retries)
      = a.syncQueue.map (fun e => e.retries) ∧
    (processSyncQueue now a).lastSyncTime = a.lastSyncTime ∧
    field (getSettings (processSyncQueue now a)) "lastSyncTime"
      = field (getSettings a) "lastSyncTime" ∧
    (processSyncQueue now a).notices = a.notices := by
  have h : processSyncQueue now a = a := by
    unfold processSyncQueue
    rcases hc with h | h | h <;> simp [h]
  rw [h]
  simp

/-- Instances of C21: a drain called while a drain is suspended, while offline, and
on an empty queue. -/
theorem drain_noop_witness :
    (processSyncQueue "t9" (processSyncQueue "t1" (sampleApp [] [item1, item2])))
      = processSyncQueue "t1" (sampleApp [] [item1, item2]) ∧
    (processSyncQueue "t1" (sampleApp [] [item1, item2])).sent = [item1] ∧
    processSyncQueue "t9" { sampleApp [] [item0] with online := false }
      = { sampleApp [] [item0] with online := false } ∧
    processSyncQueue "t9" (sampleApp [recA] []) = sampleApp [recA] [] :=
  ⟨(drain_noop "t9" (processSyncQueue "t1" (sampleApp [] [item1, item2]))
      (Or.inl (by decide))).1,
   by decide,
   (drain_noop "t9" { sampleApp [] [item0] with online := false }
      (Or.inr (Or.inl (by decide)))).1,
   (drain_noop "t9" (sampleApp [recA] []) (Or.inr (Or.inr (by decide)))).1⟩

/-- C22. `forceSync` fails fast without touching the queue. Whatever the queue and the
collection of records, when `apiUrl` or `apiKey` is unset (falsy) or the host is
offline, `forceSync` returns `false` without suspending; no item is handed to the
transport, the sync queue and its persisted copy are the ones before the call, and so
are the records, the settings and the time of the last sync: the call changes nothing
but the notifications, to which it adds one (`Sync in Progress` when a drain is
running, `Sync Error` otherwise). -/
theorem force_sync_fails_fast (freshId clock : Nat → String) (now : String) (a : App)
    (hc : ¬ Configured a ∨ a.online = false) :
    (forceSync freshId clock now a).2 = some false ∧
    (forceSync freshId clock now a).1.sent = a.sent ∧
    (forceSync freshId clock now a).1.syncQueue = a.syncQueue ∧
    (forceSync freshId clock now a).1.storedQueue = a.storedQueue ∧
    forceSync freshId clock now a
      = ({ a with
            notices := a.notices ++
              [if a.isSyncing then ⟨"warning", "Sync in Progress"⟩
               else ⟨"error", "Sync Error"⟩] }, some false) := by
  have h : forceSync freshId clock now a
      = ({ a with
            notices := a.notices ++
              [if a.isSyncing then ⟨"warning", "Sync in Progress"⟩
               else ⟨"error", "Sync Error"⟩] }, some false) := by
    unfold forceSync
    by_cases hs : a.isSyncing = true
    · simp [hs]
    · rcases hc with hc | hc
      · have hcfg : (!truthy ((field a.settings "apiUrl").getD .undefined)
            || !truthy ((field a.settings "apiKey").getD .undefined)) = true := by
          unfold Configured at hc
          cases h1 : truthy ((field a.settings "apiUrl").getD .undefined) <;>
            cases h2 : truthy ((field a.settings "apiKey").getD .undefined) <;> simp_all
        simp only [hs, getSettings, hcfg, if_true]
        simp
      · by_cases hcfg : (!truthy ((field a.settings "apiUrl").getD .undefined)
            || !truthy ((field a.settings "apiKey").getD .undefined)) = true
        · simp only [hs, getSettings, hcfg, if_true]
          simp
        · simp only [hs, getSettings, hcfg, hc]
          simp
  rw [h]
  exact ⟨rfl, rfl, rfl, rfl, rfl⟩

/-- Instances of C22: `forceSync` with the initial settings, and `forceSync` offline,
each with the record `a` and the item `i1` in the queue. -/
theorem force_sync_fails_fast_witness :
    (forceSync sampleIds sampleIds "t1" (freshApp [recA] [item1])).2 = some false ∧
    (forceSync sampleIds sampleIds "t1" (freshApp [recA] [item1])).1.syncQueue = [item1] ∧
    (forceSync sampleIds sampleIds "t1"
      { sampleApp [recA] [item1] with online := false }).2 = some false ∧
    (forceSync sampleIds sampleIds "t1"
      { sampleApp [recA] [item1] with online := false }).1.syncQueue = [item1] :=
  ⟨(force_sync_fails_fast sampleIds sampleIds "t1" (freshApp [recA] [item1])
      (Or.inl (by decide))).1,
   (force_sync_fails_fast sampleIds sampleIds "t1" (freshApp [recA] [item1])
      (Or.inl (by decide))).2.2.1,
   (force_sync_fails_fast sampleIds sampleIds "t1"
      { sampleApp [recA] [item1] with online := false } (Or.inr (by decide))).1,
   (force_sync_fails_fast sampleIds sampleIds "t1"
      { sampleApp [recA] [item1] with online := false } (Or.inr (by decide))).2.2.1⟩

/-- What the loop of a pass leaves of a queue is what the outcomes decide: the items
whose request failed with retries still below 3, with the failure counted. -/
theorem passKept_eq (q : List QueueItem) (os : List Bool) (hlen : q.length = os.length) :
    passKept q os = failedBelowLimit q os := by
  induction q generalizing os with
  | nil => simp [passKept, failedBelowLimit]
  | cons item rest ih =>
    cases os with
    | nil => simp at hlen
    | cons ok os1 =>
      have hl : rest.length = os1.length := by simpa using hlen
      have ih1 := ih os1 hl
      unfold failedBelowLimit at ih1 ⊢
      cases ok with
      | true => simp [passKept, ih1]
      | false =>
        by_cases hr : item.retries + 1 ≥ 3
        · have hr1 : ¬ item.retries + 1 < 3 := by omega
          simp [passKept, hr, hr1, ih1]
        · have hr1 : item.retries + 1 < 3 := by omega
          simp [passKept, hr, hr1, ih1]

/-- An item that the outcomes leave in the queue comes from an item whose request
failed. -/
theorem failedBelowLimit_origin (q : List QueueItem) (os : List Bool) (x : String)
    (hx : x ∈ (failedBelowLimit q os).map (fun e => e.id)) :
    ∃ (j : Nat) (item : QueueItem), q[j]? = some item ∧ os[j]? = some false ∧ item.id = x := by
  induction q generalizing os with
  | nil => simp [failedBelowLimit] at hx
  | cons item rest ih =>
    cases os with
    | nil => simp [failedBelowLimit] at hx
    | cons ok os1 =>
      have step : x ∈ (failedBelowLimit rest os1).map (fun e => e.id) ∨
          (ok = false ∧ item.id = x) := by
        unfold failedBelowLimit at hx ⊢
        cases ok with
        | true => left; simpa using hx
        | false =>
          by_cases hr : item.retries + 1 < 3
          · simp only [List.zip_cons_cons, List.filter_cons, Bool.not_false, Bool.true_and, hr,
              decide_True, if_true, List.map_cons, List.mem_cons] at hx
            rcases hx with h1 | h1
            · right; exact ⟨rfl, h1.symm⟩
            · left; exact h1
          · left
            simpa [hr] using hx
      rcases step with h1 | ⟨h1, h2⟩
      · obtain ⟨j, it, hj, ho, hid⟩ := ih os1 h1
        exact ⟨j + 1, it, by simpa using hj, by simpa using ho, hid⟩
      · exact ⟨0, item, by simp, by simp [h1], h2⟩

/-- C23. One drain pass, step by step. A drain pass that starts online, configured and
with no drain running, and with which no enqueue interleaves, whatever the outcomes of
its requests (one per item of the queue at the start), hands each item of that queue
to the transport once, in the order of the queue; when it ends, no drain is running
and the queue consists of the items whose request failed and whose retries, this
failure counted, are below 3, in their order and each with one retry more than before:
the items whose request succeeded have left the queue. -/
theorem drain_pass_steps (now : String) (outcomes : List Bool) (a : App)
    (hidle : Idle a) (hon : a.online = true) (hconf : Configured a)
    (hlen : outcomes.length = a.syncQueue.length) :
    (drainPass now outcomes a).sent = a.sent ++ a.syncQueue ∧
    (drainPass now outcomes a).syncQueue = failedBelowLimit a.syncQueue outcomes ∧
    (drainPass now outcomes a).isSyncing = false ∧
    (drainPass now outcomes a).pending = none ∧
    (∀ (i : Nat) (item : QueueItem), a.syncQueue[i]? = some item → outcomes[i]? = some true →
      (a.syncQueue.map (fun e => e.id)).Nodup →
      item.id ∉ (drainPass now outcomes a).syncQueue.map (fun e => e.id)) := by
  have hfields : (drainPass now outcomes a).sent = a.sent ++ a.syncQueue ∧
      (drainPass now outcomes a).syncQueue = failedBelowLimit a.syncQueue outcomes ∧
      (drainPass now outcomes a).isSyncing = false ∧
      (drainPass now outcomes a).pending = none := by
    by_cases hq : a.syncQueue = []
    · rw [drainPass_empty now outcomes a hidle.2 hq]
      simp [hq, failedBelowLimit, hidle.1, hidle.2]
    · rw [drainPass_eq now outcomes a hidle hon hconf hq (by omega)]
      obtain ⟨h1, h2, -, -, -, h6, -, -⟩ :=
        afterPass_fields now a (passKept a.syncQueue outcomes) a.syncQueue
          (passAbandoned a.syncQueue outcomes)
      exact ⟨h2, by rw [h1, passKept_eq _ _ hlen.symm], h6.1, h6.2⟩
  refine ⟨hfields.1, hfields.2.1, hfields.2.2.1, hfields.2.2.2, ?_⟩
  intro i item hi hok hnd hmem
  rw [hfields.2.1] at hmem
  obtain ⟨j, it, hj, ho, hid⟩ := failedBelowLimit_origin _ _ _ hmem
  have hij : i = j := by
    have h1 : (a.syncQueue.map (fun e => e.id))[i]? = some item.id := by simp [hi]
    have h2 : (a.syncQueue.map (fun e => e.id))[j]? = some item.id := by simp [hj, hid]
    have hi1 : i < (a.syncQueue.map (fun e => e.id)).length := by
      by_contra hc
      rw [List.getElem?_eq_none (by omega)] at h1
      cases h1
    have hj1 : j < (a.syncQueue.map (fun e => e.id)).length := by
      by_contra hc
      rw [List.getElem?_eq_none (by omega)] at h2
      cases h2
    rw [List.getElem?_eq_getElem hi1] at h1
    rw [List.getElem?_eq_getElem hj1] at h2
    exact (List.Nodup.getElem_inj_iff hnd).mp (by rw [Option.some.inj h1, Option.some.inj h2])
  subst hij
  rw [hok] at ho
  cases ho

/-- Instance of C23: a pass over the queue `i0, i1, i2`, where `i0` has two retries;
the requests of `i0` and `i1` fail and the request of `i2` succeeds. -/
theorem drain_pass_steps_witness :
    (drainPass "t1" [false, false, true] (sampleApp [] [item0, item1, item2])).sent
      = [item0, item1, item2] ∧
    (drainPass "t1" [false, false, true] (sampleApp [] [item0, item1, item2])).syncQueue
      = [{ item1 with retries := 1 }] :=
  ⟨(drain_pass_steps "t1" [false, false, true] (sampleApp [] [item0, item1, item2])
      (by decide) (by decide) (by decide) (by decide)).1,
    (drain_pass_steps "t1" [false, false, true] (sampleApp [] [item0, item1, item2])
      (by decide) (by decide) (by decide) (by decide)).2.1⟩

/-- Writing to a file that was created for the purpose is writing to the file. -/
theorem writeEntry_createEntry (fs : List (String × Content)) (n : String) (c : JVal) :
    writeEntry (createEntry fs n) n c = writeEntry fs n c := by
  unfold createEntry
  by_cases hh : hasEntry fs n = true
  · simp [hh]
  · have hall : ∀ e ∈ fs, (e.1 == n) = false := by
      intro e he
      unfold hasEntry at hh
      rw [List.any_eq_true] at hh
      cases hb : (e.1 == n)
      · rfl
      · exact absurd ⟨e, he, hb⟩ hh
    have hmap : fs.map (fun e => if e.1 == n then (n, some c) else e) = fs := by
      conv_rhs => rw [← List.map_id fs]
      apply List.map_congr_left
      intro e he
      simp [hall e he]
    have hnew : hasEntry (fs ++ [(n, (none : Content))]) n = true := by
      simp [hasEntry]
    simp only [hh, if_false, Bool.false_eq_true]
    unfold writeEntry
    simp only [hnew, hh, if_true, if_false, Bool.false_eq_true, List.map_append, hmap,
      List.map_cons, List.map_nil, beq_self_eq_true]

/-- The second of two assignments to a property is the one that counts. -/
theorem setProp_setProp (o : Obj) (k : String) (v w : JVal) :
    setProp (setProp o k v) k w = setProp o k w := by
  induction o with
  | nil => simp [setProp]
  | cons kv rest ih =>
    obtain ⟨k0, v0⟩ := kv
    by_cases h0 : k0 = k
    · simp [setProp, h0]
    · simp [setProp, h0, ih]

/-- Assigning to a property the value it has changes nothing. -/
theorem setProp_self (o : Obj) (k : String) (v : JVal) (h : field o k = some v) :
    setProp o k v = o := by
  induction o with
  | nil => simp [field_nil] at h
  | cons kv rest ih =>
    obtain ⟨k0, v0⟩ := kv
    rw [field_cons] at h
    by_cases h0 : k = k0
    · subst h0
      simp only [if_true, Option.some.injEq] at h
      subst h
      simp [setProp]
    · have h1 : ¬ k0 = k := fun e => h0 e.symm
      simp only [h0, if_false] at h
      simp [setProp, h1, ih h]

/-- Removing a property and assigning to another one can be done in either order. -/
theorem deleteProp_setProp (o : Obj) (k k1 : String) (v : JVal) (hk : k ≠ k1) :
    deleteProp (setProp o k v) k1 = setProp (deleteProp o k1) k v := by
  induction o with
  | nil =>
    have : (k != k1) = true := by simpa using hk
    simp [setProp, deleteProp, this]
  | cons kv rest ih =>
    obtain ⟨k0, v0⟩ := kv
    unfold deleteProp at ih ⊢
    by_cases h0 : k0 = k
    · subst h0
      have : (k0 != k1) = true := by simpa using hk
      simp [setProp, this]
    · by_cases h1 : k0 = k1
      · subst h1
        simp [setProp, h0, ih]
      · have : (k0 != k1) = true := by simpa using h1
        simp [setProp, h0, this, ih]

/-- A property that holds a value other than `undefined` is serialised with the
object. -/
theorem field_jsonCloneFields_some (fs : List (String × JVal)) (k : String) (v : JVal)
    (h : field fs k = some v) (hv : v ≠ .undefined) :
    field (jsonCloneFields fs) k = some (jsonClone v) := by
  induction fs with
  | nil => simp [field_nil] at h
  | cons kv rest ih =>
    obtain ⟨k0, v0⟩ := kv
    rw [field_cons] at h
    by_cases h0 : k = k0
    · subst h0
      simp only [if_true, Option.some.injEq] at h
      subst h
      cases v0 <;> simp [jsonCloneFields, field_cons] at hv ⊢
    · simp only [h0, if_false] at h
      cases v0 <;> simp [jsonCloneFields, field_cons, h0, ih h]

/-- An attachment that carries inline bytes is an object. -/
theorem truthy_data_obj {x data : JVal} (hd : getProp x "data" = some data)
    (ht : truthy data = true) : ∃ xfs, x = .obj xfs := by
  cases x with
  | obj xfs => exact ⟨xfs, rfl⟩
  | undefined => simp [getProp] at hd
  | null => simp [getProp] at hd
  | bool b => simp [getProp] at hd; subst hd; simp [truthy] at ht
  | num n => simp [getProp] at hd; subst hd; simp [truthy] at ht
  | str t => simp [getProp] at hd; subst hd; simp [truthy] at ht
  | blob b => simp [getProp] at hd; subst hd; simp [truthy] at ht
  | arr xs => simp [getProp] at hd; subst hd; simp [truthy] at ht

/-- A value whose property can be read is serialised as an item of its own. -/
theorem jsonCloneItems_cons_readable {x v : JVal} {k : String} (rest : List JVal)
    (hv : getProp x k = some v) :
    jsonCloneItems (x :: rest) = jsonClone x :: jsonCloneItems rest := by
  cases x <;> simp [getProp] at hv <;> simp [jsonCloneItems]

/-- One turn of the loop of the save that does not throw: the bytes of the attachment,
if it carries any, are written to its file, and the copy describes the attachment as
the metadata file is to describe it. -/
theorem saveMediaItem_ok (f : Faults) (id : JVal) (m : List JVal) (i : Nat) (x : JVal)
    (files : List (String × Content)) (cfs : Obj) (done rest : List JVal)
    (hx : m[i]? = some x)
    (hmedia : field cfs "media" = some (.arr (done ++ jsonCloneItems (x :: rest))))
    (hlen : done.length = i)
    (hok : (saveMediaItem f id (.arr m) i (files, .obj cfs)).2 = true) :
    saveMediaItem f id (.arr m) i (files, .obj cfs)
      = ((mediaWritten id i [x] files,
          .obj (setProp cfs "media"
            (.arr (done ++ storedAttachment id i x :: jsonCloneItems rest)))), true) := by
  have hgi : getIndex (.arr m) i = some x := by
    simp [getIndex, List.getD_eq_getElem?_getD, hx]
  unfold saveMediaItem at hok ⊢
  simp only [hgi] at hok ⊢
  cases hd : getProp x "data" with
  | none => simp [hd] at hok
  | some data =>
    have hcons := jsonCloneItems_cons_readable rest hd
    simp only [hd] at hok ⊢
    by_cases ht : truthy data = true
    · simp only [ht, Bool.not_true, Bool.false_eq_true, if_false] at hok ⊢
      cases he : (getProp x "type").bind getFileExtension with
      | none => simp [he] at hok
      | some ext =>
        simp only [he] at hok ⊢
        by_cases f1 : f (.mediaGetFileHandle (toStr id ++ "_" ++ toString i ++ ext)) = true
        · simp [f1] at hok
        · by_cases f2 : (f (.mediaCreateWritable (toStr id ++ "_" ++ toString i ++ ext))
              || f (.mediaWrite (toStr id ++ "_" ++ toString i ++ ext))
              || f (.mediaClose (toStr id ++ "_" ++ toString i ++ ext))) = true
          · simp [f1, f2] at hok
          · obtain ⟨xfs, hxo⟩ := truthy_data_obj hd ht
            subst hxo
            have hclone : jsonClone (.obj xfs) = .obj (jsonCloneFields xfs) := by
              simp [jsonClone]
            have hat : attachmentFile id i (.obj xfs)
                = some (toStr id ++ "_" ++ toString i ++ ext, data) := by
              simp [attachmentFile, hd, he, ht]
            have hsa : storedAttachment id i (.obj xfs)
                = .obj (setProp (deleteProp (jsonCloneFields xfs) "data") "path"
                    (.str ("media/" ++ (toStr id ++ "_" ++ toString i ++ ext)))) := by
              simp [storedAttachment, hat, hclone]
            have hrw : rewriteCopy (.obj cfs) i
                ("media/" ++ (toStr id ++ "_" ++ toString i ++ ext))
                = some (.obj (setProp cfs "media"
                    (.arr (done ++ storedAttachment id i (.obj xfs) :: jsonCloneItems rest)))) := by
              have hget : getIndex (.arr (done ++ jsonCloneItems (.obj xfs :: rest))) i
                  = some (.obj (jsonCloneFields xfs)) := by
                rw [hcons, hclone]
                have hq : (done ++ JVal.obj (jsonCloneFields xfs) :: jsonCloneItems rest)[i]?
                    = some (.obj (jsonCloneFields xfs)) := by
                  rw [← hlen, List.getElem?_append_right (le_refl _)]
                  simp
                simp only [getIndex, List.getD_eq_getElem?_getD, hq, Option.getD_some]
              have hset : (done ++ jsonCloneItems (.obj xfs :: rest)).set i
                  (storedAttachment id i (.obj xfs))
                  = done ++ storedAttachment id i (.obj xfs) :: jsonCloneItems rest := by
                rw [hcons, ← hlen]
                simp
              simp only [rewriteCopy, hmedia, Option.getD_some, hget, setIndex]
              rw [deleteProp_setProp _ _ _ _ (by decide), ← hsa, hset]
            simp only [f1, f2, Bool.false_eq_true, if_false, hrw, mediaWritten, hat,
              writeEntry_createEntry]
    · have hat : attachmentFile id i x = none := by
        simp only [attachmentFile, hd]
        cases (getProp x "type").bind getFileExtension <;> simp [ht]
      have hsa : storedAttachment id i x = jsonClone x := by
        simp only [storedAttachment, hat]
      have hself : setProp cfs "media"
          (.arr (done ++ storedAttachment id i x :: jsonCloneItems rest)) = cfs := by
        apply setProp_self
        rw [hmedia, hcons, hsa]
      simp only [ht, Bool.not_false, if_true, mediaWritten, hat, hself]

theorem mediaWritten_cons (r : JVal) (i : Nat) (x : JVal) (rest : List JVal)
    (files : List (String × Content)) :
    mediaWritten r i (x :: rest) files
      = mediaWritten r (i + 1) rest (mediaWritten r i [x] files) := by
  simp only [mediaWritten]
  cases attachmentFile r i x with
  | none => rfl
  | some p => rfl

/-- The loop of the save, when it does not throw: the bytes of the attachments are
written in order, and the copy describes the attachments as the metadata file is to
describe them. -/
theorem saveMediaLoop_ok (f : Faults) (id : JVal) (m : List JVal) (rest : List JVal) :
    ∀ (i : Nat) (files : List (String × Content)) (cfs : Obj) (done : List JVal),
      m.drop i = rest →
      field cfs "media" = some (.arr (done ++ jsonCloneItems rest)) →
      done.length = i →
      (saveMediaLoop f id (.arr m) (List.range' i rest.length) (files, .obj cfs)).2 = true →
      saveMediaLoop f id (.arr m) (List.range' i rest.length) (files, .obj cfs)
        = ((mediaWritten id i rest files,
            .obj (setProp cfs "media" (.arr (done ++ storedAttachments id i rest)))), true) := by
  induction rest with
  | nil =>
    intro i files cfs done _ hmedia _ _
    have hself : setProp cfs "media" (.arr (done ++ storedAttachments id i [])) = cfs := by
      apply setProp_self
      rw [hmedia]
      simp [jsonCloneItems, storedAttachments]
    simp only [List.length_nil, List.range', saveMediaLoop, mediaWritten, hself]
  | cons x rest ih =>
    intro i files cfs done hdrop hmedia hlen hok
    have hx : m[i]? = some x := by
      have := congrArg (fun l => l[0]?) hdrop
      simpa using this
    have hdrop1 : m.drop (i + 1) = rest := by
      have := congrArg (fun l => l.drop 1) hdrop
      simpa [Nat.add_comm] using this
    simp only [List.length_cons, List.range', saveMediaLoop] at hok ⊢
    cases hstep : saveMediaItem f id (.arr m) i (files, .obj cfs) with
    | mk st1 b =>
      cases b with
      | false => simp [hstep] at hok
      | true =>
        have hs := saveMediaItem_ok f id m i x files cfs done rest hx hmedia hlen
          (by rw [hstep])
        rw [hstep] at hs
        simp only [Prod.mk.injEq, and_true] at hs
        subst hs
        simp only [hstep] at hok ⊢
        have hmedia1 : field (setProp cfs "media"
            (.arr (done ++ storedAttachment id i x :: jsonCloneItems rest))) "media"
            = some (.arr ((done ++ [storedAttachment id i x]) ++ jsonCloneItems rest)) := by
          rw [field_setProp]
          simp
        rw [ih (i + 1) _ _ (done ++ [storedAttachment id i x]) hdrop1 hmedia1
          (by simp [hlen]) hok]
        rw [setProp_setProp, mediaWritten_cons id i x rest files]
        simp [storedAttachments]

/-- C24. The durable save rewrites the attachments. For every record with the id `r`
and the list of attachments `m`, a call of `_saveQuestionToFileSystem` that completes
writes to the file `<r>.json` the record (as JSON text renders it) in which every
attachment at an index `i` that carries inline bytes (a truthy `data`) has its `data`
removed and its `path` set to `media/<r>_<i><extension of its type>`, and every other
attachment is as it was; the bytes of each such attachment are written to the file
`<r>_<i><extension of its type>` of the media directory, in the order of the list,
and nothing else is written there; without attachments the media directory is not
touched, and no other file of the directory is. -/
theorem durable_save_rewrites (h : Host) (f : Faults) (d : Dir) (fs : Obj) (r : JVal)
    (m : List JVal)
    (hid : field fs "id" = some r) (hm : field fs "media" = some (.arr m))
    (hok : (saveQuestionToFileSystem h f d (.obj fs)).2 = true) :
    (saveQuestionToFileSystem h f d (.obj fs)).1.files
      = writeEntry d.files (toStr r ++ ".json") (storedRecord fs r m) ∧
    (saveQuestionToFileSystem h f d (.obj fs)).1.media
      = (if m = [] then d.media else some (mediaWritten r 0 m (d.media.getD []))) := by
  have hgid : getProp (.obj fs) "id" = some r := by simp [getProp, hid]
  have hgm : (getProp (.obj fs) "media").getD .undefined = .arr m := by simp [getProp, hm]
  have hclone : jsonClone (.obj fs) = .obj (jsonCloneFields fs) := by simp [jsonClone]
  have hcm : field (jsonCloneFields fs) "media" = some (.arr (jsonCloneItems m)) := by
    rw [field_jsonCloneFields_some fs "media" _ hm (by simp)]
    simp [jsonClone]
  have hne : nonEmpty h (.arr m) = decide (0 < m.length) := by
    simp [nonEmpty, truthy, lengthOf, getProp, toNumber, numGt]
  have hcount : ((toNumber h (lengthOf (.arr m))).getD 0).toNat = m.length := by
    simp [lengthOf, getProp, toNumber]
  unfold saveQuestionToFileSystem at hok ⊢
  simp only [hgid, hgm, hclone, hne, hcount] at hok ⊢
  by_cases f1 : f (.getFileHandle (toStr r ++ ".json")) = true
  · simp [f1] at hok
  by_cases f2 : f (.createWritable (toStr r ++ ".json")) = true
  · simp [f1, f2] at hok
  simp only [f1, f2, Bool.false_eq_true, if_false] at hok ⊢
  by_cases hempty : m = []
  · subst hempty
    simp only [List.length_nil, Nat.lt_irrefl, decide_False, Bool.false_eq_true, if_false,
      Bool.not_true] at hok ⊢
    by_cases f3 : (f (.write (toStr r ++ ".json")) || f (.close (toStr r ++ ".json"))) = true
    · simp [f3] at hok
    · have hrec : storedRecord fs r [] = .obj (jsonCloneFields fs) := by
        unfold storedRecord
        rw [setProp_self _ _ _ (by rw [hcm]; simp [jsonCloneItems, storedAttachments])]
      simp only [f3, Bool.false_eq_true, if_false, writeEntry_createEntry, hrec, if_true]
      exact ⟨trivial, trivial⟩
  · have hpos : 0 < m.length := List.length_pos.mpr hempty
    simp only [hpos, decide_True, if_true] at hok ⊢
    by_cases f4 : f .getMediaDir = true
    · simp [f4] at hok
    simp only [f4, Bool.false_eq_true, if_false] at hok ⊢
    rw [List.range_eq_range'] at hok ⊢
    cases hb : (saveMediaLoop f r (.arr m) (List.range' 0 m.length)
        (d.media.getD [], .obj (jsonCloneFields fs))).2 with
    | false => simp [hb] at hok
    | true =>
      have hloop := saveMediaLoop_ok f r m m 0 (d.media.getD []) (jsonCloneFields fs) []
        (by simp) (by simpa using hcm) rfl hb
      simp only [List.nil_append] at hloop
      rw [hloop] at hok ⊢
      simp only [Bool.not_true, Bool.false_eq_true, if_false] at hok ⊢
      by_cases f3 : (f (.write (toStr r ++ ".json")) || f (.close (toStr r ++ ".json"))) = true
      · simp [f3] at hok
      · simp only [f3, Bool.false_eq_true, if_false, writeEntry_createEntry, hempty,
          storedRecord]
        exact ⟨trivial, trivial⟩

/-- Instance of C24: the record `q2` is saved to an empty directory. -/
theorem durable_save_rewrites_witness :
    (saveQuestionToFileSystem sampleHost noFaults emptyDir (.obj recQ2fields)).1.files
      = [("q2.json", some (.obj
          [("id", .str "q2"), ("question", .str "which?"),
           ("media", .arr
             [.obj [("type", .str "audio/mp3"), ("name", .str "s.mp3"),
                ("path", .str "media/old.mp3")],
              .obj [("type", .str "image/jpeg"), ("name", .str "a.jpg"),
                ("path", .str "media/q2_1.jpg")]])]))] ∧
    (saveQuestionToFileSystem sampleHost noFaults emptyDir (.obj recQ2fields)).1.media
      = some [("q2_1.jpg", some (.blob [1, 2, 3]))] :=
  durable_save_rewrites sampleHost noFaults emptyDir recQ2fields (.str "q2")
    [.obj [("type", .str "audio/mp3"), ("name", .str "s.mp3"), ("path", .str "media/old.mp3")],
     .obj [("type", .str "image/jpeg"), ("name", .str "a.jpg"), ("data", .blob [1, 2, 3])]]
    (by decide) (by decide) (by decide)

theorem numGt_irrefl (a : Option Int) : numGt a a = false := by
  cases a <;> simp [numGt]

theorem numGt_trans_false {a b c : Option Int} (h1 : numGt a b = false)
    (h2 : numGt c b = true) : numGt a c = false := by
  cases a <;> cases b <;> cases c <;> simp_all [numGt]
  omega

/-- A search that finds a record finds it where it is in a longer collection. -/
theorem findIndexById_append_found {qs : List JVal} {key : Option JVal} {i : Nat}
    (more : List JVal) (hf : findIndexById qs key = some (some i)) :
    findIndexById (qs ++ more) key = some (some i) := by
  induction qs generalizing i with
  | nil => simp [findIndexById] at hf
  | cons q rest ih =>
    cases hq : getProp q "id" with
    | none => simp [findIndexById, hq] at hf
    | some v =>
      cases key with
      | none => simp [findIndexById, hq] at hf
      | some k =>
        rw [findIndexById_cons q rest v k hq] at hf
        rw [List.cons_append, findIndexById_cons q _ v k hq]
        by_cases he : strictEq v k = true
        · simpa [he] using hf
        · simp only [he, if_false, Bool.false_eq_true] at hf ⊢
          cases hr : findIndexById rest (some k) with
          | none => simp [hr] at hf
          | some r =>
            cases r with
            | none => simp [hr] at hf
            | some j =>
              simp only [hr, Option.map_some', Option.some.injEq] at hf
              rw [ih hr]
              simpa using hf

/-- A value one property of which can be read has all its properties readable. -/
theorem getProp_readable {x v : JVal} {k : String} (k1 : String) (hv : getProp x k = some v) :
    ∃ w, getProp x k1 = some w := by
  cases x <;> simp [getProp] at hv ⊢

/-- A record that the merge has just taken in or passed over is settled. -/
theorem mergeOne_settles (h : Host) {qs qs1 : List JVal} {x : JVal}
    (hid : ∃ v, getProp x "id" = some v ∧ strictEq v v = true)
    (hm : mergeOne h qs x = some qs1) : Settled h qs1 x := by
  obtain ⟨v, hv, hvv⟩ := hid
  unfold mergeOne at hm
  cases hf : findIndexById qs (getProp x "id") with
  | none => simp [hf] at hm
  | some r =>
    cases r with
    | none =>
      simp only [hf, Option.some.injEq] at hm
      subst hm
      obtain ⟨t, ht⟩ := getProp_readable "updatedAt" hv
      rw [hv] at hf
      refine ⟨qs.length, t, t, ?_, ?_, ht, numGt_irrefl _⟩
      · rw [hv]; exact findIndexById_append_new hf hv hvv
      · simp [List.getD_eq_getElem?_getD, ht]
    | some idx =>
      simp only [hf] at hm
      obtain ⟨hlt, w, k, hw, hk, hwk⟩ := findIndexById_found hf
      cases he : getProp (qs.getD idx .undefined) "updatedAt" with
      | none => rw [he] at hm; simp at hm
      | some e =>
        cases ht : getProp x "updatedAt" with
        | none => rw [he, ht] at hm; simp at hm
        | some t =>
          simp only [he, ht] at hm
          by_cases hg : numGt (h.dateOf t) (h.dateOf e) = true
          · simp only [hg, if_true, Option.some.injEq] at hm
            subst hm
            have hids : idsOf (qs.set idx x) = idsOf qs := by
              apply idsOf_set _ hlt
              rw [hw, hk, strictEq_eq hwk]
            refine ⟨idx, t, t, ?_, ?_, ht, numGt_irrefl _⟩
            · rw [findIndexById_congr _ hids]; exact hf
            · simp [List.getD_eq_getElem?_getD, List.getElem?_set, hlt, ht]
          · simp only [hg, if_false, Option.some.injEq, Bool.false_eq_true] at hm
            subst hm
            exact ⟨idx, e, t, hf, he, ht, by simpa using hg⟩

/-- A settled record stays settled when another record is merged. -/
theorem mergeOne_settled (h : Host) {qs qs1 : List JVal} {x y : JVal}
    (hx : Settled h qs x) (hm : mergeOne h qs y = some qs1) : Settled h qs1 x := by
  obtain ⟨idx, e, t, hfx, hex, htx, hgx⟩ := hx
  obtain ⟨hltx, -⟩ := findIndexById_found hfx
  unfold mergeOne at hm
  cases hf : findIndexById qs (getProp y "id") with
  | none => simp [hf] at hm
  | some r =>
    cases r with
    | none =>
      simp only [hf, Option.some.injEq] at hm
      subst hm
      refine ⟨idx, e, t, findIndexById_append_found _ hfx, ?_, htx, hgx⟩
      rw [← hex]
      simp [List.getD_eq_getElem?_getD, List.getElem?_append_left hltx]
    | some j =>
      simp only [hf] at hm
      obtain ⟨hlt, w, k, hw, hk, hwk⟩ := findIndexById_found hf
      cases he : getProp (qs.getD j .undefined) "updatedAt" with
      | none => rw [he] at hm; simp at hm
      | some ej =>
        cases ht : getProp y "updatedAt" with
        | none => rw [he, ht] at hm; simp at hm
        | some ty =>
          simp only [he, ht] at hm
          by_cases hg : numGt (h.dateOf ty) (h.dateOf ej) = true
          · simp only [hg, if_true, Option.some.injEq] at hm
            subst hm
            have hids : idsOf (qs.set j y) = idsOf qs := by
              apply idsOf_set _ hlt
              rw [hw, hk, strictEq_eq hwk]
            by_cases hij : j = idx
            · subst hij
              rw [he] at hex
              cases hex
              refine ⟨j, ty, t, ?_, ?_, htx, numGt_trans_false hgx hg⟩
              · rw [findIndexById_congr _ hids]; exact hfx
              · simp [List.getD_eq_getElem?_getD, List.getElem?_set, hlt, ht]
            · refine ⟨idx, e, t, ?_, ?_, htx, hgx⟩
              · rw [findIndexById_congr _ hids]; exact hfx
              · rw [← hex]
                simp [List.getD_eq_getElem?_getD, List.getElem?_set, hij]
          · simp only [hg, if_false, Option.some.injEq, Bool.false_eq_true] at hm
            subst hm
            exact ⟨idx, e, t, hfx, hex, htx, hgx⟩

/-- A settled record stays settled through a merge loop. -/
theorem mergeLoop_settled (h : Host) (qs items : List JVal) (x : JVal)
    (hx : Settled h qs x) : Settled h (mergeLoop h qs items).1 x := by
  induction items generalizing qs with
  | nil => simpa [mergeLoop] using hx
  | cons y rest ih =>
    unfold mergeLoop
    cases hm : mergeOne h qs y with
    | none => simpa using hx
    | some qs1 => simpa using ih qs1 (mergeOne_settled h hx hm)

/-- The loop body leaves the collection as it is for a settled record. -/
theorem mergeOne_of_settled (h : Host) {qs : List JVal} {x : JVal} (hx : Settled h qs x) :
    mergeOne h qs x = some qs := by
  obtain ⟨idx, e, t, hfx, hex, htx, hgx⟩ := hx
  simp only [mergeOne, hfx, hex, htx, hgx]
  simp

/-- Merging a sequence of records with identifiers for ids a second time changes
nothing, and ends as the first merge ends. -/
theorem mergeLoop_idem (h : Host) (qs items : List JVal)
    (hid : ∀ q ∈ items, ∃ v, getProp q "id" = some v ∧ strictEq v v = true) :
    mergeLoop h (mergeLoop h qs items).1 items = mergeLoop h qs items := by
  induction items generalizing qs with
  | nil => simp [mergeLoop]
  | cons x rest ih =>
    have hrest : ∀ q ∈ rest, ∃ v, getProp q "id" = some v ∧ strictEq v v = true :=
      fun q hq => hid q (List.mem_cons_of_mem _ hq)
    cases hm : mergeOne h qs x with
    | none => simp [mergeLoop, hm]
    | some qs1 =>
      have hs : Settled h (mergeLoop h qs1 rest).1 x :=
        mergeLoop_settled h qs1 rest x (mergeOne_settles h (hid x (List.mem_cons_self _ _)) hm)
      have e1 : mergeLoop h qs (x :: rest) = mergeLoop h qs1 rest := by
        simp [mergeLoop, hm]
      rw [e1]
      have e2 : mergeLoop h (mergeLoop h qs1 rest).1 (x :: rest)
          = mergeLoop h (mergeLoop h qs1 rest).1 rest := by
        rw [mergeLoop, mergeOne_of_settled h hs]
      rw [e2, ih qs1 hrest]

/-- C25, refuted as stated. A file with one record whose id is an array is imported
twice into an empty store: each import parses the file anew, no array is identical to
another one, the search by `===` finds no record with the id, and the second import
appends the record once more. -/
theorem merge_twice_counterexample :
    (importQuestions sampleHost noFaults (fallbackStore [])
      (.parsed (.arr [recArrayId]))).1.questions = [recArrayId] ∧
    (importQuestions sampleHost noFaults
      (importQuestions sampleHost noFaults (fallbackStore [])
        (.parsed (.arr [recArrayId]))).1
      (.parsed (.arr [recArrayId]))).1.questions = [recArrayId, recArrayId] := by
  decide

/-- C25, amended. Merge is idempotent on records whose ids are identifiers. For every
local collection and every incoming sequence of records each of which has an id that
equals itself under `===` (a string, a number, a boolean, `null`, or no id at all),
also one that repeats an id or has records with a missing or unparsable `updatedAt`,
a second import of the sequence leaves the collection that the first import produced
as it is, whatever the faults of the directory in either import; the second
merge loop ends as the first one does. -/
theorem merge_idempotent (h : Host) (f1 f2 : Faults) (s : Store) (items : List JVal)
    (hid : ∀ q ∈ items, ∃ v, getProp q "id" = some v ∧ Identifier v) :
    (importQuestions h f2 (importQuestions h f1 s (.parsed (.arr items))).1
      (.parsed (.arr items))).1.questions
      = (importQuestions h f1 s (.parsed (.arr items))).1.questions ∧
    mergeLoop h (mergeLoop h s.questions items).1 items = mergeLoop h s.questions items := by
  have hl := mergeLoop_idem h s.questions items hid
  refine ⟨?_, hl⟩
  rw [importQuestions_questions, importQuestions_questions, hl]

/-- Instance of the amended C25: the store holds the record `a` of time 1; the file
has the record `a` of time 2, the record `a` of time 1, the record `b`, a record `a`
without `updatedAt` and the record `a` of time 2 again. -/
theorem merge_idempotent_witness :
    (importQuestions sampleHost noFaults
      (importQuestions sampleHost noFaults (fallbackStore [recA])
        (.parsed (.arr [recA2, recA, recB, recA0, recA2]))).1
      (.parsed (.arr [recA2, recA, recB, recA0, recA2]))).1.questions
      = (importQuestions sampleHost noFaults (fallbackStore [recA])
        (.parsed (.arr [recA2, recA, recB, recA0, recA2]))).1.questions ∧
    (importQuestions sampleHost noFaults (fallbackStore [recA])
        (.parsed (.arr [recA2, recA, recB, recA0, recA2]))).1.questions = [recA2, recB] :=
  ⟨(merge_idempotent sampleHost noFaults noFaults (fallbackStore [recA])
      [recA2, recA, recB, recA0, recA2]
      (by
        intro q hq
        simp only [List.mem_cons, List.mem_singleton, List.not_mem_nil, or_false] at hq
        rcases hq with rfl | rfl | rfl | rfl | rfl <;> exact ⟨_, rfl, by decide⟩)).1,
    by decide⟩

/-- Whether a collection has a record with the id of `z` depends on its ids only. -/
theorem any_sameId_congr {qs qs1 : List JVal} (z : JVal) (h : idsOf qs = idsOf qs1) :
    qs.any (fun q => sameId q z) = qs1.any (fun q => sameId q z) := by
  have key : ∀ l : List JVal, l.any (fun q => sameId q z)
      = (idsOf l).any (fun o => match o, getProp z "id" with
          | some x, some y => strictEq x y
          | _, _ => false) := by
    intro l
    induction l with
    | nil => rfl
    | cons a l ih =>
      simp only [List.any_cons, idsOf, List.map_cons] at ih ⊢
      rw [ih]
      rfl
  rw [key, key, h]

/-- The search throws on no collection of records for the id of a record. -/
theorem findIndexById_readable {qs : List JVal} {k : JVal}
    (hr : ∀ q ∈ qs, ∃ v, getProp q "id" = some v) :
    ∃ r, findIndexById qs (some k) = some r := by
  induction qs with
  | nil => exact ⟨none, rfl⟩
  | cons q rest ih =>
    obtain ⟨v, hv⟩ := hr q (List.mem_cons_self _ _)
    obtain ⟨r, hrr⟩ := ih (fun p hp => hr p (List.mem_cons_of_mem _ hp))
    rw [findIndexById_cons q rest v k hv, hrr]
    by_cases he : strictEq v k = true
    · exact ⟨some 0, by simp [he]⟩
    · exact ⟨r.map (fun i => i + 1), by simp [he]⟩

/-- One step of the merge on records: it does not throw, keeps the collection one of
records, adds a record exactly when no record has the id of the incoming one, and
keeps the ids that the collection has those of the records seen. -/
theorem mergeOne_count (h : Host) {qs seen : List JVal} {x : JVal}
    (hr : ∀ q ∈ qs, ∃ v, getProp q "id" = some v) (hx : ∃ v, getProp x "id" = some v)
    (hs : ∀ z, qs.any (fun q => sameId q z) = seen.any (fun q => sameId q z)) :
    ∃ qs1, mergeOne h qs x = some qs1 ∧
      (∀ q ∈ qs1, ∃ v, getProp q "id" = some v) ∧
      (∀ z, qs1.any (fun q => sameId q z) = (seen ++ [x]).any (fun q => sameId q z)) ∧
      qs1.length = qs.length + (if seen.any (fun q => sameId q x) then 0 else 1) := by
  obtain ⟨v, hv⟩ := hx
  obtain ⟨r, hf⟩ := @findIndexById_readable qs v hr
  cases r with
  | none =>
    have hnone : qs.any (fun q => sameId q x) = false := by
      rw [List.any_eq_false]
      intro q hq
      obtain ⟨w, k, hw, hk, hwk⟩ := findIndexById_absent hf q hq
      cases hk
      simp [sameId, hw, hv, hwk]
    refine ⟨qs ++ [x], by simp [mergeOne, hv, hf], ?_, ?_, ?_⟩
    · intro q hq
      rcases List.mem_append.mp hq with h1 | h1
      · exact hr q h1
      · simp only [List.mem_singleton] at h1
        subst h1; exact ⟨v, hv⟩
    · intro z
      simp only [List.any_append, hs z]
    · rw [← hs x, hnone]; simp
  | some idx =>
    obtain ⟨hlt, w, k, hw, hk, hwk⟩ := findIndexById_found hf
    cases hk
    have hwv : w = v := strictEq_eq hwk
    subst hwv
    have hmem : qs.getD idx .undefined ∈ qs := by
      rw [List.getD_eq_getElem?_getD, List.getElem?_eq_getElem hlt]
      exact List.getElem_mem hlt
    have hsame : ∀ z, sameId x z = sameId (qs.getD idx .undefined) z := by
      intro z
      simp only [sameId, hv, hw]
    have hany : ∀ z, sameId x z = true → qs.any (fun q => sameId q z) = true := by
      intro z hz
      rw [List.any_eq_true]
      exact ⟨_, hmem, by rw [← hsame z]; exact hz⟩
    have hseen : ∀ z, (seen ++ [x]).any (fun q => sameId q z)
        = qs.any (fun q => sameId q z) := by
      intro z
      simp only [List.any_append, List.any_cons, List.any_nil, Bool.or_false, ← hs z]
      cases hz : sameId x z
      · simp
      · simp [hany z hz]
    have hxx : seen.any (fun q => sameId q x) = true := by
      rw [← hs x, List.any_eq_true]
      refine ⟨_, hmem, ?_⟩
      rw [← hsame x]
      simp only [sameId, hv]
      exact hwk
    obtain ⟨e, he⟩ := getProp_readable "updatedAt" hw
    obtain ⟨t, ht⟩ := getProp_readable "updatedAt" hv
    by_cases hg : numGt (h.dateOf t) (h.dateOf e) = true
    · have hids : idsOf (qs.set idx x) = idsOf qs := by
        apply idsOf_set _ hlt
        rw [hw, hv]
      refine ⟨qs.set idx x, by simp only [mergeOne, hv, hf, he, ht, hg, if_true], ?_, ?_, ?_⟩
      · intro q hq
        rcases List.mem_or_eq_of_mem_set hq with h1 | h1
        · exact hr q h1
        · subst h1; exact ⟨w, hv⟩
      · intro z
        rw [hseen z, any_sameId_congr z hids]
      · simp [hxx]
    · refine ⟨qs, by simp only [mergeOne, hv, hf, he, ht, hg, if_false, Bool.false_eq_true],
        hr, fun z => (hseen z).symm, by simp [hxx]⟩

/-- The merge loop on records runs to its end and adds one record for each new id. -/
theorem mergeLoop_count (h : Host) (qs seen items : List JVal)
    (hr : ∀ q ∈ qs, ∃ v, getProp q "id" = some v)
    (hi : ∀ q ∈ items, ∃ v, getProp q "id" = some v)
    (hs : ∀ z, qs.any (fun q => sameId q z) = seen.any (fun q => sameId q z)) :
    (mergeLoop h qs items).2 = true ∧
    (mergeLoop h qs items).1.length = qs.length + newIdCount seen items := by
  induction items generalizing qs seen with
  | nil => simp [mergeLoop, newIdCount]
  | cons x rest ih =>
    obtain ⟨qs1, hm, hr1, hs1, hl1⟩ :=
      mergeOne_count h hr (hi x (List.mem_cons_self _ _)) hs
    obtain ⟨h1, h2⟩ := ih qs1 (seen ++ [x]) hr1
      (fun q hq => hi q (List.mem_cons_of_mem _ hq)) hs1
    simp only [mergeLoop, hm, newIdCount]
    exact ⟨h1, by rw [h2, hl1]; omega⟩

/-- C26. Merge preserves the uniqueness of ids. When no two records of the local
collection share an id and all elements, local and incoming, are records (values whose
id can be read, anything but `null` and `undefined`), then after `importQuestions`,
whatever the incoming sequence repeats, no two records of the collection share an id,
the merge loop has run to its end, and the length of the collection is the local
length plus the number of distinct incoming ids that no local record has. Ids are
compared as the merge compares them, by `===`. -/
theorem merge_keeps_ids_unique (h : Host) (f : Faults) (s : Store) (items : List JVal)
    (hu : UniqueIds s.questions)
    (hr : ∀ q ∈ s.questions ++ items, ∃ v, getProp q "id" = some v) :
    UniqueIds (importQuestions h f s (.parsed (.arr items))).1.questions ∧
    (importQuestions h f s (.parsed (.arr items))).1.questions.length
      = s.questions.length + newIdCount s.questions items ∧
    (mergeLoop h s.questions items).2 = true := by
  rw [importQuestions_questions]
  obtain ⟨h1, h2⟩ := mergeLoop_count h s.questions s.questions items
    (fun q hq => hr q (List.mem_append_left _ hq))
    (fun q hq => hr q (List.mem_append_right _ hq)) (fun _ => rfl)
  exact ⟨mergeLoop_unique h _ _ hu, h2, h1⟩

/-- Instance of C26: the store holds the records `a` and `b`; the file has the record
`a`, the record `q1` twice, the record `b`, and a record without `updatedAt` that
has the id `a`: one record is added. -/
theorem merge_keeps_ids_unique_witness :
    UniqueIds (importQuestions sampleHost noFaults (fallbackStore [recA, recB])
      (.parsed (.arr [recA2, recQ1, recB, recQ1, recA0]))).1.questions ∧
    (importQuestions sampleHost noFaults (fallbackStore [recA, recB])
      (.parsed (.arr [recA2, recQ1, recB, recQ1, recA0]))).1.questions.length = 2 + 1 :=
  ⟨(merge_keeps_ids_unique sampleHost noFaults (fallbackStore [recA, recB])
      [recA2, recQ1, recB, recQ1, recA0] (by decide)
      (by
        intro q hq
        simp only [fallbackStore, List.cons_append, List.nil_append, List.mem_cons,
          List.mem_singleton, List.not_mem_nil, or_false] at hq
        rcases hq with rfl | rfl | rfl | rfl | rfl | rfl | rfl <;> exact ⟨_, rfl⟩)).1,
   (merge_keeps_ids_unique sampleHost noFaults (fallbackStore [recA, recB])
      [recA2, recQ1, recB, recQ1, recA0] (by decide)
      (by
        intro q hq
        simp only [fallbackStore, List.cons_append, List.nil_append, List.mem_cons,
          List.mem_singleton, List.not_mem_nil, or_false] at hq
        rcases hq with rfl | rfl | rfl | rfl | rfl | rfl | rfl <;> exact ⟨_, rfl⟩)).2.1⟩

/-- A change of a setting leaves every setting but the one named by the id of the
input as it is, and gives that one the value of the input. -/
theorem handleSettingChange_field (a : App) (setting : Target) (k : String) :
    field (getSettings (handleSettingChange a setting)) k =
      if k = setting.id then
        some (if setting.type == "checkbox" then JVal.bool setting.checked
          else JVal.str setting.value)
      else field (getSettings a) k := by
  simp only [handleSettingChange, updateSettings, applySettings, saveSettings, getSettings,
    field_spread, field_cons, field_nil]
  by_cases hk : setting.id = k
  · simp [hk]
  · have hk1 : ¬ k = setting.id := fun h => hk h.symm
    simp [hk, hk1]

/-- The settings form shows the same values after a change made through an input whose
id is none of the names the form reads. -/
theorem initializeSettings_change (a : App) (setting : Target)
    (hid : setting.id ∉ ["apiUrl", "apiKey", "autoSync", "darkMode", "directoryName"]) :
    initializeSettings (handleSettingChange a setting) = initializeSettings a := by
  simp only [List.mem_cons, List.mem_singleton, List.not_mem_nil, or_false, not_or] at hid
  obtain ⟨h1, h2, h3, h4, h5⟩ := hid
  have e1 : ¬ "apiUrl" = setting.id := fun h => h1 h.symm
  have e2 : ¬ "apiKey" = setting.id := fun h => h2 h.symm
  have e3 : ¬ "autoSync" = setting.id := fun h => h3 h.symm
  have e4 : ¬ "darkMode" = setting.id := fun h => h4 h.symm
  have e5 : ¬ "directoryName" = setting.id := fun h => h5 h.symm
  unfold initializeSettings
  simp only [handleSettingChange_field, e1, e2, e3, e4, e5, if_false]

/-- C27, as the code behaves. The change handler of the settings form passes to
`updateSettings` an object whose one property is named by `setting.id`, and the ids of the inputs are
`api-url`, `api-key`, `auto-sync` and `dark-mode`: whatever the input holds, the
change sets the property of that name and leaves `apiUrl`, `apiKey`, `autoSync` and
`darkMode` as they were, so that the form shows the former values when it is opened
again and the dark mode of the page is not switched. With the initial settings, an
endpoint and a credential typed in the form do not configure the sync: a drain ends
with `Sync Error` and `forceSync` returns `false`. -/
theorem settings_form_writes_element_id (a : App) (type value : String) (checked : Bool) :
    (∀ id ∈ ["api-url", "api-key", "auto-sync", "dark-mode"],
      field (getSettings (handleSettingChange a ⟨id, type, checked, value⟩)) id
        = some (if type == "checkbox" then JVal.bool checked else JVal.str value) ∧
      (∀ k ∈ ["apiUrl", "apiKey", "autoSync", "darkMode"],
        field (getSettings (handleSettingChange a ⟨id, type, checked, value⟩)) k
          = field (getSettings a) k) ∧
      initializeSettings (handleSettingChange a ⟨id, type, checked, value⟩)
        = initializeSettings a ∧
      (handleSettingChange a ⟨id, type, checked, value⟩).darkMode
        = truthy ((field (getSettings a) "darkMode").getD .undefined)) ∧
    field (getSettings (handleSettingChange (freshApp [] [item1])
      ⟨"api-url", "url", false, "https://api.example"⟩)) "apiUrl" = some (.str "") ∧
    ¬ Configured (handleSettingChange (handleSettingChange (freshApp [] [item1])
      ⟨"api-url", "url", false, "https://api.example"⟩) ⟨"api-key", "password", false, "key"⟩) ∧
    (processSyncQueue "t1" (handleSettingChange (handleSettingChange (freshApp [] [item1])
      ⟨"api-url", "url", false, "https://api.example"⟩)
      ⟨"api-key", "password", false, "key"⟩)).notices = [⟨"error", "Sync Error"⟩] ∧
    (forceSync sampleIds sampleIds "t1" (handleSettingChange (handleSettingChange
      (freshApp [] [item1]) ⟨"api-url", "url", false, "https://api.example"⟩)
      ⟨"api-key", "password", false, "key"⟩)).2 = some false := by
  refine ⟨?_, by decide, by decide, by decide, by decide⟩
  intro id hid
  have hne : ∀ k ∈ ["apiUrl", "apiKey", "autoSync", "darkMode", "directoryName"], k ≠ id := by
    intro k hk hkid
    subst hkid
    simp only [List.mem_cons, List.mem_singleton, List.not_mem_nil, or_false] at hid hk
    rcases hk with h | h | h | h | h <;> subst h <;> exact absurd hid (by decide)
  refine ⟨by simp [handleSettingChange_field], ?_, ?_, ?_⟩
  · intro k hk
    have : k ≠ id := hne k (by
      simp only [List.mem_cons, List.mem_singleton, List.not_mem_nil, or_false] at hk ⊢
      tauto)
    simp [handleSettingChange_field, this]
  · apply initializeSettings_change
    intro hmem
    exact hne id hmem rfl
  · have h4 : "darkMode" ≠ id := hne "darkMode" (by simp)
    have := handleSettingChange_field a ⟨id, type, checked, value⟩ "darkMode"
    simp only [getSettings, h4, if_false] at this
    simp only [handleSettingChange, updateSettings, applySettings, saveSettings, getSettings]
    simp only [handleSettingChange, updateSettings, applySettings, saveSettings, getSettings]
      at this
    rw [this]

/-- C28. A drain that finds the endpoint or the credential unset costs no attempt.
When the queue is not empty, the host is online, no drain is running and `apiUrl` or
`apiKey` is unset (falsy), `_processSyncQueue` changes nothing but the notifications,
to which it adds one `Sync Error`: no item is handed to the transport, the queue and
the retries of its items are unchanged, the time of the last sync is not updated, and
`_isSyncing` is false afterwards, so that a later drain, once the settings name an
endpoint and a credential, hands the first item of the queue to the transport. -/
theorem unconfigured_drain (now : String) (a : App)
    (hs : a.isSyncing = false) (ho : a.online = true) (hq : a.syncQueue ≠ [])
    (hc : ¬ Configured a) :
    processSyncQueue now a = { a with notices := a.notices ++ [⟨"error", "Sync Error"⟩] } ∧
    (processSyncQueue now a).sent = a.sent ∧
    (processSyncQueue now a).syncQueue = a.syncQueue ∧
    (processSyncQueue now a).syncQueue.map (fun e => e.retries)
      = a.syncQueue.map (fun e => e.retries) ∧
    (processSyncQueue now a).lastSyncTime = a.lastSyncTime ∧
    field (getSettings (processSyncQueue now a)) "lastSyncTime"
      = field (getSettings a) "lastSyncTime" ∧
    (processSyncQueue now a).notices = a.notices ++ [⟨"error", "Sync Error"⟩] ∧
    (processSyncQueue now a).isSyncing = false ∧
    (∀ (later : String) (settings : Obj),
      truthy ((field settings "apiUrl").getD .undefined) = true →
      truthy ((field settings "apiKey").getD .undefined) = true →
      (processSyncQueue later { processSyncQueue now a with settings := settings }).sent
        = a.sent ++ a.syncQueue.take 1) := by
  have hlen : a.syncQueue.length ≠ 0 := by
    intro h0; exact hq (List.length_eq_zero.mp h0)
  have hcfg : (!truthy ((field a.settings "apiUrl").getD .undefined)
      || !truthy ((field a.settings "apiKey").getD .undefined)) = true := by
    unfold Configured at hc
    cases h1 : truthy ((field a.settings "apiUrl").getD .undefined) <;>
      cases h2 : truthy ((field a.settings "apiKey").getD .undefined) <;> simp_all
  have h : processSyncQueue now a
      = { a with notices := a.notices ++ [⟨"error", "Sync Error"⟩] } := by
    unfold processSyncQueue
    simp only [hs, ho, getSettings, hcfg, if_true]
    simp [hlen]
  rw [h]
  refine ⟨rfl, rfl, rfl, rfl, rfl, rfl, rfl, hs, ?_⟩
  intro later settings h1 h2
  cases hqq : a.syncQueue with
  | nil => exact absurd hqq hq
  | cons item rest =>
    simp [processSyncQueue, hs, ho, hqq, getSettings, h1, h2, drainFrom]

/-- Instance of C28: a drain on the queue `i1, i2` of an application whose settings
are the initial ones. -/
theorem unconfigured_drain_witness :
    processSyncQueue "t1" (freshApp [] [item1, item2])
      = { freshApp [] [item1, item2] with notices := [⟨"error", "Sync Error"⟩] } :=
  (unconfigured_drain "t1" (freshApp [] [item1, item2]) (by decide) (by decide) (by decide)
    (by decide)).1

end QuestFlow
